import Mathlib

/-!
# ProfileGenerator (scripts/generator.js): template engine and Markdown renderer

A shallow embedding of the README template engine of `scripts/generator.js`
(class `ProfileGenerator`): `generateREADME`, the theme functions and the
sub-formatters they call, of the Markdown renderer `formatPreview`, and of the
form code around them: `validateField`, `debounce` and the `input` listener.

Modelling conventions.

* JavaScript strings are Lean `String`s (sequences of Unicode scalar values);
  strings holding a lone surrogate are outside the model.
* A primitive JavaScript value is a `Value`; numbers are the integer-valued ones.
* An argument of a method is an `Input`: a primitive, or an object seen through
  the sixteen profile properties the code reads (`ProfileData`); a property the
  object lacks reads as `undefined`.
* A `try { ... } catch (error) { ... }` block is `tryCatch body handler`, the body
  being an `Except JSError String`; `console.warn` and `console.error` have no
  effect on the returned value and are left out.
* String literals are copied from the source file character by character.
* A global `replace` with a regular expression is a left-to-right scan with the
  matcher of that expression (`replaceAll`, `replaceLineStart`); the flags `m`,
  `s` and the lazy groups are modelled in the matchers.
* Timers are an explicit event loop (`EventLoop`): the clock, the pending
  timeouts, and the number of calls of `updatePreview` so far.
-/

set_option maxRecDepth 100000

namespace ProfileGenerator

/-! ## JavaScript values -/

/-- Primitive JavaScript values. -/
inductive Value where
  | undefined
  | null
  | bool (b : Bool)
  | num (n : Int)
  | str (s : String)
  deriving DecidableEq, Repr

/-- The exceptions the modelled code can raise. -/
inductive JSError where
  | typeError (msg : String)
  deriving DecidableEq, Repr

/-- JavaScript `ToBoolean`. -/
def Value.truthy : Value → Bool
  | .undefined => false
  | .null => false
  | .bool b => b
  | .num n => n != 0
  | .str s => s != ""

/-- The test `typeof v === 'string'`. -/
def Value.isString : Value → Bool
  | .str _ => true
  | _ => false

/-- JavaScript `ToString`, as applied by a template-literal substitution
(for a number: the decimal numeral, exact below 10^21 in absolute value). -/
def Value.toStr : Value → String
  | .undefined => "undefined"
  | .null => "null"
  | .bool true => "true"
  | .bool false => "false"
  | .num n => toString n
  | .str s => s

/-- The value of `a || b`. -/
def Value.or (a b : Value) : Value := if a.truthy then a else b

/-- The record of properties the template engine reads from `data`. -/
structure ProfileData where
  name : Value := .undefined
  username : Value := .undefined
  tagline : Value := .undefined
  about : Value := .undefined
  skills : Value := .undefined
  projects : Value := .undefined
  youtube : Value := .undefined
  twitter : Value := .undefined
  website : Value := .undefined
  blog : Value := .undefined
  location : Value := .undefined
  company : Value := .undefined
  githubStats : Value := .undefined
  contributionGraph : Value := .undefined
  languageStats : Value := .undefined
  profileViews : Value := .undefined
  deriving DecidableEq, Repr

/-- An argument passed as `data`: a primitive value or an object. -/
inductive Input where
  | prim (v : Value)
  | record (d : ProfileData)
  deriving DecidableEq, Repr

/-- JavaScript `ToBoolean` of an argument: every object is truthy. -/
def Input.truthy : Input → Bool
  | .prim v => v.truthy
  | .record _ => true

/-- The test `typeof data === 'object'` for an argument that passed `!data`:
among truthy values only objects have that type. -/
def Input.isObject : Input → Bool
  | .prim _ => false
  | .record _ => true

/-- The properties of a non-nullish argument: those of the object, and
`undefined` throughout for a primitive (none of the sixteen names is a
property of a string, number or boolean). -/
def Input.view : Input → ProfileData
  | .prim _ => {}
  | .record d => d

/-- The state of a `ProfileGenerator` instance set by the constructor that is
not a DOM handle. -/
structure Generator where
  currentTheme : String := "classic"
  isDarkMode : Bool := false
  profileImage : Option String := none
  deriving DecidableEq, Repr

/-- A `try`/`catch` block whose two branches return a string. -/
def tryCatch (body : Except JSError String) (handler : JSError → String) : String :=
  match body with
  | .ok s => s
  | .error e => handler e

/-! ## String primitives -/

/-- The characters `String.prototype.trim` strips: ECMAScript WhiteSpace and
LineTerminator. -/
def isJSWhitespace (c : Char) : Bool :=
  let n := c.toNat
  n == 0x09 || n == 0x0A || n == 0x0B || n == 0x0C || n == 0x0D || n == 0x20 ||
  n == 0xA0 || n == 0x1680 || (0x2000 ≤ n && n ≤ 0x200A) || n == 0x2028 ||
  n == 0x2029 || n == 0x202F || n == 0x205F || n == 0x3000 || n == 0xFEFF

/-- The method `String.prototype.trim`. -/
def trim (s : String) : String :=
  ⟨((s.data.dropWhile isJSWhitespace).reverse.dropWhile isJSWhitespace).reverse⟩

/-- The call `v.trim()`: a `TypeError` unless `v` is a string (the call sites
guard it by a truthiness test, so `v` is not null or undefined there, and a
number or boolean has no `trim` method). -/
def Value.trim : Value → Except JSError String
  | .str s => .ok (ProfileGenerator.trim s)
  | _ => .error (.typeError "trim is not a function")

/-- Worker of `split`: `k` characters of a matched separator remain to be
skipped; the result is the list of pieces of the remaining input. -/
def splitGo (sep : List Char) : Nat → List Char → List (List Char)
  | _, [] => [[]]
  | k + 1, _ :: cs => splitGo sep k cs
  | 0, c :: cs =>
    if sep.isPrefixOf (c :: cs) then [] :: splitGo sep (sep.length - 1) cs
    else
      match splitGo sep 0 cs with
      | [] => [[c]]
      | p :: ps => (c :: p) :: ps

/-- The method `String.prototype.split` with a non-empty string separator and no
limit: the input is cut at every occurrence of the separator, found from left
to right without overlap. -/
def split (s sep : String) : List String :=
  (splitGo sep.data 0 s.data).map String.mk

/-- The method `Array.prototype.join` on an array of strings. -/
def join (parts : List String) (sep : String) : String :=
  ⟨sep.data.intercalate (parts.map String.data)⟩

/-- The test `s.includes(t)`: `t` occurs in `s` as a substring. -/
def includes (s t : String) : Prop := t.data <:+: s.data

instance (s t : String) : Decidable (includes s t) := by
  unfold includes; infer_instance

/-- The two hexadecimal digits of a byte, upper case. -/
def hexByte (b : Nat) : List Char :=
  let digit (n : Nat) : Char := "0123456789ABCDEF".data.getD n '0'
  ['%', digit (b / 16), digit (b % 16)]

/-- The UTF-8 encoding of a code point. -/
def utf8Bytes (n : Nat) : List Nat :=
  if n < 0x80 then [n]
  else if n < 0x800 then [0xC0 + n / 64, 0x80 + n % 64]
  else if n < 0x10000 then [0xE0 + n / 4096, 0x80 + n / 64 % 64, 0x80 + n % 64]
  else [0xF0 + n / 262144, 0x80 + n / 4096 % 64, 0x80 + n / 64 % 64, 0x80 + n % 64]

/-- The characters `encodeURIComponent` leaves as they are. -/
def isUriUnreserved (c : Char) : Bool :=
  c.isAlphanum || "-_.!~*\x27()".data.contains c

/-- The global function `encodeURIComponent` on a string: every character
outside the unreserved set becomes the percent-escapes of its UTF-8 bytes. -/
def encodeURIComponent (s : String) : String :=
  ⟨s.data.flatMap fun c =>
    if isUriUnreserved c then [c] else (utf8Bytes c.toNat).flatMap hexByte⟩

/-! ## Sub-formatters -/

/-- The theme token of a stats badge: `this.isDarkMode ? 'dark' : 'default'`. -/
def themeToken (g : Generator) : String :=
  if g.isDarkMode then "dark" else "default"

/-- The initial value of `stats` in `generateGitHubStats`. -/
def statsHeading : String := "\n## \uF8FFüìä GitHub Statistics\n\n"

/-- The URL of the stats-card image. -/
def statsCardUrl (g : Generator) (username : String) : String :=
  "https://github-readme-stats.vercel.app/api?username=" ++ encodeURIComponent username ++
  "&show_icons=true&theme=" ++ themeToken g

/-- The URL of the top-languages image. -/
def topLangsUrl (g : Generator) (username : String) : String :=
  "https://github-readme-stats.vercel.app/api/top-langs/?username=" ++
  encodeURIComponent username ++ "&layout=compact&theme=" ++ themeToken g

/-- The URL of the profile-views image. -/
def profileViewsUrl (username : String) : String :=
  "https://komarev.com/ghpvc/?username=" ++ encodeURIComponent username ++ "&color=brightgreen"

/-- A Markdown image embed followed by a blank line, the shape of the three
template literals appended to `stats`. -/
def imageEmbed (alt url : String) : String := "![" ++ alt ++ "](" ++ url ++ ")\n\n"

/-- The text appended when `contributionGraph` is on. -/
def statsCardEmbed (g : Generator) (username : String) : String :=
  imageEmbed (username ++ "\x27s GitHub stats") (statsCardUrl g username)

/-- The text appended when `languageStats` is on. -/
def topLangsEmbed (g : Generator) (username : String) : String :=
  imageEmbed "Top Languages" (topLangsUrl g username)

/-- The text appended when `profileViews` is on. -/
def profileViewsEmbed (username : String) : String :=
  imageEmbed "Profile Views" (profileViewsUrl username)

/-- One of the three blocks of `generateGitHubStats`,
`if (toggle && data.username) { const username = data.username.trim();
if (username) { stats += embed } }`, as a function of the current `stats`. -/
def statsBlock (toggle usernameField : Value) (embed : String → String) (stats : String) :
    Except JSError String :=
  if toggle.truthy && usernameField.truthy then
    match usernameField.trim with
    | .error e => .error e
    | .ok username => if username != "" then .ok (stats ++ embed username) else .ok stats
  else .ok stats

/-- The `try` block of `generateGitHubStats`. -/
def generateGitHubStatsTry (g : Generator) (data : Input) : Except JSError String :=
  if !data.truthy || !data.view.githubStats.truthy then .ok ""
  else do
    let stats ← statsBlock data.view.contributionGraph data.view.username (statsCardEmbed g)
      statsHeading
    let stats ← statsBlock data.view.languageStats data.view.username (topLangsEmbed g) stats
    let stats ← statsBlock data.view.profileViews data.view.username profileViewsEmbed stats
    pure stats

/-- The method `generateGitHubStats(data)`. -/
def generateGitHubStats (g : Generator) (data : Input) : String :=
  tryCatch (generateGitHubStatsTry g data) fun _ => ""

/-- The array `skills.split(',').map(s => s.trim()).filter(s => s)`. -/
def skillArray (skills : String) : List String :=
  ((split skills ",").map trim).filter fun s => s != ""

/-- The method `formatSkills(skills)`. -/
def formatSkills (skills : Value) : String :=
  tryCatch
    (if !skills.truthy || !skills.isString then .ok ""
     else .ok (join ((skillArray skills.toStr).map fun skill => "- " ++ skill) "\n"))
    fun _ => ""

/-- The method `formatSkillsForCode(skills)`. -/
def formatSkillsForCode (skills : Value) : String :=
  tryCatch
    (if !skills.truthy || !skills.isString then .ok ""
     else .ok (join (skillArray skills.toStr) " | "))
    fun _ => ""

/-- An element read from an array of strings by destructuring: `undefined`
past the end. -/
def element (xs : List String) (i : Nat) : Value :=
  match xs.get? i with
  | some s => .str s
  | none => .undefined

/-- The callback of `projectArray.map` in `formatProjects`:
`const [name, description] = project.split(' - ')` takes the first two pieces
of the split line. -/
def formatProject (project : String) : String :=
  tryCatch
    (let pieces := split project " - "
     let name := element pieces 0
     let description := element pieces 1
     if description.truthy then .ok ("- **" ++ name.toStr ++ "** - " ++ description.toStr)
     else .ok ("- " ++ name.toStr))
    fun _ => "- " ++ project

/-- The array `projects.split('\n').filter(p => p.trim())`. -/
def projectArray (projects : String) : List String :=
  (split projects "\n").filter fun p => trim p != ""

/-- The method `formatProjects(projects)`. -/
def formatProjects (projects : Value) : String :=
  tryCatch
    (if !projects.truthy || !projects.isString then .ok ""
     else .ok (join ((projectArray projects.toStr).map formatProject) "\n"))
    fun _ => ""

/-- The method `formatLocationAndWork(data)`. -/
def formatLocationAndWork (data : Input) : String :=
  tryCatch
    (if !data.truthy || !data.isObject then .ok ""
     else
      let d := data.view
      let parts : List String :=
        (if d.location.truthy && d.location.isString then
          ["\uF8FFüìç **Location:** " ++ d.location.toStr] else []) ++
        (if d.company.truthy && d.company.isString then
          ["\uF8FFüè¢ **Company:** " ++ d.company.toStr] else []) ++
        (if d.blog.truthy && d.blog.isString then
          ["\uF8FFüìù **Blog:** [" ++ d.blog.toStr ++ "](" ++ d.blog.toStr ++ ")"] else [])
      .ok (if parts.length > 0 then join parts " | " else ""))
    fun _ => ""

/-- The method `formatSocialLinks(data)`. -/
def formatSocialLinks (data : Input) : String :=
  tryCatch
    (if !data.truthy || !data.isObject then .ok "[GitHub](https://github.com/)"
     else
      let d := data.view
      let links : List String :=
        (if d.youtube.truthy && d.youtube.isString then
          ["[YouTube](" ++ d.youtube.toStr ++ ")"] else []) ++
        (if d.twitter.truthy && d.twitter.isString then
          ["[Twitter/X](" ++ d.twitter.toStr ++ ")"] else []) ++
        (if d.website.truthy && d.website.isString then
          ["[Website](" ++ d.website.toStr ++ ")"] else []) ++
        (if d.blog.truthy && d.blog.isString && d.blog != d.website then
          ["[Blog](" ++ d.blog.toStr ++ ")"] else [])
      let github := "[GitHub](https://github.com/" ++ (d.username.or (.str "")).toStr ++ ")"
      if links.length > 0 then .ok (join (links ++ [github]) " | ")
      else .ok github)
    fun _ => "[GitHub](https://github.com/)"

/-! ## Theme functions -/

/-- The method `generateClassicTheme(data)`: one template literal. -/
def generateClassicTheme (g : Generator) (data : ProfileData) : String :=
  "# \uF8FFüëã Hi there, I\x27m " ++
  data.name.toStr ++
  "!\n\n" ++
  (if data.tagline.truthy then "> " ++ data.tagline.toStr else "") ++
  "\n\n" ++
  (if data.about.truthy then "## About Me\n\n" ++ data.about.toStr ++ "\n" else "") ++
  "\n\n" ++
  generateGitHubStats g (.record data) ++
  "\n\n## \uF8FFüõ†Ô∏è Skills\n\n" ++
  formatSkills data.skills ++
  "\n\n## \uF8FFüöÄ Featured Projects\n\n" ++
  formatProjects data.projects ++
  "\n\n## \uF8FFüìç Location & Work\n\n" ++
  formatLocationAndWork (.record data) ++
  "\n\n## \uF8FFüì± Connect with Me\n\n" ++
  formatSocialLinks (.record data) ++
  "\n\n---\n\n‚≠ê **Star this repository if you found it helpful!** ‚≠ê"

/-- The method `generateDarkTheme(data)`: one template literal. -/
def generateDarkTheme (g : Generator) (data : ProfileData) : String :=
  "# \uF8FFüåô " ++
  data.name.toStr ++
  "\n\n" ++
  (if data.tagline.truthy then "> " ++ data.tagline.toStr else "") ++
  "\n\n" ++
  (if data.about.truthy then "## About\n\n" ++ data.about.toStr ++ "\n" else "") ++
  "\n\n" ++
  generateGitHubStats g (.record data) ++
  "\n\n## \uF8FFüõ†Ô∏è Tech Stack\n\n" ++
  formatSkills data.skills ++
  "\n\n## \uF8FFüöÄ Projects\n\n" ++
  formatProjects data.projects ++
  "\n\n## \uF8FFüîó Links\n\n" ++
  formatSocialLinks (.record data) ++
  "\n\n---\n\n*Dark theme by [" ++
  data.username.toStr ++
  "](https://github.com/" ++
  data.username.toStr ++
  ")*"

/-- The method `generateColorfulTheme(data)`: one template literal. -/
def generateColorfulTheme (g : Generator) (data : ProfileData) : String :=
  "# \uF8FFüé® " ++
  data.name.toStr ++
  "\n\n" ++
  (if data.tagline.truthy then "> " ++ data.tagline.toStr else "") ++
  "\n\n" ++
  (if data.about.truthy then "## ‚ú® About\n\n" ++ data.about.toStr ++ "\n" else "") ++
  "\n\n" ++
  generateGitHubStats g (.record data) ++
  "\n\n## \uF8FFüéØ Skills & Technologies\n\n" ++
  formatSkills data.skills ++
  "\n\n## \uF8FFüåü Featured Work\n\n" ++
  formatProjects data.projects ++
  "\n\n## \uF8FFüåê Social & Links\n\n" ++
  formatSocialLinks (.record data) ++
  "\n\n---\n\n\uF8FFüéâ **Thanks for visiting!** \uF8FFüéâ"

/-- The method `generateMinimalTheme(data)`: one template literal. -/
def generateMinimalTheme (g : Generator) (data : ProfileData) : String :=
  "# " ++
  data.name.toStr ++
  "\n\n" ++
  (if data.tagline.truthy then data.tagline.toStr ++ "\n" else "") ++
  "\n\n" ++
  (if data.about.truthy then data.about.toStr ++ "\n" else "") ++
  "\n\n" ++
  generateGitHubStats g (.record data) ++
  "\n\n## Skills\n\n" ++
  formatSkills data.skills ++
  "\n\n## Projects\n\n" ++
  formatProjects data.projects ++
  "\n\n## Contact\n\n" ++
  formatSocialLinks (.record data)

/-- The method `generateDeveloperTheme(data)`: one template literal. -/
def generateDeveloperTheme (g : Generator) (data : ProfileData) : String :=
  "# " ++
  data.name.toStr ++
  "\n\n\x60\x60\x60\n" ++
  (if data.tagline.truthy then data.tagline.toStr else "Developer") ++
  "\n\x60\x60\x60\n\n" ++
  (if data.about.truthy then "## About\n\n" ++ data.about.toStr ++ "\n" else "") ++
  "\n\n" ++
  generateGitHubStats g (.record data) ++
  "\n\n## Stack\n\n\x60\x60\x60\n" ++
  formatSkillsForCode data.skills ++
  "\n\x60\x60\x60\n\n## Projects\n\n" ++
  formatProjects data.projects ++
  "\n\n## Links\n\n" ++
  formatSocialLinks (.record data) ++
  "\n\n---\n\n\x60\x60\x60typescript\n// Made with ‚ù§Ô∏è by " ++
  data.username.toStr ++
  "\n\x60\x60\x60"

/-- The method `generateProfessionalTheme(data)`: one template literal. -/
def generateProfessionalTheme (g : Generator) (data : ProfileData) : String :=
  "# " ++
  data.name.toStr ++
  "\n\n" ++
  (if data.tagline.truthy then "> " ++ data.tagline.toStr else "") ++
  "\n\n" ++
  (if data.about.truthy then "## Professional Summary\n\n" ++ data.about.toStr ++ "\n" else "") ++
  "\n\n" ++
  generateGitHubStats g (.record data) ++
  "\n\n## \uF8FFüéØ Core Competencies\n\n" ++
  formatSkills data.skills ++
  "\n\n## \uF8FFüöÄ Key Projects\n\n" ++
  formatProjects data.projects ++
  "\n\n## \uF8FFüíº Professional Experience\n\n" ++
  formatLocationAndWork (.record data) ++
  "\n\n## \uF8FFüåê Professional Network\n\n" ++
  formatSocialLinks (.record data) ++
  "\n\n---\n\n*Professional profile maintained by [" ++
  data.username.toStr ++
  "](https://github.com/" ++
  data.username.toStr ++
  ")*"

/-- The method `generateTechTheme(data)`: one template literal. -/
def generateTechTheme (g : Generator) (data : ProfileData) : String :=
  "# \uF8FFüíª " ++
  data.name.toStr ++
  "\n\n" ++
  (if data.tagline.truthy then "> " ++ data.tagline.toStr else "") ++
  "\n\n" ++
  (if data.about.truthy then "## About\n\n" ++ data.about.toStr ++ "\n" else "") ++
  "\n\n" ++
  generateGitHubStats g (.record data) ++
  "\n\n## \uF8FFüõ†Ô∏è Technology Stack\n\n" ++
  formatSkills data.skills ++
  "\n\n## \uF8FFüîß Technical Projects\n\n" ++
  formatProjects data.projects ++
  "\n\n## \uF8FFüîó Technical Resources\n\n" ++
  formatSocialLinks (.record data) ++
  "\n\n---\n\n\uF8FFüíª **Building the future, one commit at a time** \uF8FFüíª"

/-! ## Theme dispatch -/

/-- The value returned by `generateREADME` when `data` or `theme` is falsy. -/
def missingDataMessage : String :=
  "# Error: Missing data\n\nPlease fill in the required fields."

/-- The value returned by the `catch` block of `generateREADME`. -/
def generationFailedMessage : String :=
  "# Error: Failed to generate README\n\nPlease try again or refresh the page."

/-- A theme method bound to the instance. -/
abbrev ThemeFunction := ProfileData → String

/-- The property `this[name]` for the method names `generateREADME` reads: the
class body of `ProfileGenerator` defines seven theme methods, and no member
named `generateCreativeTheme` exists anywhere in the file, so that property is
`undefined` (`none`). -/
def method (g : Generator) (name : String) : Option ThemeFunction :=
  if name = "generateClassicTheme" then some (generateClassicTheme g)
  else if name = "generateDarkTheme" then some (generateDarkTheme g)
  else if name = "generateColorfulTheme" then some (generateColorfulTheme g)
  else if name = "generateMinimalTheme" then some (generateMinimalTheme g)
  else if name = "generateDeveloperTheme" then some (generateDeveloperTheme g)
  else if name = "generateProfessionalTheme" then some (generateProfessionalTheme g)
  else if name = "generateTechTheme" then some (generateTechTheme g)
  else none

/-- The expression `this.m.bind(this)`: reading `bind` from `undefined` throws a
`TypeError`. -/
def bindThis (m : Option ThemeFunction) : Except JSError ThemeFunction :=
  match m with
  | some f => .ok f
  | none => .error (.typeError "Cannot read properties of undefined (reading \x27bind\x27)")

/-- The object literal `themes` of `generateREADME`: its eight property values
are evaluated in source order, and the first that throws aborts the literal. -/
def themesTable (g : Generator) : Except JSError (List (String × ThemeFunction)) := do
  let classic ← bindThis (method g "generateClassicTheme")
  let dark ← bindThis (method g "generateDarkTheme")
  let colorful ← bindThis (method g "generateColorfulTheme")
  let minimal ← bindThis (method g "generateMinimalTheme")
  let developer ← bindThis (method g "generateDeveloperTheme")
  let professional ← bindThis (method g "generateProfessionalTheme")
  let creative ← bindThis (method g "generateCreativeTheme")
  let tech ← bindThis (method g "generateTechTheme")
  pure [("classic", classic), ("dark", dark), ("colorful", colorful), ("minimal", minimal),
    ("developer", developer), ("professional", professional), ("creative", creative),
    ("tech", tech)]

/-- The `try` block of `generateREADME`. The lookup `themes[theme]` is modelled on
the own properties of the table, the key being `ToString(theme)`; members the
object literal inherits from `Object.prototype` are outside the model. -/
def generateREADMETry (g : Generator) (data : Input) (theme : Value) : Except JSError String :=
  if !data.truthy || !theme.truthy then .ok missingDataMessage
  else do
    let themes ← themesTable g
    match themes.lookup theme.toStr with
    | some themeFunction => pure (themeFunction data.view)
    | none =>
      match themes.lookup "classic" with
      | some classic => pure (classic data.view)
      | none => throw (.typeError "themes.classic is not a function")

/-- The method `generateREADME(data, theme)`. -/
def generateREADME (g : Generator) (data : Input) (theme : Value) : String :=
  tryCatch (generateREADMETry g data theme) fun _ => generationFailedMessage

/-! ## Markdown renderer -/

/-- The ECMAScript line terminators: the characters `.` does not match without
the `s` flag, and around which `^` and `$` match with the `m` flag. -/
def isLineTerminator (c : Char) : Bool :=
  c == '\n' || c == '\r' || c.toNat == 0x2028 || c.toNat == 0x2029

/-- The lazy group `(.*?)` followed by the literal `stop`, matched at the head
of the input: the captured text, the shortest that `stop` follows. Without the
`s` flag (`dotAll = false`) the group does not cross a line terminator. -/
def lazyUntil (stop : List Char) (dotAll : Bool) : List Char → Option (List Char)
  | [] => if stop.isPrefixOf [] then some [] else none
  | c :: cs =>
    if stop.isPrefixOf (c :: cs) then some []
    else if !dotAll && isLineTerminator c then none
    else (lazyUntil stop dotAll cs).map fun body => c :: body

/-- A pattern tried at the head of the remaining input: the replacement text
and the length of the match, which is at least one for every pattern here. -/
abbrev Matcher := List Char → Option (List Char × Nat)

/-- Worker of `String.prototype.replace` with a global pattern that has no
anchor: matches are taken from left to right without overlap, and `k` is the
number of characters of the current match still to be skipped. -/
def replaceGo (m : Matcher) : Nat → List Char → List Char
  | _, [] => []
  | k + 1, _ :: cs => replaceGo m k cs
  | 0, c :: cs =>
    match m (c :: cs) with
    | some (out, n) => out ++ replaceGo m (n - 1) cs
    | none => c :: replaceGo m 0 cs

/-- The call `s.replace(pattern, replacement)` for a global unanchored pattern. -/
def replaceAll (m : Matcher) (s : List Char) : List Char := replaceGo m 0 s

/-- Worker of `s.replace(/^P(.*$)/gim, open + '$1' + close)` for a literal `P`:
`atStart` tells whether the position is at the start of a line (start of input
or after a line terminator); the group takes the rest of the line. -/
def replaceLineGo (pre opening closing : List Char) : Bool → Nat → List Char → List Char
  | _, _, [] => []
  | _, k + 1, c :: cs => replaceLineGo pre opening closing (isLineTerminator c) k cs
  | atStart, 0, c :: cs =>
    if atStart && pre.isPrefixOf (c :: cs) then
      let body := ((c :: cs).drop pre.length).takeWhile fun x => !isLineTerminator x
      opening ++ body ++ closing ++
        replaceLineGo pre opening closing (isLineTerminator c) (pre.length + body.length - 1) cs
    else c :: replaceLineGo pre opening closing (isLineTerminator c) 0 cs

/-- The call `s.replace(/^P(.*$)/gim, open + '$1' + close)`. -/
def replaceLineStart (pre opening closing : String) (s : List Char) : List Char :=
  replaceLineGo pre.data opening.data closing.data true 0 s

/-- The pattern `D(.*?)D` for a literal delimiter `D`, replaced by
`open + '$1' + close`. -/
def delimited (delim : String) (dotAll : Bool) (opening closing : String) : Matcher :=
  fun s =>
    if delim.data.isPrefixOf s then
      (lazyUntil delim.data dotAll (s.drop delim.length)).map fun body =>
        (opening.data ++ body ++ closing.data, delim.length + body.length + delim.length)
    else none

/-- The pattern `\[(.*?)\]\((.*?)\)`, replaced by
`before + '$2' + between + '$1' + after`. Both groups stay on one line, so when
no `)` follows the first `](` none follows a later one either, and the first
`](` decides the match. -/
def link (before between after : String) : Matcher :=
  fun s =>
    if "[".data.isPrefixOf s then
      match lazyUntil "](".data false (s.drop 1) with
      | none => none
      | some text =>
        match lazyUntil ")".data false (s.drop (1 + text.length + 2)) with
        | none => none
        | some url =>
          some (before.data ++ url ++ between.data ++ text ++ after.data,
            1 + text.length + 2 + url.length + 1)
    else none

/-- A pattern that is a literal text, replaced by a literal text. -/
def literal (text replacement : String) : Matcher :=
  fun s => if text.data.isPrefixOf s then some (replacement.data, text.length) else none

/-- The value returned by `formatPreview` when `content` is falsy or not a string. -/
def noContentMessage : String := "<p class=\"text-gray-500\">No content to preview</p>"

/-- The value returned by the `catch` block of `formatPreview`. -/
def previewFailedMessage : String := "<p class=\"text-red-500\">Error formatting preview</p>"

/-- The chain of thirteen `replace` calls of `formatPreview`, in source order. -/
def markdownToHtml (content : List Char) : List Char :=
  content
  |> replaceLineStart "# "
      "<h1 class=\"text-3xl font-bold text-gray-900 dark:text-white mb-4\">" "</h1>"
  |> replaceLineStart "## "
      "<h2 class=\"text-2xl font-bold text-gray-800 dark:text-gray-200 mb-3 mt-6\">" "</h2>"
  |> replaceLineStart "### "
      "<h3 class=\"text-xl font-semibold text-gray-700 dark:text-gray-300 mb-2 mt-4\">" "</h3>"
  |> replaceAll (delimited "**" false "<strong class=\"font-bold\">" "</strong>")
  |> replaceAll (delimited "*" false "<em class=\"italic\">" "</em>")
  |> replaceAll (delimited "\x60" false
      "<code class=\"bg-gray-100 dark:bg-gray-800 px-2 py-1 rounded text-sm font-mono\">"
      "</code>")
  |> replaceAll (delimited "\x60\x60\x60" true
      "<pre class=\"bg-gray-100 dark:bg-gray-800 p-4 rounded-lg overflow-x-auto\"><code class=\"text-sm font-mono\">"
      "</code></pre>")
  |> replaceAll (link "<a href=\""
      "\" target=\"_blank\" class=\"text-blue-600 dark:text-blue-400 hover:underline\">" "</a>")
  |> replaceLineStart "> "
      "<blockquote class=\"border-l-4 border-blue-500 pl-4 italic text-gray-600 dark:text-gray-400 my-4\">"
      "</blockquote>"
  |> replaceLineStart "- " "<li class=\"ml-4\">" "</li>"
  |> replaceAll (literal "\n" "<br>")
  |> replaceAll (literal "<li class=\"ml-4\">"
      "<ul class=\"list-disc ml-6 my-2\"><li class=\"ml-4\">")
  |> replaceAll (literal "</li><br>" "</li></ul>")

/-- The test `typeof content === 'string'` on an argument. -/
def Input.isString : Input → Bool
  | .prim v => v.isString
  | .record _ => false

/-- The string an argument is, once it passed `typeof content === 'string'`. -/
def Input.text : Input → String
  | .prim (.str s) => s
  | _ => ""

/-- The `try` block of `formatPreview`. -/
def formatPreviewTry (content : Input) : Except JSError String :=
  if !content.truthy || !content.isString then .ok noContentMessage
  else .ok ⟨markdownToHtml content.text.data⟩

/-- The method `formatPreview(content)`. -/
def formatPreview (content : Input) : String :=
  tryCatch (formatPreviewTry content) fun _ => previewFailedMessage

/-! ## Form validation -/

/-- A form field as `validateField` reads it: its `id` and its `value`. -/
structure Field where
  id : Value
  value : Value
  deriving DecidableEq, Repr

/-- The test `/^[a-zA-Z0-9-]+$/.test(value)`: at least one character, each a
letter, a digit or a hyphen. -/
def usernamePattern (value : String) : Bool :=
  !value.data.isEmpty && value.data.all fun c => c.isAlphanum || c == '-'

/-- The expression `field.value?.trim() || ''`: `undefined` for a nullish value,
a `TypeError` for a value without a `trim` method. -/
def trimmedValue (value : Value) : Except JSError String :=
  match value with
  | .undefined => .ok ""
  | .null => .ok ""
  | .str s => .ok (trim s)
  | _ => .error (.typeError "trim is not a function")

/-- The `try` block of `validateField`; `showFieldError` and `clearFieldError`
touch the document only and return nothing, each inside its own `try`/`catch`. -/
def validateFieldTry (field : Option Field) : Except JSError Bool :=
  match field with
  | none => .ok false
  | some f =>
    if !f.id.truthy then .ok false
    else
      match trimmedValue f.value with
      | .error e => .error e
      | .ok value =>
        if f.id = .str "username" && value != "" && !usernamePattern value then .ok false
        else if f.id = .str "name" && value == "" then .ok false
        else .ok true

/-- The method `validateField(field)`: the `catch` block returns `false`. -/
def validateField (field : Option Field) : Bool :=
  match validateFieldTry field with
  | .ok b => b
  | .error _ => false

/-! ## Debounced preview -/

/-- A pending timeout of the event loop: its handle and the time it is due.
Every timeout the modelled code sets runs `later`, which calls `func`, here
`updatePreview`. -/
structure Timer where
  handle : Nat
  due : Nat
  deriving DecidableEq, Repr

/-- The event loop seen from `debounce`: the clock in milliseconds, the pending
timeouts, the next free handle, and how often `updatePreview` has run. -/
structure EventLoop where
  now : Nat := 0
  timers : List Timer := []
  nextHandle : Nat := 1
  previewCalls : Nat := 0
  deriving DecidableEq, Repr

/-- The closure state of one function returned by `debounce(func, wait)`: the
variable `timeout`. -/
structure DebouncedFn where
  wait : Nat
  timeout : Option Nat
  deriving DecidableEq, Repr

/-- The call `debounce(func, wait)` for a function `func`: a fresh closure whose
`timeout` is not set; nothing is scheduled. -/
def debounce (wait : Nat) : DebouncedFn := { wait := wait, timeout := none }

/-- The call `clearTimeout(timeout)`. -/
def clearTimeout (timeout : Option Nat) (loop : EventLoop) : EventLoop :=
  match timeout with
  | none => loop
  | some h => { loop with timers := loop.timers.filter fun t => t.handle != h }

/-- A call of the function returned by `debounce`: `clearTimeout(timeout);
timeout = setTimeout(later, wait)`. -/
def DebouncedFn.call (f : DebouncedFn) (loop : EventLoop) : DebouncedFn × EventLoop :=
  let cleared := clearTimeout f.timeout loop
  ({ f with timeout := some cleared.nextHandle },
   { cleared with
      timers := cleared.timers ++ [{ handle := cleared.nextHandle, due := cleared.now + f.wait }]
      nextHandle := cleared.nextHandle + 1 })

/-- The clock advances by `ms`: every timeout due by then runs `later`, which
calls `updatePreview` once. -/
def advance (ms : Nat) (loop : EventLoop) : EventLoop :=
  let fired := loop.timers.filter fun t => t.due ≤ loop.now + ms
  { loop with
    now := loop.now + ms
    timers := loop.timers.filter fun t => !(t.due ≤ loop.now + ms)
    previewCalls := loop.previewCalls + fired.length }

/-- The listener `() => this.debounce(this.updatePreview.bind(this), 300)` that
`bindEvents` registers for the form's `input` event: it creates a debounced
function and returns it to the dispatcher, which ignores it; the function is
never called. -/
def inputListener (loop : EventLoop) : EventLoop :=
  let _created := debounce 300
  loop

/-- What happens to the page: an `input` event on the form, or time passing. -/
inductive Action where
  | input
  | idle (ms : Nat)
  deriving DecidableEq, Repr

/-- The event loop after a sequence of actions. -/
def runActions : List Action → EventLoop → EventLoop
  | [], loop => loop
  | .input :: rest, loop => runActions rest (inputListener loop)
  | .idle ms :: rest, loop => runActions rest (advance ms loop)

/-- Three calls of one debounced function, 100 ms apart, then 300 ms of idle
time: the behaviour of a listener that would call what `debounce` returns. -/
def debouncedBurst : EventLoop :=
  let f0 := debounce 300
  let (f1, l1) := f0.call {}
  let (f2, l2) := f1.call (advance 100 l1)
  let (_, l3) := f2.call (advance 100 l2)
  advance 300 l3

/-! ## Reference data and specification-side definitions -/

/-- The eight theme identifiers of the enumeration. -/
def themeIds : List String :=
  ["classic", "dark", "colorful", "minimal", "developer", "professional", "creative", "tech"]

/-- A profile with the two required fields filled in. -/
def adaProfile : ProfileData :=
  { name := .str "Ada", username := .str "ada", skills := .str "", projects := .str "",
    location := .str "", company := .str "", blog := .str "" }

/-- The image embeds the statistics block is specified to hold for a trimmed
`username`, in order: stats card, top languages, profile views, each present
when its toggle is on. -/
def statsEmbeds (g : Generator) (d : ProfileData) (username : String) : List String :=
  (if d.contributionGraph.truthy then [statsCardEmbed g username] else []) ++
  (if d.languageStats.truthy then [topLangsEmbed g username] else []) ++
  (if d.profileViews.truthy then [profileViewsEmbed username] else [])

/-- A profile with the statistics toggle on and a blank username. -/
def blankUserProfile : ProfileData :=
  { name := .str "Ada", username := .str "  ", githubStats := .bool true,
    contributionGraph := .bool true, languageStats := .bool true, profileViews := .bool true }

/-- A profile with the statistics toggle and the three badge toggles on. -/
def octocatProfile : ProfileData :=
  { name := .str "Mona", username := .str " octocat ", githubStats := .bool true,
    contributionGraph := .bool true, languageStats := .bool true, profileViews := .bool true }

/-- A profile whose only badge is the profile-views counter. -/
def viewsOnlyProfile : ProfileData :=
  { name := .str "Mona", username := .str "octocat", githubStats := .bool true,
    profileViews := .bool true }

/-- The number of positions of a text at which `sep` occurs, overlapping
occurrences included. -/
def occurrences (sep : List Char) : List Char → Nat
  | [] => 0
  | c :: cs => (if sep.isPrefixOf (c :: cs) then 1 else 0) + occurrences sep cs

/-- A text cut once, at the first occurrence of `sep`: the text before it and
everything after it; `none` when `sep` does not occur. -/
def splitOnce (sep : List Char) : List Char → Option (List Char × List Char)
  | [] => none
  | c :: cs =>
    if sep.isPrefixOf (c :: cs) then some ([], (c :: cs).drop sep.length)
    else (splitOnce sep cs).map fun p => (c :: p.1, p.2)

/-- The lines of claim C10: the separator ` - ` occurs at most once, and when
it occurs the text after it is non-empty. -/
def simpleProjectLine (line : String) : Bool :=
  decide (occurrences " - ".data line.data ≤ 1) &&
  match splitOnce " - ".data line.data with
  | some (_, description) => !description.isEmpty
  | none => true

/-- The entry the specification gives for one project line: the line cut once
at the separator renders as name and description, a line without separator as
itself. -/
def specProjectEntry (line : String) : String :=
  match splitOnce " - ".data line.data with
  | some (name, description) => "- **" ++ String.mk name ++ "** - " ++ String.mk description
  | none => "- " ++ line

/-- The projects list as the specification words it: one entry per line that
is not blank, in input order, joined by newlines. -/
def specFormatProjects (lines : List String) : String :=
  join ((lines.filter fun line => trim line != "").map specProjectEntry) "\n"

/-- The entries of a skills string as the specification words them: the pieces
between the commas, each trimmed, the empty ones dropped, in input order. -/
def specSkillEntries (skills : String) : List String :=
  ((skills.data.splitOn ',').map fun piece => trim (String.mk piece)).filter fun e => e ≠ ""

/-- The optional links of `formatSocialLinks` as the specification lists them. -/
def specSocialLinks (youtube twitter website blog : String) : List String :=
  (if youtube ≠ "" then ["[YouTube](" ++ youtube ++ ")"] else []) ++
  (if twitter ≠ "" then ["[Twitter/X](" ++ twitter ++ ")"] else []) ++
  (if website ≠ "" then ["[Website](" ++ website ++ ")"] else []) ++
  (if blog ≠ "" ∧ blog ≠ website then ["[Blog](" ++ blog ++ ")"] else [])

/-- The label that opens the location part of `formatLocationAndWork`. -/
def locationLabel : String := "\uF8FFüìç **Location:** "

/-- The label that opens the company part of `formatLocationAndWork`. -/
def companyLabel : String := "\uF8FFüè¢ **Company:** "

/-- The label that opens the blog part of `formatLocationAndWork`. -/
def blogLabel : String := "\uF8FFüìù **Blog:** "

/-- The parts of `formatLocationAndWork` as the specification lists them: each
present field after its label, the blog as a Markdown link. -/
def specLocationParts (location company blog : String) : List String :=
  (if location ≠ "" then [locationLabel ++ location] else []) ++
  (if company ≠ "" then [companyLabel ++ company] else []) ++
  (if blog ≠ "" then [blogLabel ++ ("[" ++ blog ++ "](" ++ blog ++ ")")] else [])

/-- A profile whose statistics toggles are on and whose username is a number. -/
def numericUserProfile : ProfileData :=
  { username := .num 7, githubStats := .bool true, contributionGraph := .bool true }

/-- A profile whose website and blog are the same address. -/
def sameSiteProfile : ProfileData :=
  { youtube := .str "", twitter := .str "", website := .str "https://x.dev",
    blog := .str "https://x.dev", username := .str "ada" }

/-- A profile with a location and a blog and no company. -/
def osloProfile : ProfileData :=
  { location := .str "Oslo", company := .str "", blog := .str "https://b.io" }

/-- The property of claim C18 on an HTML text, scanned from left to right with
the number of `<ul` tags still open: every `<li` opening tag stands inside an
open `<ul`, every `</ul>` closes an open `<ul`, and none is left open. -/
def listItemsMatchedGo : Nat → List Char → Bool
  | depth, [] => depth == 0
  | depth, c :: cs =>
    if "<ul".data.isPrefixOf (c :: cs) then listItemsMatchedGo (depth + 1) cs
    else if "</ul>".data.isPrefixOf (c :: cs) then depth != 0 && listItemsMatchedGo (depth - 1) cs
    else if "<li".data.isPrefixOf (c :: cs) then depth != 0 && listItemsMatchedGo depth cs
    else listItemsMatchedGo depth cs

/-- The text holds no unmatched `<li>`. -/
def listItemsMatched (html : String) : Bool := listItemsMatchedGo 0 html.data

/-- The number of occurrences of `t` in `s`. -/
def countOf (s t : String) : Nat := occurrences t.data s.data

/-- The characters a plain text is free of: the Markdown marks this renderer
reads, the HTML special characters, and the line terminators. -/
def isSpecialChar (c : Char) : Bool :=
  "*\x60[]()#>-<&\"".data.contains c || isLineTerminator c

/-- A text free of Markdown and HTML special characters and of newlines. -/
def plainText (s : String) : Bool := s.data.all fun c => !isSpecialChar c

/-- A difference between `lit` and `t` is found within their common length, so
that `lit` is not a prefix of `t` whatever follows `t`. -/
def mismatch : List Char → List Char → Bool
  | x :: xs, c :: cs => x != c || mismatch xs cs
  | _, _ => false

/-- No occurrence of `lit` starts inside `t`, whatever follows `t`. -/
def clears (lit : List Char) : List Char → Bool
  | [] => true
  | c :: cs => mismatch lit (c :: cs) && clears lit cs

/-- The bold-and-italic input of claim C19 for the texts `a` and `b`. -/
def boldItalicInput (a b : String) : String := "**" ++ a ++ "** *" ++ b ++ "*"

/-- The seven theme functions the class defines. -/
def themeFunctions : List (Generator → ProfileData → String) :=
  [generateClassicTheme, generateDarkTheme, generateColorfulTheme, generateMinimalTheme,
    generateDeveloperTheme, generateProfessionalTheme, generateTechTheme]

/-- The text ends with the URL parameter name `theme=`. -/
def endsWithThemeKey (p : String) : Prop := "theme=".data <:+ p.data

/-- The output depends on the instance at most through the theme token of badge
URLs: it is a fixed text, or fixed texts around one or two copies of the
token, each copy standing right after `theme=`. -/
def tokenOnly (out : Generator → String) : Prop :=
  ∃ p0 p1 p2 : String,
    (∀ g, out g = p0) ∨
    (endsWithThemeKey p0 ∧ ∀ g, out g = p0 ++ themeToken g ++ p1) ∨
    (endsWithThemeKey p0 ∧ endsWithThemeKey p1 ∧
      ∀ g, out g = p0 ++ themeToken g ++ p1 ++ themeToken g ++ p2)

/-- Two instances that differ in every field of the controller state. -/
def lightGenerator : Generator := { currentTheme := "classic", isDarkMode := false }

/-- The instance in dark mode, with another theme selected and an image loaded. -/
def darkGenerator : Generator :=
  { currentTheme := "tech", isDarkMode := true, profileImage := some "data:image/png;base64,AA" }

/-- The stats-card embed up to its theme token. -/
def statsCardHead (username : String) : String :=
  "![" ++ username ++ "\x27s GitHub stats](https://github-readme-stats.vercel.app/api?username=" ++
    encodeURIComponent username ++ "&show_icons=true&" ++ "theme="

/-- The top-languages embed up to its theme token. -/
def topLangsHead (username : String) : String :=
  "![Top Languages](https://github-readme-stats.vercel.app/api/top-langs/?username=" ++
    encodeURIComponent username ++ "&layout=compact&" ++ "theme="

/-- A non-empty text made of whitespace only. -/
def whitespaceOnly (w : String) : Bool := !w.data.isEmpty && w.data.all isJSWhitespace

/-- A profile whose textual fields are all two blanks. -/
def blankFieldsProfile : ProfileData :=
  { name := .str "Ada", username := .str "  ", tagline := .str "  ", about := .str "  ",
    skills := .str "  ", projects := .str "  ", youtube := .str "  ", location := .str "  ",
    company := .str "  ", githubStats := .bool true, contributionGraph := .bool true }

/-- The array `parts` of `formatLocationAndWork` for an object. -/
def locationParts (d : ProfileData) : List String :=
  (if d.location.truthy && d.location.isString then [locationLabel ++ d.location.toStr] else []) ++
  (if d.company.truthy && d.company.isString then [companyLabel ++ d.company.toStr] else []) ++
  (if d.blog.truthy && d.blog.isString then
    [blogLabel ++ "[" ++ d.blog.toStr ++ "](" ++ d.blog.toStr ++ ")"] else [])

/-- The array `links` of `formatSocialLinks` for an object. -/
def socialLinks (d : ProfileData) : List String :=
  (if d.youtube.truthy && d.youtube.isString then ["[YouTube](" ++ d.youtube.toStr ++ ")"]
    else []) ++
  (if d.twitter.truthy && d.twitter.isString then ["[Twitter/X](" ++ d.twitter.toStr ++ ")"]
    else []) ++
  (if d.website.truthy && d.website.isString then ["[Website](" ++ d.website.toStr ++ ")"]
    else []) ++
  (if d.blog.truthy && d.blog.isString && d.blog != d.website then
    ["[Blog](" ++ d.blog.toStr ++ ")"] else [])

/-- The GitHub link `formatSocialLinks` ends with. -/
def githubLink (d : ProfileData) : String :=
  "[GitHub](https://github.com/" ++ (d.username.or (.str "")).toStr ++ ")"

/-- A one-line text: it holds no line terminator (`\n`, `\r`, U+2028, U+2029). -/
def oneLine (s : String) : Bool := s.data.all fun c => !isLineTerminator c

/-- The text holds none of the characters of `bad`. -/
def freeOf (bad : String) (s : String) : Bool := s.data.all fun c => !bad.data.contains c

/-- The text does not start with the character `c`. -/
def startsWithChar (s : String) (c : Char) : Bool := s.data.head? == some c

/-- A text that can stand as the text or the address of a link: one line, free
of the brackets and parentheses of the link syntax, of asterisks and backticks,
and of `<`, the first character of the two tags the last passes look for. -/
def linkText (s : String) : Bool := oneLine s && freeOf "[]()*\x60<" s

/-- The Markdown link `[text](url)`. -/
def markdownLink (text url : String) : String := "[" ++ text ++ "](" ++ url ++ ")"

/-- The anchor element the link rule writes for `[text](url)`. -/
def anchorElement (text url : String) : String :=
  "<a href=\"" ++ url ++
    "\" target=\"_blank\" class=\"text-blue-600 dark:text-blue-400 hover:underline\">" ++
    text ++ "</a>"

/-- What a line-start rule makes of one line: a line that begins with the
prefix is wrapped without it, any other line is copied. -/
def lineImage (pre opening closing : List Char) (line : List Char) : List Char :=
  if pre.isPrefixOf line then opening ++ line.drop pre.length ++ closing else line

/-- A line on which no rule behind the heading rules fires: it holds no line
terminator, asterisk, backtick or `[`, does not start with `>` or `-`, and no
list-item tag starts in it. -/
def settled (l : List Char) : Bool :=
  l.all (fun c => !isLineTerminator c) && l.all (fun c => !"*\x60[".data.contains c) &&
    (l.head? != some '>') && (l.head? != some '-') &&
    clears "<li class=\"ml-4\">".data l && clears "</li><br>".data l

/-- The ten `replace` calls of `formatPreview` behind the three heading rules,
in source order. -/
def afterHeadings (content : List Char) : List Char :=
  content
  |> replaceAll (delimited "**" false "<strong class=\"font-bold\">" "</strong>")
  |> replaceAll (delimited "*" false "<em class=\"italic\">" "</em>")
  |> replaceAll (delimited "\x60" false
      "<code class=\"bg-gray-100 dark:bg-gray-800 px-2 py-1 rounded text-sm font-mono\">"
      "</code>")
  |> replaceAll (delimited "\x60\x60\x60" true
      "<pre class=\"bg-gray-100 dark:bg-gray-800 p-4 rounded-lg overflow-x-auto\"><code class=\"text-sm font-mono\">"
      "</code></pre>")
  |> replaceAll (link "<a href=\""
      "\" target=\"_blank\" class=\"text-blue-600 dark:text-blue-400 hover:underline\">" "</a>")
  |> replaceLineStart "> "
      "<blockquote class=\"border-l-4 border-blue-500 pl-4 italic text-gray-600 dark:text-gray-400 my-4\">"
      "</blockquote>"
  |> replaceLineStart "- " "<li class=\"ml-4\">" "</li>"
  |> replaceAll (literal "\n" "<br>")
  |> replaceAll (literal "<li class=\"ml-4\">"
      "<ul class=\"list-disc ml-6 my-2\"><li class=\"ml-4\">")
  |> replaceAll (literal "</li><br>" "</li></ul>")

/-- The six `replace` calls of `formatPreview` that run before the fenced-code
rule, in source order; the last of them is the inline-code rule. -/
def beforeFenced (content : List Char) : List Char :=
  content
  |> replaceLineStart "# "
      "<h1 class=\"text-3xl font-bold text-gray-900 dark:text-white mb-4\">" "</h1>"
  |> replaceLineStart "## "
      "<h2 class=\"text-2xl font-bold text-gray-800 dark:text-gray-200 mb-3 mt-6\">" "</h2>"
  |> replaceLineStart "### "
      "<h3 class=\"text-xl font-semibold text-gray-700 dark:text-gray-300 mb-2 mt-4\">" "</h3>"
  |> replaceAll (delimited "**" false "<strong class=\"font-bold\">" "</strong>")
  |> replaceAll (delimited "*" false "<em class=\"italic\">" "</em>")
  |> replaceAll (delimited "\x60" false
      "<code class=\"bg-gray-100 dark:bg-gray-800 px-2 py-1 rounded text-sm font-mono\">"
      "</code>")

/-- The fenced-code rule, the seventh `replace` call of `formatPreview`. -/
def fencedPass (content : List Char) : List Char :=
  content
  |> replaceAll (delimited "\x60\x60\x60" true
      "<pre class=\"bg-gray-100 dark:bg-gray-800 p-4 rounded-lg overflow-x-auto\"><code class=\"text-sm font-mono\">"
      "</code></pre>")

/-- The six `replace` calls of `formatPreview` behind the fenced-code rule, in
source order. -/
def afterFenced (content : List Char) : List Char :=
  content
  |> replaceAll (link "<a href=\""
      "\" target=\"_blank\" class=\"text-blue-600 dark:text-blue-400 hover:underline\">" "</a>")
  |> replaceLineStart "> "
      "<blockquote class=\"border-l-4 border-blue-500 pl-4 italic text-gray-600 dark:text-gray-400 my-4\">"
      "</blockquote>"
  |> replaceLineStart "- " "<li class=\"ml-4\">" "</li>"
  |> replaceAll (literal "\n" "<br>")
  |> replaceAll (literal "<li class=\"ml-4\">"
      "<ul class=\"list-disc ml-6 my-2\"><li class=\"ml-4\">")
  |> replaceAll (literal "</li><br>" "</li></ul>")

/-- Two neighbouring characters of the text are both `x`. -/
def adjacent (x : Char) : List Char → Bool
  | a :: b :: cs => (a == x && b == x) || adjacent x (b :: cs)
  | _ => false

/-- The text `W` cannot begin inside the tag `T` nor reach into it from the
left: it does not start in `T`, whatever follows, and the first character of
`T` is none of the characters of `W` behind its first. -/
def sealedBy (W T : List Char) : Bool :=
  match T with
  | [] => false
  | t :: _ => !W.tail.contains t && clears W T

/-- The replacement texts of the rules of `formatPreview`, the fenced-code rule
apart: the tags, and the three parts of the anchor around address and text. -/
def tagTexts : List String :=
  ["<h1 class=\"text-3xl font-bold text-gray-900 dark:text-white mb-4\">", "</h1>",
    "<h2 class=\"text-2xl font-bold text-gray-800 dark:text-gray-200 mb-3 mt-6\">", "</h2>",
    "<h3 class=\"text-xl font-semibold text-gray-700 dark:text-gray-300 mb-2 mt-4\">", "</h3>",
    "<strong class=\"font-bold\">", "</strong>", "<em class=\"italic\">", "</em>",
    "<code class=\"bg-gray-100 dark:bg-gray-800 px-2 py-1 rounded text-sm font-mono\">",
    "</code>",
    "<a href=\"",
    "\" target=\"_blank\" class=\"text-blue-600 dark:text-blue-400 hover:underline\">", "</a>",
    "<blockquote class=\"border-l-4 border-blue-500 pl-4 italic text-gray-600 dark:text-gray-400 my-4\">",
    "</blockquote>", "<li class=\"ml-4\">", "</li>", "<br>",
    "<ul class=\"list-disc ml-6 my-2\"><li class=\"ml-4\">", "</li></ul>"]

/-- A text that none of the replacement texts lets begin or continue: every
occurrence of it in a rendered text lies in a part copied from the input. -/
def foreignTo (W : String) : Bool := tagTexts.all fun T => sealedBy W.data T.data

/-- A text that can stand as the text or the address of a link without another
rule firing: it holds no line terminator, none of the characters
`[ ] ( ) * \x60`, and neither of the two texts the last two rules look for. -/
def anchorPart (s : String) : Bool :=
  oneLine s && freeOf "[]()*\x60" s && !decide (includes s "<li class=\"ml-4\">") &&
    !decide (includes s "</li><br>")

/-- No occurrence of `W` touches the text `T`: none starts in `T`, whatever
follows, and none that starts before `T` goes on into it. -/
def shutOut (W T : List Char) : Bool :=
  clears W T && W.tail.tails.all fun b => b.isEmpty || mismatch b T

/-! ## Theorems: theme dispatch -/

theorem method_creative (g : Generator) : method g "generateCreativeTheme" = none := by
  simp [method]

/-- Building the table of bound theme methods throws for every instance: the
seventh property value reads `bind` from `undefined`. -/
theorem themesTable_throws (g : Generator) :
    themesTable g =
      .error (.typeError "Cannot read properties of undefined (reading \x27bind\x27)") := by
  simp [themesTable, method, bindThis, bind, Except.bind]

/-- Once the guard on `data` and `theme` is passed, the `try` block of
`generateREADME` throws and the `catch` block returns its fixed message. -/
theorem generateREADME_present (g : Generator) (data : Input) (theme : Value)
    (hd : data.truthy = true) (ht : theme.truthy = true) :
    generateREADME g data theme = generationFailedMessage := by
  simp [generateREADME, generateREADMETry, hd, ht, themesTable_throws, bind, Except.bind,
    tryCatch]

/-- Below the guard `generateREADME` returns the missing-data message. -/
theorem generateREADME_absent (g : Generator) (data : Input) (theme : Value)
    (h : data.truthy = false ∨ theme.truthy = false) :
    generateREADMETry g data theme = .ok missingDataMessage := by
  rcases h with h | h <;> simp [generateREADMETry, h]

/-- C1, evaluated on the code: for the profile with name `Ada` and each of the
eight theme identifiers, `generateREADME` returns the fixed message of its
`catch` block, and that message does not contain the name. -/
theorem generateREADME_themes_lose_name :
    themeIds.map (fun id => generateREADME {} (.record adaProfile) (.str id)) =
      List.replicate 8 generationFailedMessage ∧
    ¬ includes generationFailedMessage "Ada" := by
  refine ⟨?_, by decide⟩
  simp [themeIds, generateREADME_present, Input.truthy, Value.truthy, List.replicate]

/-- C2, evaluated on the code: the identifier `creative` has no formatting
function (the class defines no `generateCreativeTheme`), and for the profile
with name `Ada` the result of `generateREADME` with `classic` and with `dark`
is the `catch` message, not the output of `generateClassicTheme` or
`generateDarkTheme`. -/
theorem generateREADME_not_theme_function :
    (method {} "generateCreativeTheme").isNone = true ∧
    generateREADME {} (.record adaProfile) (.str "classic") ≠ generateClassicTheme {} adaProfile ∧
    generateREADME {} (.record adaProfile) (.str "dark") ≠ generateDarkTheme {} adaProfile := by
  refine ⟨by simp [method_creative], ?_, ?_⟩
  · rw [generateREADME_present {} (.record adaProfile) (.str "classic") rfl rfl]; decide
  · rw [generateREADME_present {} (.record adaProfile) (.str "dark") rfl rfl]; decide

/-- C3: `generateREADME` fails closed. When `data` or `theme` is falsy (absent
data, or a theme that is null, undefined or the empty string) the `try` block
completes without throwing and the result is the fixed missing-data message;
and for every input the result is a string: the value the `try` block
completed with, or else the fixed message of the `catch` block. -/
theorem generateREADME_fails_closed (g : Generator) (data : Input) (theme : Value) :
    (data.truthy = false ∨ theme.truthy = false →
      generateREADMETry g data theme = .ok missingDataMessage ∧
      generateREADME g data theme = missingDataMessage) ∧
    (generateREADMETry g data theme = .ok (generateREADME g data theme) ∨
      generateREADME g data theme = generationFailedMessage) := by
  constructor
  · intro h
    have h1 := generateREADME_absent g data theme h
    exact ⟨h1, by simp [generateREADME, h1, tryCatch]⟩
  · unfold generateREADME
    cases generateREADMETry g data theme with
    | ok s => left; rfl
    | error e => right; rfl

/-- Witness of C3: absent data, and an empty theme string. -/
theorem generateREADME_fails_closed_witness :
    generateREADME {} (.prim .null) (.str "classic") = missingDataMessage ∧
    generateREADME {} (.record adaProfile) (.str "") = missingDataMessage :=
  ⟨((generateREADME_fails_closed {} (.prim .null) (.str "classic")).1 (Or.inl rfl)).2,
   ((generateREADME_fails_closed {} (.record adaProfile) (.str "")).1 (Or.inr rfl)).2⟩

/-- C4: for every profile record and every non-empty theme string outside the
eight identifiers, `generateREADME` returns the same string as with `classic`. -/
theorem generateREADME_unknown_theme (g : Generator) (d : ProfileData) (theme : String)
    (hne : theme ≠ "") (hun : theme ∉ themeIds) :
    generateREADME g (.record d) (.str theme) = generateREADME g (.record d) (.str "classic") := by
  have _ := hun
  rw [generateREADME_present g (.record d) (.str theme) rfl (by simpa [Value.truthy] using hne),
    generateREADME_present g (.record d) (.str "classic") rfl rfl]

/-- Witness of C4: the unknown identifier `retro`. -/
theorem generateREADME_unknown_theme_witness :
    generateREADME {} (.record adaProfile) (.str "retro") =
      generateREADME {} (.record adaProfile) (.str "classic") :=
  generateREADME_unknown_theme {} adaProfile "retro" (by decide) (by decide)

/-! ## Theorems: statistics block -/

theorem includes_append_left (s u t : String) (h : includes s t) : includes (s ++ u) t := by
  obtain ⟨a, b, hab⟩ := h
  exact ⟨a, b ++ u.data, by simp [← hab]⟩

theorem includes_append_right (u s t : String) (h : includes s t) : includes (u ++ s) t := by
  obtain ⟨a, b, hab⟩ := h
  exact ⟨u.data ++ a, b, by simp [← hab]⟩

theorem includes_refl (s : String) : includes s s := List.infix_refl _

theorem trim_empty : trim "" = "" := by decide

theorem str_truthy (u : String) : (Value.str u).truthy = (u != "") := rfl

/-- A block of `generateGitHubStats` on a string username: the embed is
appended when the toggle is on and the trimmed username is non-empty. -/
theorem statsBlock_str (toggle : Value) (u : String) (embed : String → String) (stats : String) :
    statsBlock toggle (.str u) embed stats =
      .ok (if toggle.truthy = true ∧ trim u ≠ "" then stats ++ embed (trim u) else stats) := by
  by_cases hu : u = ""
  · subst hu
    simp [statsBlock, str_truthy, trim_empty]
  · by_cases ht : toggle.truthy = true <;> by_cases hn : trim u = "" <;>
      simp [statsBlock, str_truthy, Value.trim, hu, ht, hn]

/-- With the `githubStats` toggle off (or `data` falsy) the result is empty. -/
theorem generateGitHubStats_off (g : Generator) (data : Input)
    (h : data.truthy = false ∨ data.view.githubStats.truthy = false) :
    generateGitHubStats g data = "" := by
  rcases h with h | h <;> simp [generateGitHubStats, generateGitHubStatsTry, h, tryCatch]

/-- With the toggle on and a string username the result is the heading followed
by the embeds whose toggle is on, provided the trimmed username is non-empty. -/
theorem generateGitHubStats_str (g : Generator) (d : ProfileData) (u : String)
    (hs : d.githubStats.truthy = true) (hu : d.username = .str u) :
    generateGitHubStats g (.record d) =
      if trim u ≠ "" then statsHeading ++ String.join (statsEmbeds g d (trim u))
      else statsHeading := by
  by_cases hn : trim u = "" <;>
    cases h1 : d.contributionGraph.truthy <;> cases h2 : d.languageStats.truthy <;>
    cases h3 : d.profileViews.truthy <;>
    simp [generateGitHubStats, generateGitHubStatsTry, Input.truthy, Input.view, hs, hu,
      statsBlock_str, h1, h2, h3, hn, tryCatch, bind, Except.bind, pure, Except.pure,
      statsEmbeds, String.join, String.append_assoc]

/-- The headings of the skills, projects and location sections are fixed text
of the theme templates: every theme function emits them for every profile. -/
theorem theme_headings (g : Generator) (d : ProfileData) :
    includes (generateClassicTheme g d) "## \uF8FFüõ†Ô∏è Skills\n\n" ∧
    includes (generateClassicTheme g d) "## \uF8FFüöÄ Featured Projects\n\n" ∧
    includes (generateClassicTheme g d) "## \uF8FFüìç Location & Work\n\n" ∧
    includes (generateDarkTheme g d) "## \uF8FFüõ†Ô∏è Tech Stack\n\n" ∧
    includes (generateDarkTheme g d) "## \uF8FFüöÄ Projects\n\n" ∧
    includes (generateColorfulTheme g d) "## \uF8FFüéØ Skills & Technologies\n\n" ∧
    includes (generateColorfulTheme g d) "## \uF8FFüåü Featured Work\n\n" ∧
    includes (generateMinimalTheme g d) "## Skills\n\n" ∧
    includes (generateMinimalTheme g d) "## Projects\n\n" ∧
    includes (generateDeveloperTheme g d) "## Stack\n\n" ∧
    includes (generateDeveloperTheme g d) "## Projects\n\n" ∧
    includes (generateProfessionalTheme g d) "## \uF8FFüéØ Core Competencies\n\n" ∧
    includes (generateProfessionalTheme g d) "## \uF8FFüöÄ Key Projects\n\n" ∧
    includes (generateProfessionalTheme g d) "## \uF8FFüíº Professional Experience\n\n" ∧
    includes (generateTechTheme g d) "## \uF8FFüõ†Ô∏è Technology Stack\n\n" ∧
    includes (generateTechTheme g d) "## \uF8FFüîß Technical Projects\n\n" := by
  refine ⟨?_, ?_, ?_, ?_, ?_, ?_, ?_, ?_, ?_, ?_, ?_, ?_, ?_, ?_, ?_, ?_⟩
  · unfold generateClassicTheme
    repeat (first | exact includes_append_right _ _ _ (by decide) | apply includes_append_left)
  · unfold generateClassicTheme
    repeat (first | exact includes_append_right _ _ _ (by decide) | apply includes_append_left)
  · unfold generateClassicTheme
    repeat (first | exact includes_append_right _ _ _ (by decide) | apply includes_append_left)
  · unfold generateDarkTheme
    repeat (first | exact includes_append_right _ _ _ (by decide) | apply includes_append_left)
  · unfold generateDarkTheme
    repeat (first | exact includes_append_right _ _ _ (by decide) | apply includes_append_left)
  · unfold generateColorfulTheme
    repeat (first | exact includes_append_right _ _ _ (by decide) | apply includes_append_left)
  · unfold generateColorfulTheme
    repeat (first | exact includes_append_right _ _ _ (by decide) | apply includes_append_left)
  · unfold generateMinimalTheme
    repeat (first | exact includes_append_right _ _ _ (by decide) | apply includes_append_left)
  · unfold generateMinimalTheme
    repeat (first | exact includes_append_right _ _ _ (by decide) | apply includes_append_left)
  · unfold generateDeveloperTheme
    repeat (first | exact includes_append_right _ _ _ (by decide) | apply includes_append_left)
  · unfold generateDeveloperTheme
    repeat (first | exact includes_append_right _ _ _ (by decide) | apply includes_append_left)
  · unfold generateProfessionalTheme
    repeat (first | exact includes_append_right _ _ _ (by decide) | apply includes_append_left)
  · unfold generateProfessionalTheme
    repeat (first | exact includes_append_right _ _ _ (by decide) | apply includes_append_left)
  · unfold generateProfessionalTheme
    repeat (first | exact includes_append_right _ _ _ (by decide) | apply includes_append_left)
  · unfold generateTechTheme
    repeat (first | exact includes_append_right _ _ _ (by decide) | apply includes_append_left)
  · unfold generateTechTheme
    repeat (first | exact includes_append_right _ _ _ (by decide) | apply includes_append_left)

theorem formatSkills_falsy (skills : Value) (h : skills.truthy = false) :
    formatSkills skills = "" := by
  simp [formatSkills, h, tryCatch]

theorem formatProjects_falsy (projects : Value) (h : projects.truthy = false) :
    formatProjects projects = "" := by
  simp [formatProjects, h, tryCatch]

theorem formatLocationAndWork_falsy (d : ProfileData) (hl : d.location.truthy = false)
    (hc : d.company.truthy = false) (hb : d.blog.truthy = false) :
    formatLocationAndWork (.record d) = "" := by
  simp [formatLocationAndWork, Input.truthy, Input.isObject, Input.view, hl, hc, hb, tryCatch]

/-- C5, refuted as stated: for the profile `adaProfile`, whose skills, projects,
location, company and blog are all empty, the classic theme still emits the
skills, projects and location headings, each with an empty body. -/
theorem classic_theme_dangling_headings :
    adaProfile.skills = .str "" ∧ adaProfile.projects = .str "" ∧
    adaProfile.location = .str "" ∧ adaProfile.company = .str "" ∧
    adaProfile.blog = .str "" ∧
    includes (generateClassicTheme {} adaProfile)
      "## \uF8FFüõ†Ô∏è Skills\n\n\n\n## \uF8FFüöÄ Featured Projects\n\n\n\n## \uF8FFüìç Location & Work\n\n\n\n## \uF8FFüì± Connect with Me" := by
  decide

/-- C6, refuted as stated: with the `githubStats` toggle on and a
whitespace-only username the result is not empty. -/
theorem generateGitHubStats_blank_username_nonempty :
    trim "  " = "" ∧ generateGitHubStats {} (.record blankUserProfile) ≠ "" := by
  decide

/-- C6, amended: `generateGitHubStats` returns the empty string whenever the
`githubStats` toggle is off, whatever the other toggles; when the toggle is on
and the username is blank (empty or whitespace-only) it returns the statistics
heading alone, with no image embed, whatever the other toggles. -/
theorem generateGitHubStats_off_or_blank (g : Generator) (d : ProfileData) (u : String) :
    (d.githubStats.truthy = false → generateGitHubStats g (.record d) = "") ∧
    (d.githubStats.truthy = true → d.username = .str u → trim u = "" →
      generateGitHubStats g (.record d) = statsHeading) := by
  refine ⟨fun h => generateGitHubStats_off g _ (Or.inr h), fun hs hu hn => ?_⟩
  rw [generateGitHubStats_str g d u hs hu]
  simp [hn]

/-- Witness of C6 (amended): the toggle off, and the toggle on with a
whitespace-only username. -/
theorem generateGitHubStats_off_or_blank_witness :
    generateGitHubStats {} (.record adaProfile) = "" ∧
    generateGitHubStats {} (.record blankUserProfile) = statsHeading :=
  ⟨(generateGitHubStats_off_or_blank {} adaProfile "ada").1 rfl,
   (generateGitHubStats_off_or_blank {} blankUserProfile "  ").2 rfl rfl (by decide)⟩

/-- C7: with the `githubStats` toggle on and a username whose trimmed text is
non-empty, `generateGitHubStats` returns the statistics heading followed by, in
this order, the stats-card embed iff `contributionGraph` is on, the
top-languages embed iff `languageStats` is on and the profile-views embed iff
`profileViews` is on; every embed ends with a blank line, and the number of
embeds is the number of sub-toggles that are on, at most three. -/
theorem generateGitHubStats_embeds (g : Generator) (d : ProfileData) (u : String)
    (hs : d.githubStats.truthy = true) (hu : d.username = .str u) (hn : trim u ≠ "") :
    generateGitHubStats g (.record d) =
      statsHeading ++
        (if d.contributionGraph.truthy then statsCardEmbed g (trim u) else "") ++
        (if d.languageStats.truthy then topLangsEmbed g (trim u) else "") ++
        (if d.profileViews.truthy then profileViewsEmbed (trim u) else "") ∧
    generateGitHubStats g (.record d) = statsHeading ++ String.join (statsEmbeds g d (trim u)) ∧
    (∀ e ∈ statsEmbeds g d (trim u), ∃ alt url, e = "![" ++ alt ++ "](" ++ url ++ ")\n\n") ∧
    (statsEmbeds g d (trim u)).length =
      ([d.contributionGraph, d.languageStats, d.profileViews].filter Value.truthy).length ∧
    (statsEmbeds g d (trim u)).length ≤ 3 := by
  have hmain := generateGitHubStats_str g d u hs hu
  rw [if_pos hn] at hmain
  refine ⟨?_, hmain, ?_, ?_, ?_⟩
  · rw [hmain]
    cases h1 : d.contributionGraph.truthy <;> cases h2 : d.languageStats.truthy <;>
      cases h3 : d.profileViews.truthy <;>
      simp [statsEmbeds, h1, h2, h3, String.join, String.append_assoc]
  · intro e he
    simp only [statsEmbeds, List.mem_append] at he
    rcases he with (he | he) | he
    · split at he
      · simp only [List.mem_singleton] at he
        exact ⟨_, _, he.trans rfl⟩
      · simp at he
    · split at he
      · simp only [List.mem_singleton] at he
        exact ⟨_, _, he.trans rfl⟩
      · simp at he
    · split at he
      · simp only [List.mem_singleton] at he
        exact ⟨_, _, he.trans rfl⟩
      · simp at he
  · cases h1 : d.contributionGraph.truthy <;> cases h2 : d.languageStats.truthy <;>
      cases h3 : d.profileViews.truthy <;> simp [statsEmbeds, h1, h2, h3]
  · cases h1 : d.contributionGraph.truthy <;> cases h2 : d.languageStats.truthy <;>
      cases h3 : d.profileViews.truthy <;> simp [statsEmbeds, h1, h2, h3]

/-- Witness of C7: the three sub-toggles on and the username ` octocat `, which
is trimmed. -/
theorem generateGitHubStats_embeds_witness :
    generateGitHubStats {} (.record octocatProfile) =
      statsHeading ++ String.join (statsEmbeds {} octocatProfile (trim " octocat ")) ∧
    (statsEmbeds {} octocatProfile (trim " octocat ")).length = 3 :=
  have h := generateGitHubStats_embeds {} octocatProfile " octocat " rfl rfl (by decide)
  ⟨h.2.1, by decide⟩

/-- A block of `generateGitHubStats` whose toggle is off leaves `stats` as it is. -/
theorem statsBlock_off (toggle username : Value) (embed : String → String) (stats : String)
    (h : toggle.truthy = false) : statsBlock toggle username embed stats = .ok stats := by
  simp [statsBlock, h]

/-- C8, refuted as stated: with dark mode on and only the profile-views badge
enabled the output holds an image embed whose URL carries the encoded username
but no theme token, neither `dark` nor `default`. -/
theorem profileViews_embed_without_theme_token :
    generateGitHubStats { isDarkMode := true } (.record viewsOnlyProfile) =
      statsHeading ++ "![Profile Views](https://komarev.com/ghpvc/?username=octocat&color=brightgreen)\n\n" ∧
    ¬ includes (generateGitHubStats { isDarkMode := true } (.record viewsOnlyProfile)) "dark" ∧
    ¬ includes (generateGitHubStats { isDarkMode := true } (.record viewsOnlyProfile)) "default" := by
  decide

/-- Without a string username no embed is emitted: the result is empty or the
heading alone. -/
theorem generateGitHubStats_without_string_username (g : Generator) (d : ProfileData)
    (h : d.username.isString = false) :
    generateGitHubStats g (.record d) = "" ∨ generateGitHubStats g (.record d) = statsHeading := by
  by_cases hs : d.githubStats.truthy = true
  · have htrim : d.username.trim = .error (.typeError "trim is not a function") := by
      cases hv : d.username <;> simp_all [Value.trim, Value.isString]
    cases hut : d.username.truthy <;> cases h1 : d.contributionGraph.truthy <;>
      cases h2 : d.languageStats.truthy <;> cases h3 : d.profileViews.truthy <;>
      simp [generateGitHubStats, generateGitHubStatsTry, Input.truthy, Input.view, hs,
        statsBlock, hut, htrim, h1, h2, h3, tryCatch, bind, Except.bind, pure, Except.pure]
  · exact Or.inl (generateGitHubStats_off g _ (Or.inr (by simpa using hs)))

/-- C8, amended: `generateGitHubStats` emits an embed only when the
`githubStats` toggle is on and the username is a string whose trimmed text `n`
is not empty. The result is then the heading followed, each under its toggle
and each with a blank line behind it, by the stats card
`![n's GitHub stats](https://github-readme-stats.vercel.app/api?username=E&show_icons=true&theme=T)`,
the language card
`![Top Languages](https://github-readme-stats.vercel.app/api/top-langs/?username=E&layout=compact&theme=T)`
and the view counter
`![Profile Views](https://komarev.com/ghpvc/?username=E&color=brightgreen)`,
where `E` is `encodeURIComponent(n)` and `T` is `dark` when the dark-mode flag
is set and `default` otherwise. The address of the view counter has no theme
token, and a block without the first two embeds is the same whatever the
dark-mode flag. -/
theorem embed_urls (g g' : Generator) (d : ProfileData) (u : String) :
    (d.githubStats.truthy = true → d.username = .str u → trim u ≠ "" →
      generateGitHubStats g (.record d) =
        statsHeading ++
        (if d.contributionGraph.truthy then
          "![" ++ trim u ++
            "\x27s GitHub stats](https://github-readme-stats.vercel.app/api?username=" ++
            encodeURIComponent (trim u) ++ "&show_icons=true&theme=" ++
            (if g.isDarkMode then "dark" else "default") ++ ")\n\n"
        else "") ++
        (if d.languageStats.truthy then
          "![Top Languages](https://github-readme-stats.vercel.app/api/top-langs/?username=" ++
            encodeURIComponent (trim u) ++ "&layout=compact&theme=" ++
            (if g.isDarkMode then "dark" else "default") ++ ")\n\n"
        else "") ++
        (if d.profileViews.truthy then
          "![Profile Views](https://komarev.com/ghpvc/?username=" ++
            encodeURIComponent (trim u) ++ "&color=brightgreen)\n\n"
        else "")) ∧
    (d.githubStats.truthy = false ∨ d.username.isString = false ∨
        (d.username = .str u ∧ trim u = "") →
      ¬ includes (generateGitHubStats g (.record d)) "![") ∧
    (d.contributionGraph.truthy = false → d.languageStats.truthy = false →
      generateGitHubStats g (.record d) = generateGitHubStats g' (.record d)) := by
  refine ⟨fun hs hu hn => ?_, fun h => ?_, fun h1 h2 => ?_⟩
  · rw [generateGitHubStats_str g d u hs hu, if_pos hn]
    have e1 : ∀ x : String, "\x27s GitHub stats](" ++
        ("https://github-readme-stats.vercel.app/api?username=" ++ x) =
        "\x27s GitHub stats](https://github-readme-stats.vercel.app/api?username=" ++ x := by
      intro x
      rw [← String.append_assoc]
      rfl
    have e2 : ∀ x : String, "![Top Languages](" ++
        ("https://github-readme-stats.vercel.app/api/top-langs/?username=" ++ x) =
        "![Top Languages](https://github-readme-stats.vercel.app/api/top-langs/?username=" ++ x := by
      intro x
      rw [← String.append_assoc]
      rfl
    have e3 : ∀ x : String, "![Profile Views](" ++ ("https://komarev.com/ghpvc/?username=" ++ x) =
        "![Profile Views](https://komarev.com/ghpvc/?username=" ++ x := by
      intro x
      rw [← String.append_assoc]
      rfl
    cases h1 : d.contributionGraph.truthy <;> cases h2 : d.languageStats.truthy <;>
      cases h3 : d.profileViews.truthy <;>
      simp [statsEmbeds, h1, h2, h3, String.join, statsCardEmbed, topLangsEmbed,
        profileViewsEmbed, imageEmbed, statsCardUrl, topLangsUrl, profileViewsUrl, themeToken,
        String.append_assoc, e1, e2, e3]
  · have hcase : generateGitHubStats g (.record d) = "" ∨
        generateGitHubStats g (.record d) = statsHeading := by
      rcases h with h | h | ⟨hu, hn⟩
      · exact Or.inl (generateGitHubStats_off g _ (Or.inr h))
      · exact generateGitHubStats_without_string_username g d h
      · by_cases hs : d.githubStats.truthy = true
        · right
          rw [generateGitHubStats_str g d u hs hu]
          simp [hn]
        · exact Or.inl (generateGitHubStats_off g _ (Or.inr (by simpa using hs)))
    rcases hcase with h0 | h0 <;> rw [h0] <;> decide
  · simp [generateGitHubStats, generateGitHubStatsTry, Input.view, statsBlock_off, h1, h2, bind,
      Except.bind]

/-- Witness of C8 (amended): the three embeds for the username ` octocat ` in
dark mode; no embed for a blank username; and the profile whose only embed is
the view counter, rendered with the dark-mode flag off and on. -/
theorem embed_urls_witness :
    generateGitHubStats { isDarkMode := true } (.record octocatProfile) =
      statsHeading ++
        "![octocat\x27s GitHub stats](https://github-readme-stats.vercel.app/api?username=octocat&show_icons=true&theme=dark)\n\n" ++
        "![Top Languages](https://github-readme-stats.vercel.app/api/top-langs/?username=octocat&layout=compact&theme=dark)\n\n" ++
        "![Profile Views](https://komarev.com/ghpvc/?username=octocat&color=brightgreen)\n\n" ∧
    ¬ includes (generateGitHubStats {} (.record blankUserProfile)) "![" ∧
    generateGitHubStats {} (.record viewsOnlyProfile) =
      generateGitHubStats { isDarkMode := true } (.record viewsOnlyProfile) :=
  ⟨((embed_urls { isDarkMode := true } {} octocatProfile " octocat ").1 rfl rfl
      (by decide)).trans (by decide),
    (embed_urls {} {} blankUserProfile "  ").2.1 (Or.inr (Or.inr ⟨rfl, by decide⟩)),
    (embed_urls {} { isDarkMode := true } viewsOnlyProfile "octocat").2.2 rfl rfl⟩

/-! ## Theorems: sections with an empty field -/

theorem includes_pair (a l m : String) : includes (a ++ l ++ "" ++ m) (l ++ m) :=
  ⟨a.data, [], by simp⟩

theorem includes_triple (a l x m : String) : includes (a ++ l ++ x ++ m) (l ++ x ++ m) :=
  ⟨a.data, [], by simp⟩

theorem formatSkillsForCode_falsy (skills : Value) (h : skills.truthy = false) :
    formatSkillsForCode skills = "" := by
  simp [formatSkillsForCode, h, tryCatch]

/-- With the `githubStats` toggle on and the three badge toggles off the result
is the heading alone. -/
theorem generateGitHubStats_heading_only (g : Generator) (d : ProfileData)
    (hs : d.githubStats.truthy = true) (h1 : d.contributionGraph.truthy = false)
    (h2 : d.languageStats.truthy = false) (h3 : d.profileViews.truthy = false) :
    generateGitHubStats g (.record d) = statsHeading := by
  simp [generateGitHubStats, generateGitHubStatsTry, Input.truthy, Input.view, hs, statsBlock_off,
    h1, h2, h3, tryCatch, bind, Except.bind, pure, Except.pure]

/-- With empty skills every theme emits the skills heading, directly followed by
the blank lines (in the developer theme: an empty code fence) and the next
heading. -/
theorem themes_empty_skills (g : Generator) (d : ProfileData)
    (h : d.skills.truthy = false) :
    includes (generateClassicTheme g d)
        ("\n\n## \uF8FFüõ†Ô∏è Skills\n\n" ++
          "\n\n## \uF8FFüöÄ Featured Projects\n\n") ∧
    includes (generateDarkTheme g d)
        ("\n\n## \uF8FFüõ†Ô∏è Tech Stack\n\n" ++
          "\n\n## \uF8FFüöÄ Projects\n\n") ∧
    includes (generateColorfulTheme g d)
        ("\n\n## \uF8FFüéØ Skills & Technologies\n\n" ++
          "\n\n## \uF8FFüåü Featured Work\n\n") ∧
    includes (generateMinimalTheme g d)
        ("\n\n## Skills\n\n" ++
          "\n\n## Projects\n\n") ∧
    includes (generateDeveloperTheme g d)
        ("\n\n## Stack\n\n\x60\x60\x60\n" ++
          "\n\x60\x60\x60\n\n## Projects\n\n") ∧
    includes (generateProfessionalTheme g d)
        ("\n\n## \uF8FFüéØ Core Competencies\n\n" ++
          "\n\n## \uF8FFüöÄ Key Projects\n\n") ∧
    includes (generateTechTheme g d)
        ("\n\n## \uF8FFüõ†Ô∏è Technology Stack\n\n" ++
          "\n\n## \uF8FFüîß Technical Projects\n\n") := by
  refine ⟨?_, ?_, ?_, ?_, ?_, ?_, ?_⟩
  · unfold generateClassicTheme
    rw [formatSkills_falsy _ h]
    iterate 6 apply includes_append_left
    exact includes_pair _ _ _
  · unfold generateDarkTheme
    rw [formatSkills_falsy _ h]
    iterate 8 apply includes_append_left
    exact includes_pair _ _ _
  · unfold generateColorfulTheme
    rw [formatSkills_falsy _ h]
    iterate 4 apply includes_append_left
    exact includes_pair _ _ _
  · unfold generateMinimalTheme
    rw [formatSkills_falsy _ h]
    iterate 3 apply includes_append_left
    exact includes_pair _ _ _
  · unfold generateDeveloperTheme
    rw [formatSkillsForCode_falsy _ h]
    iterate 6 apply includes_append_left
    exact includes_pair _ _ _
  · unfold generateProfessionalTheme
    rw [formatSkills_falsy _ h]
    iterate 10 apply includes_append_left
    exact includes_pair _ _ _
  · unfold generateTechTheme
    rw [formatSkills_falsy _ h]
    iterate 4 apply includes_append_left
    exact includes_pair _ _ _

/-- With empty projects every theme emits the projects heading, directly
followed by the blank lines and the next heading. -/
theorem themes_empty_projects (g : Generator) (d : ProfileData)
    (h : d.projects.truthy = false) :
    includes (generateClassicTheme g d)
        ("\n\n## \uF8FFüöÄ Featured Projects\n\n" ++
          "\n\n## \uF8FFüìç Location & Work\n\n") ∧
    includes (generateDarkTheme g d)
        ("\n\n## \uF8FFüöÄ Projects\n\n" ++
          "\n\n## \uF8FFüîó Links\n\n") ∧
    includes (generateColorfulTheme g d)
        ("\n\n## \uF8FFüåü Featured Work\n\n" ++
          "\n\n## \uF8FFüåê Social & Links\n\n") ∧
    includes (generateMinimalTheme g d)
        ("\n\n## Projects\n\n" ++
          "\n\n## Contact\n\n") ∧
    includes (generateDeveloperTheme g d)
        ("\n\x60\x60\x60\n\n## Projects\n\n" ++
          "\n\n## Links\n\n") ∧
    includes (generateProfessionalTheme g d)
        ("\n\n## \uF8FFüöÄ Key Projects\n\n" ++
          "\n\n## \uF8FFüíº Professional Experience\n\n") ∧
    includes (generateTechTheme g d)
        ("\n\n## \uF8FFüîß Technical Projects\n\n" ++
          "\n\n## \uF8FFüîó Technical Resources\n\n") := by
  refine ⟨?_, ?_, ?_, ?_, ?_, ?_, ?_⟩
  · unfold generateClassicTheme
    rw [formatProjects_falsy _ h]
    iterate 4 apply includes_append_left
    exact includes_pair _ _ _
  · unfold generateDarkTheme
    rw [formatProjects_falsy _ h]
    iterate 6 apply includes_append_left
    exact includes_pair _ _ _
  · unfold generateColorfulTheme
    rw [formatProjects_falsy _ h]
    iterate 2 apply includes_append_left
    exact includes_pair _ _ _
  · unfold generateMinimalTheme
    rw [formatProjects_falsy _ h]
    iterate 1 apply includes_append_left
    exact includes_pair _ _ _
  · unfold generateDeveloperTheme
    rw [formatProjects_falsy _ h]
    iterate 4 apply includes_append_left
    exact includes_pair _ _ _
  · unfold generateProfessionalTheme
    rw [formatProjects_falsy _ h]
    iterate 8 apply includes_append_left
    exact includes_pair _ _ _
  · unfold generateTechTheme
    rw [formatProjects_falsy _ h]
    iterate 2 apply includes_append_left
    exact includes_pair _ _ _

/-- With empty location, company and blog the classic and the professional theme
emit the location heading, directly followed by the blank lines and the next
heading. -/
theorem themes_empty_location (g : Generator) (d : ProfileData)
    (hl : d.location.truthy = false) (hc : d.company.truthy = false)
    (hb : d.blog.truthy = false) :
    includes (generateClassicTheme g d)
        ("\n\n## \uF8FFüìç Location & Work\n\n" ++
          "\n\n## \uF8FFüì± Connect with Me\n\n") ∧
    includes (generateProfessionalTheme g d)
        ("\n\n## \uF8FFüíº Professional Experience\n\n" ++
          "\n\n## \uF8FFüåê Professional Network\n\n") := by
  refine ⟨?_, ?_⟩
  · unfold generateClassicTheme
    rw [formatLocationAndWork_falsy d hl hc hb]
    iterate 2 apply includes_append_left
    exact includes_pair _ _ _
  · unfold generateProfessionalTheme
    rw [formatLocationAndWork_falsy d hl hc hb]
    iterate 6 apply includes_append_left
    exact includes_pair _ _ _

/-- With the `githubStats` toggle off no theme holds a statistics block: the blank
lines before it are directly followed by those before the skills heading. -/
theorem themes_stats_omitted (g : Generator) (d : ProfileData)
    (h : d.githubStats.truthy = false) :
    includes (generateClassicTheme g d)
        ("\n\n" ++
          "\n\n## \uF8FFüõ†Ô∏è Skills\n\n") ∧
    includes (generateDarkTheme g d)
        ("\n\n" ++
          "\n\n## \uF8FFüõ†Ô∏è Tech Stack\n\n") ∧
    includes (generateColorfulTheme g d)
        ("\n\n" ++
          "\n\n## \uF8FFüéØ Skills & Technologies\n\n") ∧
    includes (generateMinimalTheme g d)
        ("\n\n" ++
          "\n\n## Skills\n\n") ∧
    includes (generateDeveloperTheme g d)
        ("\n\n" ++
          "\n\n## Stack\n\n\x60\x60\x60\n") ∧
    includes (generateProfessionalTheme g d)
        ("\n\n" ++
          "\n\n## \uF8FFüéØ Core Competencies\n\n") ∧
    includes (generateTechTheme g d)
        ("\n\n" ++
          "\n\n## \uF8FFüõ†Ô∏è Technology Stack\n\n") := by
  refine ⟨?_, ?_, ?_, ?_, ?_, ?_, ?_⟩
  · unfold generateClassicTheme
    rw [generateGitHubStats_off g (.record d) (Or.inr h)]
    iterate 8 apply includes_append_left
    exact includes_pair _ _ _
  · unfold generateDarkTheme
    rw [generateGitHubStats_off g (.record d) (Or.inr h)]
    iterate 10 apply includes_append_left
    exact includes_pair _ _ _
  · unfold generateColorfulTheme
    rw [generateGitHubStats_off g (.record d) (Or.inr h)]
    iterate 6 apply includes_append_left
    exact includes_pair _ _ _
  · unfold generateMinimalTheme
    rw [generateGitHubStats_off g (.record d) (Or.inr h)]
    iterate 5 apply includes_append_left
    exact includes_pair _ _ _
  · unfold generateDeveloperTheme
    rw [generateGitHubStats_off g (.record d) (Or.inr h)]
    iterate 8 apply includes_append_left
    exact includes_pair _ _ _
  · unfold generateProfessionalTheme
    rw [generateGitHubStats_off g (.record d) (Or.inr h)]
    iterate 12 apply includes_append_left
    exact includes_pair _ _ _
  · unfold generateTechTheme
    rw [generateGitHubStats_off g (.record d) (Or.inr h)]
    iterate 6 apply includes_append_left
    exact includes_pair _ _ _

/-- With the `githubStats` toggle on and the three badge toggles off every theme
emits the statistics heading with no badge under it. -/
theorem themes_stats_heading_only (g : Generator) (d : ProfileData)
    (hs : d.githubStats.truthy = true) (h1 : d.contributionGraph.truthy = false)
    (h2 : d.languageStats.truthy = false) (h3 : d.profileViews.truthy = false) :
    includes (generateClassicTheme g d)
        ("\n\n" ++ statsHeading ++
          "\n\n## \uF8FFüõ†Ô∏è Skills\n\n") ∧
    includes (generateDarkTheme g d)
        ("\n\n" ++ statsHeading ++
          "\n\n## \uF8FFüõ†Ô∏è Tech Stack\n\n") ∧
    includes (generateColorfulTheme g d)
        ("\n\n" ++ statsHeading ++
          "\n\n## \uF8FFüéØ Skills & Technologies\n\n") ∧
    includes (generateMinimalTheme g d)
        ("\n\n" ++ statsHeading ++
          "\n\n## Skills\n\n") ∧
    includes (generateDeveloperTheme g d)
        ("\n\n" ++ statsHeading ++
          "\n\n## Stack\n\n\x60\x60\x60\n") ∧
    includes (generateProfessionalTheme g d)
        ("\n\n" ++ statsHeading ++
          "\n\n## \uF8FFüéØ Core Competencies\n\n") ∧
    includes (generateTechTheme g d)
        ("\n\n" ++ statsHeading ++
          "\n\n## \uF8FFüõ†Ô∏è Technology Stack\n\n") := by
  refine ⟨?_, ?_, ?_, ?_, ?_, ?_, ?_⟩
  · unfold generateClassicTheme
    rw [generateGitHubStats_heading_only g d hs h1 h2 h3]
    iterate 8 apply includes_append_left
    exact includes_triple _ _ _ _
  · unfold generateDarkTheme
    rw [generateGitHubStats_heading_only g d hs h1 h2 h3]
    iterate 10 apply includes_append_left
    exact includes_triple _ _ _ _
  · unfold generateColorfulTheme
    rw [generateGitHubStats_heading_only g d hs h1 h2 h3]
    iterate 6 apply includes_append_left
    exact includes_triple _ _ _ _
  · unfold generateMinimalTheme
    rw [generateGitHubStats_heading_only g d hs h1 h2 h3]
    iterate 5 apply includes_append_left
    exact includes_triple _ _ _ _
  · unfold generateDeveloperTheme
    rw [generateGitHubStats_heading_only g d hs h1 h2 h3]
    iterate 8 apply includes_append_left
    exact includes_triple _ _ _ _
  · unfold generateProfessionalTheme
    rw [generateGitHubStats_heading_only g d hs h1 h2 h3]
    iterate 12 apply includes_append_left
    exact includes_triple _ _ _ _
  · unfold generateTechTheme
    rw [generateGitHubStats_heading_only g d hs h1 h2 h3]
    iterate 6 apply includes_append_left
    exact includes_triple _ _ _ _

/-- C5, amended: in every theme function the skills heading and the projects
heading (and in the classic and professional themes the location heading) are
fixed template text, emitted for every profile, also when the backing field is
empty. With empty skills `formatSkills` and `formatSkillsForCode` return `''`
and the skills heading is directly followed by the blank lines and the next
heading (in the developer theme by an empty code fence and the next heading);
likewise for empty projects with `formatProjects`, and for empty location,
company and blog with `formatLocationAndWork`. With the `githubStats` toggle off
`generateGitHubStats` returns `''` and the themes hold no statistics block;
with the toggle on and the three badge toggles off it returns the statistics
heading alone, and every theme emits that heading with no badge under it. -/
theorem sections_with_empty_field (g : Generator) (d : ProfileData) :
    (includes (generateClassicTheme g d) "## \uF8FFüõ†Ô∏è Skills\n\n" ∧
      includes (generateClassicTheme g d) "## \uF8FFüöÄ Featured Projects\n\n" ∧
      includes (generateClassicTheme g d) "## \uF8FFüìç Location & Work\n\n" ∧
      includes (generateDarkTheme g d) "## \uF8FFüõ†Ô∏è Tech Stack\n\n" ∧
      includes (generateDarkTheme g d) "## \uF8FFüöÄ Projects\n\n" ∧
      includes (generateColorfulTheme g d) "## \uF8FFüéØ Skills & Technologies\n\n" ∧
      includes (generateColorfulTheme g d) "## \uF8FFüåü Featured Work\n\n" ∧
      includes (generateMinimalTheme g d) "## Skills\n\n" ∧
      includes (generateMinimalTheme g d) "## Projects\n\n" ∧
      includes (generateDeveloperTheme g d) "## Stack\n\n" ∧
      includes (generateDeveloperTheme g d) "## Projects\n\n" ∧
      includes (generateProfessionalTheme g d) "## \uF8FFüéØ Core Competencies\n\n" ∧
      includes (generateProfessionalTheme g d) "## \uF8FFüöÄ Key Projects\n\n" ∧
      includes (generateProfessionalTheme g d) "## \uF8FFüíº Professional Experience\n\n" ∧
      includes (generateTechTheme g d) "## \uF8FFüõ†Ô∏è Technology Stack\n\n" ∧
      includes (generateTechTheme g d) "## \uF8FFüîß Technical Projects\n\n") ∧
    (d.skills.truthy = false →
      formatSkills d.skills = "" ∧ formatSkillsForCode d.skills = "" ∧
      includes (generateClassicTheme g d)
          ("\n\n## \uF8FFüõ†Ô∏è Skills\n\n" ++
            "\n\n## \uF8FFüöÄ Featured Projects\n\n") ∧
      includes (generateDarkTheme g d)
          ("\n\n## \uF8FFüõ†Ô∏è Tech Stack\n\n" ++
            "\n\n## \uF8FFüöÄ Projects\n\n") ∧
      includes (generateColorfulTheme g d)
          ("\n\n## \uF8FFüéØ Skills & Technologies\n\n" ++
            "\n\n## \uF8FFüåü Featured Work\n\n") ∧
      includes (generateMinimalTheme g d)
          ("\n\n## Skills\n\n" ++
            "\n\n## Projects\n\n") ∧
      includes (generateDeveloperTheme g d)
          ("\n\n## Stack\n\n\x60\x60\x60\n" ++
            "\n\x60\x60\x60\n\n## Projects\n\n") ∧
      includes (generateProfessionalTheme g d)
          ("\n\n## \uF8FFüéØ Core Competencies\n\n" ++
            "\n\n## \uF8FFüöÄ Key Projects\n\n") ∧
      includes (generateTechTheme g d)
          ("\n\n## \uF8FFüõ†Ô∏è Technology Stack\n\n" ++
            "\n\n## \uF8FFüîß Technical Projects\n\n")) ∧
    (d.projects.truthy = false →
      formatProjects d.projects = "" ∧
      includes (generateClassicTheme g d)
          ("\n\n## \uF8FFüöÄ Featured Projects\n\n" ++
            "\n\n## \uF8FFüìç Location & Work\n\n") ∧
      includes (generateDarkTheme g d)
          ("\n\n## \uF8FFüöÄ Projects\n\n" ++
            "\n\n## \uF8FFüîó Links\n\n") ∧
      includes (generateColorfulTheme g d)
          ("\n\n## \uF8FFüåü Featured Work\n\n" ++
            "\n\n## \uF8FFüåê Social & Links\n\n") ∧
      includes (generateMinimalTheme g d)
          ("\n\n## Projects\n\n" ++
            "\n\n## Contact\n\n") ∧
      includes (generateDeveloperTheme g d)
          ("\n\x60\x60\x60\n\n## Projects\n\n" ++
            "\n\n## Links\n\n") ∧
      includes (generateProfessionalTheme g d)
          ("\n\n## \uF8FFüöÄ Key Projects\n\n" ++
            "\n\n## \uF8FFüíº Professional Experience\n\n") ∧
      includes (generateTechTheme g d)
          ("\n\n## \uF8FFüîß Technical Projects\n\n" ++
            "\n\n## \uF8FFüîó Technical Resources\n\n")) ∧
    (d.location.truthy = false → d.company.truthy = false → d.blog.truthy = false →
      formatLocationAndWork (.record d) = "" ∧
      includes (generateClassicTheme g d)
          ("\n\n## \uF8FFüìç Location & Work\n\n" ++
            "\n\n## \uF8FFüì± Connect with Me\n\n") ∧
      includes (generateProfessionalTheme g d)
          ("\n\n## \uF8FFüíº Professional Experience\n\n" ++
            "\n\n## \uF8FFüåê Professional Network\n\n")) ∧
    (d.githubStats.truthy = false →
      generateGitHubStats g (.record d) = "" ∧
      includes (generateClassicTheme g d)
          ("\n\n" ++
            "\n\n## \uF8FFüõ†Ô∏è Skills\n\n") ∧
      includes (generateDarkTheme g d)
          ("\n\n" ++
            "\n\n## \uF8FFüõ†Ô∏è Tech Stack\n\n") ∧
      includes (generateColorfulTheme g d)
          ("\n\n" ++
            "\n\n## \uF8FFüéØ Skills & Technologies\n\n") ∧
      includes (generateMinimalTheme g d)
          ("\n\n" ++
            "\n\n## Skills\n\n") ∧
      includes (generateDeveloperTheme g d)
          ("\n\n" ++
            "\n\n## Stack\n\n\x60\x60\x60\n") ∧
      includes (generateProfessionalTheme g d)
          ("\n\n" ++
            "\n\n## \uF8FFüéØ Core Competencies\n\n") ∧
      includes (generateTechTheme g d)
          ("\n\n" ++
            "\n\n## \uF8FFüõ†Ô∏è Technology Stack\n\n")) ∧
    (d.githubStats.truthy = true → d.contributionGraph.truthy = false →
      d.languageStats.truthy = false → d.profileViews.truthy = false →
      generateGitHubStats g (.record d) = statsHeading ∧
      includes (generateClassicTheme g d)
          ("\n\n" ++ statsHeading ++
            "\n\n## \uF8FFüõ†Ô∏è Skills\n\n") ∧
      includes (generateDarkTheme g d)
          ("\n\n" ++ statsHeading ++
            "\n\n## \uF8FFüõ†Ô∏è Tech Stack\n\n") ∧
      includes (generateColorfulTheme g d)
          ("\n\n" ++ statsHeading ++
            "\n\n## \uF8FFüéØ Skills & Technologies\n\n") ∧
      includes (generateMinimalTheme g d)
          ("\n\n" ++ statsHeading ++
            "\n\n## Skills\n\n") ∧
      includes (generateDeveloperTheme g d)
          ("\n\n" ++ statsHeading ++
            "\n\n## Stack\n\n\x60\x60\x60\n") ∧
      includes (generateProfessionalTheme g d)
          ("\n\n" ++ statsHeading ++
            "\n\n## \uF8FFüéØ Core Competencies\n\n") ∧
      includes (generateTechTheme g d)
          ("\n\n" ++ statsHeading ++
            "\n\n## \uF8FFüõ†Ô∏è Technology Stack\n\n")) :=
  ⟨theme_headings g d,
    fun h => ⟨formatSkills_falsy _ h, formatSkillsForCode_falsy _ h, themes_empty_skills g d h⟩,
    fun h => ⟨formatProjects_falsy _ h, themes_empty_projects g d h⟩,
    fun hl hc hb => ⟨formatLocationAndWork_falsy d hl hc hb, themes_empty_location g d hl hc hb⟩,
    fun h => ⟨generateGitHubStats_off g _ (Or.inr h), themes_stats_omitted g d h⟩,
    fun hs h1 h2 h3 => ⟨generateGitHubStats_heading_only g d hs h1 h2 h3,
      themes_stats_heading_only g d hs h1 h2 h3⟩⟩

/-- Witness of C5 (amended): the profile `adaProfile`, whose optional fields are
all empty, and a profile with the statistics toggle on and no badge toggle. -/
theorem sections_with_empty_field_witness :
    formatSkills adaProfile.skills = "" ∧
    includes (generateClassicTheme {} adaProfile)
      ("\n\n## \uF8FFüõ†Ô∏è Skills\n\n" ++
        "\n\n## \uF8FFüöÄ Featured Projects\n\n") ∧
    formatLocationAndWork (.record adaProfile) = "" ∧
    generateGitHubStats {} (.record adaProfile) = "" ∧
    generateGitHubStats {} (.record { githubStats := .bool true }) = statsHeading :=
  have h := sections_with_empty_field {} adaProfile
  ⟨(h.2.1 rfl).1, (h.2.1 rfl).2.2.1, (h.2.2.2.1 rfl rfl rfl).1, (h.2.2.2.2.1 rfl).1,
    ((sections_with_empty_field {} { githubStats := .bool true }).2.2.2.2.2 rfl rfl rfl rfl).1⟩

/-! ## Theorems: project list -/

/-- C9, evaluated on the code: the line `A - B - C` is cut at every separator
and only the first two pieces are kept, so it renders as `- **A** - B`; the
text after the second separator is lost. -/
theorem formatProjects_drops_after_second_separator :
    split "A - B - C" " - " = ["A", "B", "C"] ∧
    formatProjects (.str "A - B - C") = "- **A** - B" ∧
    formatProjects (.str "A - B - C") ≠ "- **A** - B - C" := by
  decide

theorem isPrefixOf_length_le (sep xs : List Char) (h : sep.isPrefixOf xs = true) :
    sep.length ≤ xs.length :=
  (List.isPrefixOf_iff_prefix.mp h).length_le

/-- Skipping the rest of a matched separator is dropping that many characters. -/
theorem splitGo_skip (sep : List Char) (k : Nat) (xs : List Char) (h : k ≤ xs.length) :
    splitGo sep k xs = splitGo sep 0 (xs.drop k) := by
  induction k generalizing xs with
  | zero => simp
  | succ k ih =>
    cases xs with
    | nil => simp at h
    | cons c cs =>
      simp only [List.length_cons, Nat.add_le_add_iff_right] at h
      simp [splitGo, ih cs h]

theorem splitGo_of_splitOnce_none (sep : List Char) (l : List Char)
    (h : splitOnce sep l = none) : splitGo sep 0 l = [l] := by
  induction l with
  | nil => rfl
  | cons c cs ih =>
    by_cases hp : sep.isPrefixOf (c :: cs) = true
    · simp [splitOnce, hp] at h
    · simp only [splitOnce, hp, Bool.false_eq_true, if_false, Option.map_eq_none'] at h
      simp [splitGo, hp, ih h]

theorem splitGo_of_splitOnce_some (sep : List Char) (hsep : sep ≠ []) (l a b : List Char)
    (h : splitOnce sep l = some (a, b)) : splitGo sep 0 l = a :: splitGo sep 0 b := by
  induction l generalizing a with
  | nil => simp [splitOnce] at h
  | cons c cs ih =>
    by_cases hp : sep.isPrefixOf (c :: cs) = true
    · have hlen := isPrefixOf_length_le sep (c :: cs) hp
      have hpos : 0 < sep.length := List.length_pos.mpr hsep
      simp only [splitOnce, hp, if_true, Option.some.injEq, Prod.mk.injEq] at h
      obtain ⟨ha, hb⟩ := h
      have hdrop : (c :: cs).drop sep.length = cs.drop (sep.length - 1) := by
        obtain ⟨n, hn⟩ : ∃ n, sep.length = n + 1 := ⟨sep.length - 1, by omega⟩
        simp [hn]
      subst ha
      rw [← hb, hdrop]
      simp only [splitGo, hp, if_true]
      rw [splitGo_skip sep (sep.length - 1) cs (by simp only [List.length_cons] at hlen; omega)]
    · simp only [splitOnce, hp, Bool.false_eq_true, if_false, Option.map_eq_some', Prod.mk.injEq,
        Prod.exists] at h
      obtain ⟨a', b', hcs, ha, hb⟩ := h
      subst ha hb
      simp [splitGo, hp, ih a' hcs]

theorem occurrences_drop_le (sep : List Char) (k : Nat) (xs : List Char) :
    occurrences sep (xs.drop k) ≤ occurrences sep xs := by
  induction k generalizing xs with
  | zero => simp
  | succ k ih =>
    cases xs with
    | nil => simp
    | cons c cs =>
      simp only [List.drop_succ_cons, occurrences]
      have := ih cs
      omega

theorem occurrences_after_first (sep : List Char) (hsep : sep ≠ []) (l a b : List Char)
    (h : splitOnce sep l = some (a, b)) : occurrences sep b + 1 ≤ occurrences sep l := by
  induction l generalizing a with
  | nil => simp [splitOnce] at h
  | cons c cs ih =>
    by_cases hp : sep.isPrefixOf (c :: cs) = true
    · have hpos : 0 < sep.length := List.length_pos.mpr hsep
      simp only [splitOnce, hp, if_true, Option.some.injEq, Prod.mk.injEq] at h
      obtain ⟨_, hb⟩ := h
      obtain ⟨n, hn⟩ : ∃ n, sep.length = n + 1 := ⟨sep.length - 1, by omega⟩
      rw [hn, List.drop_succ_cons] at hb
      have := occurrences_drop_le sep n cs
      rw [hb] at this
      simp only [occurrences, hp, if_true]
      omega
    · simp only [splitOnce, hp, Bool.false_eq_true, if_false, Option.map_eq_some', Prod.mk.injEq,
        Prod.exists] at h
      obtain ⟨a', b', hcs, _, hb⟩ := h
      subst hb
      have := ih a' hcs
      simp only [occurrences, hp, Bool.false_eq_true, if_false]
      omega

theorem splitOnce_of_occurrences_zero (sep : List Char) (l : List Char)
    (h : occurrences sep l = 0) : splitOnce sep l = none := by
  induction l with
  | nil => rfl
  | cons c cs ih =>
    by_cases hp : sep.isPrefixOf (c :: cs) = true
    · simp [occurrences, hp] at h
    · simp only [occurrences, hp, Bool.false_eq_true, if_false, Nat.zero_add] at h
      simp [splitOnce, hp, ih h]

/-- On a line with at most one separator, followed by text, the code's entry
is the entry of the specification. -/
theorem formatProject_simple (line : String) (h : simpleProjectLine line = true) :
    formatProject line = specProjectEntry line := by
  have hsep : " - ".data ≠ [] := by decide
  unfold simpleProjectLine at h
  rw [Bool.and_eq_true] at h
  obtain ⟨hocc, hdesc⟩ := h
  have hocc := of_decide_eq_true hocc
  cases hso : splitOnce " - ".data line.data with
  | none =>
    have hgo := splitGo_of_splitOnce_none _ _ hso
    simp [formatProject, specProjectEntry, split, hgo, hso, element, Value.truthy, Value.toStr,
      tryCatch]
  | some p =>
    obtain ⟨a, b⟩ := p
    rw [hso] at hdesc
    have hb : b ≠ [] := by simpa using hdesc
    have hocc' := occurrences_after_first _ hsep _ _ _ hso
    have hnone := splitOnce_of_occurrences_zero " - ".data b (by omega)
    have hgo := splitGo_of_splitOnce_some _ hsep _ _ _ hso
    rw [splitGo_of_splitOnce_none _ _ hnone] at hgo
    have hb' : String.mk b ≠ "" := by
      intro hc
      exact hb (by simpa using congrArg String.data hc)
    simp [formatProject, specProjectEntry, split, hgo, hso, element, Value.truthy, Value.toStr,
      tryCatch, hb']

theorem splitGo_newline_cons (l rest : List Char) (h : '\n' ∉ l) :
    splitGo ['\n'] 0 (l ++ '\n' :: rest) = l :: splitGo ['\n'] 0 rest := by
  induction l with
  | nil => simp [splitGo, List.isPrefixOf]
  | cons c cs ih =>
    simp only [List.mem_cons, not_or] at h
    simp [splitGo, List.isPrefixOf, h.1, ih h.2]

theorem splitGo_newline_single (l : List Char) (h : '\n' ∉ l) : splitGo ['\n'] 0 l = [l] := by
  induction l with
  | nil => rfl
  | cons c cs ih =>
    simp only [List.mem_cons, not_or] at h
    simp [splitGo, List.isPrefixOf, h.1, ih h.2]

/-- Splitting a newline-joined list of lines gives the lines back. -/
theorem split_join_lines (lines : List String) (hne : lines ≠ [])
    (h : ∀ line ∈ lines, '\n' ∉ line.data) : split (join lines "\n") "\n" = lines := by
  have key : ∀ ls : List String, ls ≠ [] → (∀ line ∈ ls, '\n' ∉ line.data) →
      splitGo ['\n'] 0 (['\n'].intercalate (ls.map String.data)) = ls.map String.data := by
    intro ls
    induction ls with
    | nil => intro h0; exact absurd rfl h0
    | cons x xs ih =>
      intro _ hx
      cases xs with
      | nil =>
        simpa [List.intercalate, List.intersperse] using
          splitGo_newline_single x.data (hx x (List.mem_cons_self _ _))
      | cons y ys =>
        have hrest := ih (by simp) (fun line hl => hx line (List.mem_cons_of_mem _ hl))
        have hcons : ['\n'].intercalate ((x :: y :: ys).map String.data) =
            x.data ++ '\n' :: ['\n'].intercalate ((y :: ys).map String.data) := by
          simp [List.intercalate, List.intersperse]
        rw [hcons, splitGo_newline_cons _ _ (hx x (List.mem_cons_self _ _)), hrest]
        rfl
  have hd : "\n".data = ['\n'] := rfl
  simp only [split, join, hd, key lines hne h, List.map_map]
  conv_rhs => rw [← List.map_id lines]
  exact List.map_congr_left fun _ _ => rfl

/-- C10: for every projects string each of whose lines holds the separator
` - ` at most once, and then followed by text, `formatProjects` returns the
newline-joined list, in input order, of one entry per line that is not blank:
`- **name** - description` for a line `name - description` and `- line` for a
line without separator. The lines of a string are the pieces between its
newlines: a newline-joined list of newline-free lines splits back into that
list. In particular `Foo - bar\nBaz` gives `- **Foo** - bar\n- Baz` and the
empty string gives the empty string. -/
theorem formatProjects_simple_lines (projects : String) :
    ((∀ line ∈ split projects "\n", simpleProjectLine line = true) →
      formatProjects (.str projects) = specFormatProjects (split projects "\n")) ∧
    (∀ lines : List String, lines ≠ [] → (∀ line ∈ lines, '\n' ∉ line.data) →
      split (join lines "\n") "\n" = lines) ∧
    formatProjects (.str "Foo - bar\nBaz") = "- **Foo** - bar\n- Baz" ∧
    formatProjects (.str "") = "" := by
  refine ⟨fun h => ?_, split_join_lines, by decide, by decide⟩
  by_cases he : projects = ""
  · subst he
    decide
  · have hmap : (projectArray projects).map formatProject =
        (projectArray projects).map specProjectEntry :=
      List.map_congr_left fun line hl =>
        formatProject_simple line (h line (List.mem_of_mem_filter hl))
    unfold projectArray at hmap
    simp [formatProjects, specFormatProjects, Value.truthy, Value.isString, Value.toStr, he,
      tryCatch, hmap, projectArray]

/-- Witness of C10: three lines, the second of them blank. -/
theorem formatProjects_simple_lines_witness :
    formatProjects (.str "Foo - bar\n  \nBaz") =
      specFormatProjects ["Foo - bar", "  ", "Baz"] ∧
    specFormatProjects ["Foo - bar", "  ", "Baz"] = "- **Foo** - bar\n- Baz" :=
  ⟨(formatProjects_simple_lines "Foo - bar\n  \nBaz").1 (by decide), by decide⟩

/-! ## Theorems: skills, links, location -/

/-- On a one-character separator `splitGo` is the library's `List.splitOn`. -/
theorem splitGo_single (x : Char) (l : List Char) : splitGo [x] 0 l = l.splitOn x := by
  induction l with
  | nil => simp [splitGo, List.splitOn, List.splitOnP_nil]
  | cons c cs ih =>
    have hne : List.splitOnP (fun y => y == x) cs ≠ [] := List.splitOnP_ne_nil _ _
    by_cases hc : c = x
    · subst hc
      simp only [List.splitOn] at ih
      simp [splitGo, List.isPrefixOf, List.splitOn, List.splitOnP_cons, ih]
    · have hc' : ¬ x = c := fun h => hc h.symm
      simp only [List.splitOn] at ih
      simp only [splitGo, List.isPrefixOf, List.splitOn, List.splitOnP_cons, ih]
      cases hs : List.splitOnP (fun y => y == x) cs with
      | nil => exact absurd hs hne
      | cons p ps => simp [hc, hc']

theorem skillArray_eq_spec (skills : String) : skillArray skills = specSkillEntries skills := by
  have hd : ",".data = [','] := rfl
  have hf : (fun s : String => s != "") = fun e => decide (e ≠ "") := by
    funext e
    simp only [bne, ne_eq, decide_not]
    rfl
  simp only [skillArray, specSkillEntries, split, hd, splitGo_single, List.map_map, hf]
  rfl

theorem join_nil (sep : String) : join [] sep = "" := rfl

theorem join_singleton (x sep : String) : join [x] sep = x := by
  simp [join, List.intercalate]

theorem string_data_ne_nil (s : String) (h : s ≠ "") : s.data ≠ [] := fun hc =>
  h (by cases s; simp_all)

/-- A joined list whose first element is not empty is not empty. -/
theorem join_cons_ne_empty (x : String) (xs : List String) (sep : String) (h : x ≠ "") :
    join (x :: xs) sep ≠ "" := by
  intro hc
  have hd := congrArg String.data hc
  cases xs with
  | nil => exact string_data_ne_nil x h (by simpa [join, List.intercalate] using hd)
  | cons y ys =>
    have : x.data = [] := by
      simp [join, List.intercalate, List.intersperse] at hd
      exact hd.1
    exact string_data_ne_nil x h this

theorem join_eq_empty_iff (l : List String) (sep : String) (h : ∀ x ∈ l, x ≠ "") :
    join l sep = "" ↔ l = [] := by
  cases l with
  | nil => simp [join_nil]
  | cons x xs =>
    simp only [reduceCtorEq, iff_false]
    exact join_cons_ne_empty x xs sep (h x (List.mem_cons_self _ _))

theorem formatSkills_str (skills : String) :
    formatSkills (.str skills) = join ((skillArray skills).map fun e => "- " ++ e) "\n" := by
  by_cases h : skills = ""
  · subst h; decide
  · simp [formatSkills, Value.truthy, Value.isString, Value.toStr, h, tryCatch]

theorem formatSkillsForCode_str (skills : String) :
    formatSkillsForCode (.str skills) = join (skillArray skills) " | " := by
  by_cases h : skills = ""
  · subst h; decide
  · simp [formatSkillsForCode, Value.truthy, Value.isString, Value.toStr, h, tryCatch]

/-- C11: for every string `skills`, `formatSkills(skills)` is the newline-joined
list of `- e` for the entries `e` obtained by splitting `skills` on `,`,
trimming each piece and dropping the pieces that are then empty, in input
order; the empty string and a string with only empty entries give the empty
string, and `a, b ,, c` gives `- a\n- b\n- c`. -/
theorem formatSkills_bullets (skills : String) :
    formatSkills (.str skills) =
      join ((specSkillEntries skills).map fun e => "- " ++ e) "\n" ∧
    formatSkills (.str "") = "" ∧
    formatSkills (.str " , ,, ") = "" ∧
    formatSkills (.str "a, b ,, c") = "- a\n- b\n- c" := by
  refine ⟨?_, by decide, by decide, by decide⟩
  rw [formatSkills_str, skillArray_eq_spec]

theorem str_ne (a b : String) : (Value.str a != Value.str b) = (a != b) := by
  by_cases h : a = b
  · subst h; simp
  · have hv : Value.str a ≠ Value.str b := fun hc => h (Value.str.inj hc)
    rw [bne_iff_ne.mpr hv, bne_iff_ne.mpr h]

/-- C12: for every profile record whose link fields and username are strings,
`formatSocialLinks(data)` is the ` | `-joined list of, in this order,
`[YouTube](youtube)` if youtube is non-empty, `[Twitter/X](twitter)` if
twitter is non-empty, `[Website](website)` if website is non-empty,
`[Blog](blog)` if blog is non-empty and differs from website, and always last
`[GitHub](https://github.com/username)`. Hence the empty record gives
`[GitHub](https://github.com/)`, without optional links the result is the
GitHub link alone, and for website = blog = X the Blog link is suppressed. -/
theorem formatSocialLinks_links (d : ProfileData) (youtube twitter website blog username : String)
    (hy : d.youtube = .str youtube) (ht : d.twitter = .str twitter)
    (hw : d.website = .str website) (hb : d.blog = .str blog)
    (hu : d.username = .str username) :
    formatSocialLinks (.record d) =
      join (specSocialLinks youtube twitter website blog ++
        ["[GitHub](https://github.com/" ++ username ++ ")"]) " | " ∧
    (youtube = "" → twitter = "" → website = "" → blog = "" →
      formatSocialLinks (.record d) = "[GitHub](https://github.com/" ++ username ++ ")") ∧
    (youtube = "" → twitter = "" → website ≠ "" → blog = website →
      formatSocialLinks (.record d) =
        "[Website](" ++ website ++ ")" ++ " | " ++
          ("[GitHub](https://github.com/" ++ username ++ ")")) ∧
    formatSocialLinks (.record {}) = "[GitHub](https://github.com/)" := by
  have hgit : (d.username.or (.str "")).toStr = username := by
    by_cases h : username = "" <;> simp [hu, Value.or, Value.truthy, Value.toStr, h]
  have hmain : formatSocialLinks (.record d) =
      join (specSocialLinks youtube twitter website blog ++
        ["[GitHub](https://github.com/" ++ username ++ ")"]) " | " := by
    unfold formatSocialLinks
    simp only [Input.truthy, Input.isObject, Input.view, hy, ht, hw, hb, hgit, str_truthy,
      Value.isString, str_ne, specSocialLinks, tryCatch]
    by_cases h1 : youtube = "" <;> by_cases h2 : twitter = "" <;> by_cases h3 : website = "" <;>
      by_cases h4 : blog = "" <;> by_cases h5 : blog = website <;>
      simp [h1, h2, h3, h4, h5, join_singleton, Value.toStr]
  refine ⟨hmain, ?_, ?_, by decide⟩
  · intro h1 h2 h3 h4
    rw [hmain]
    simp [specSocialLinks, h1, h2, h3, h4, join_singleton]
  · intro h1 h2 h3 h4
    rw [hmain]
    have hj : ∀ a b : String, join [a, b] " | " = a ++ " | " ++ b := by
      intro a b
      apply String.ext
      simp [join, List.intercalate, List.intersperse]
    simp [specSocialLinks, h1, h2, h3, h4, hj]

/-- Witness of C12: website and blog are the same address. -/
theorem formatSocialLinks_links_witness :
    formatSocialLinks (.record sameSiteProfile) =
      "[Website](" ++ "https://x.dev" ++ ")" ++ " | " ++
        ("[GitHub](https://github.com/" ++ "ada" ++ ")") :=
  (formatSocialLinks_links sameSiteProfile "" "" "https://x.dev" "https://x.dev" "ada"
    rfl rfl rfl rfl rfl).2.2.1 rfl rfl (by decide) rfl

theorem location_labels :
    "\uF8FFüìç **Location:** " = locationLabel ∧ "\uF8FFüè¢ **Company:** " = companyLabel ∧ "\uF8FFüìù **Blog:** [" = blogLabel ++ "[" := by
  decide

/-- C13: for every profile record whose location, company and blog are strings,
`formatLocationAndWork(data)` is the ` | `-joined list, in the order location,
company, blog, of the parts whose field is non-empty: the location part holds
the location text, the company part the company text, and the blog part the
Markdown link `[blog](blog)`, each after its label; an empty field contributes
nothing, and the result is the empty string exactly when all three are empty. -/
theorem formatLocationAndWork_parts (d : ProfileData) (location company blog : String)
    (hl : d.location = .str location) (hc : d.company = .str company)
    (hb : d.blog = .str blog) :
    formatLocationAndWork (.record d) = join (specLocationParts location company blog) " | " ∧
    (formatLocationAndWork (.record d) = "" ↔ location = "" ∧ company = "" ∧ blog = "") ∧
    (∀ part ∈ specLocationParts location company blog,
      part = locationLabel ++ location ∨ part = companyLabel ++ company ∨
      part = blogLabel ++ ("[" ++ blog ++ "](" ++ blog ++ ")")) ∧
    formatLocationAndWork (.record {}) = "" := by
  have hmain : formatLocationAndWork (.record d) =
      join (specLocationParts location company blog) " | " := by
    unfold formatLocationAndWork
    simp only [Input.truthy, Input.isObject, Input.view, hl, hc, hb, str_truthy,
      Value.isString, Value.toStr, specLocationParts, tryCatch, location_labels.1,
      location_labels.2.1, location_labels.2.2]
    by_cases h1 : location = "" <;> by_cases h2 : company = "" <;> by_cases h3 : blog = "" <;>
      simp [h1, h2, h3, join_nil, String.append_assoc]
  have hlab : ∀ (lab t : String), lab ≠ "" → lab ++ t ≠ "" := by
    intro lab t hlab hc
    apply string_data_ne_nil lab hlab
    have := congrArg String.data hc
    simp at this
    exact this.1
  refine ⟨hmain, ?_, ?_, by decide⟩
  · rw [hmain]
    constructor
    · intro h
      by_contra hne
      by_cases h1 : location = ""
      · by_cases h2 : company = ""
        · by_cases h3 : blog = ""
          · exact hne ⟨h1, h2, h3⟩
          · simp only [specLocationParts, h1, h2, h3, ne_eq, not_true_eq_false, if_false,
              not_false_eq_true, if_true, List.nil_append] at h
            exact join_cons_ne_empty _ _ _ (hlab blogLabel _ (by decide)) h
        · simp only [specLocationParts, h1, h2, ne_eq, not_true_eq_false, if_false,
            not_false_eq_true, if_true, List.nil_append, List.singleton_append] at h
          exact join_cons_ne_empty _ _ _ (hlab companyLabel _ (by decide)) h
      · simp only [specLocationParts, h1, ne_eq, not_false_eq_true, if_true,
          List.singleton_append, List.cons_append] at h
        exact join_cons_ne_empty _ _ _ (hlab locationLabel _ (by decide)) h
    · rintro ⟨h1, h2, h3⟩
      simp [specLocationParts, h1, h2, h3, join_nil]
  · intro part hp
    simp only [specLocationParts, List.mem_append] at hp
    rcases hp with (hp | hp) | hp
    · split at hp
      · exact Or.inl (by simpa using hp)
      · simp at hp
    · split at hp
      · exact Or.inr (Or.inl (by simpa using hp))
      · simp at hp
    · split at hp
      · exact Or.inr (Or.inr (by simpa using hp))
      · simp at hp

/-- Witness of C13: a location and a blog, no company. -/
theorem formatLocationAndWork_parts_witness :
    formatLocationAndWork (.record osloProfile) =
      join (specLocationParts "Oslo" "" "https://b.io") " | " :=
  (formatLocationAndWork_parts osloProfile "Oslo" "" "https://b.io" rfl rfl rfl).1

theorem skillArray_ne_empty (skills : String) : ∀ e ∈ skillArray skills, e ≠ "" := by
  intro e he
  simp only [skillArray, List.mem_filter] at he
  simpa using he.2

/-- C14: for every string `skills`, `formatSkillsForCode(skills)` is the
` | `-joined list of exactly the entries that `formatSkills` renders as bullets
(split on `,`, trimmed, empties dropped, same order), `formatSkills(skills)` is
that entry list with `- ` put before each entry and joined by newlines, and
one result is empty iff the other is. -/
theorem formatSkillsForCode_same_entries (skills : String) :
    formatSkillsForCode (.str skills) = join (specSkillEntries skills) " | " ∧
    formatSkills (.str skills) =
      join ((specSkillEntries skills).map fun e => "- " ++ e) "\n" ∧
    (formatSkills (.str skills) = "" ↔ formatSkillsForCode (.str skills) = "") := by
  refine ⟨by rw [formatSkillsForCode_str, skillArray_eq_spec],
    by rw [formatSkills_str, skillArray_eq_spec], ?_⟩
  rw [formatSkills_str, formatSkillsForCode_str,
    join_eq_empty_iff _ _ (skillArray_ne_empty skills), join_eq_empty_iff]
  · simp
  · intro x hx
    simp only [List.mem_map] at hx
    obtain ⟨e, _, rfl⟩ := hx
    intro hc
    have := congrArg String.data hc
    simp at this

/-! ## Theorems: invalid input -/

/-- The `try` block of `generateGitHubStats` throws when a badge toggle is on
and the username is truthy but not a string; the `catch` block returns `''`. -/
theorem generateGitHubStats_username_not_string (g : Generator) (d : ProfileData)
    (hs : d.githubStats.truthy = true) (hc : d.contributionGraph.truthy = true)
    (hu : d.username.truthy = true) (hn : d.username.isString = false) :
    generateGitHubStatsTry g (.record d) = .error (.typeError "trim is not a function") ∧
    generateGitHubStats g (.record d) = "" := by
  have ht : d.username.trim = .error (.typeError "trim is not a function") := by
    cases hv : d.username <;> simp_all [Value.trim, Value.isString]
  have h1 : generateGitHubStatsTry g (.record d) =
      .error (.typeError "trim is not a function") := by
    simp [generateGitHubStatsTry, Input.truthy, Input.view, hs, statsBlock, hc, hu, ht, bind,
      Except.bind]
  exact ⟨h1, by simp [generateGitHubStats, h1, tryCatch]⟩

/-- C15, refuted as stated: on the invalid inputs `null` and `undefined`
`formatSocialLinks` returns the bare GitHub link, not the empty string. -/
theorem formatSocialLinks_invalid_input_nonempty :
    formatSocialLinks (.prim .null) = "[GitHub](https://github.com/)" ∧
    formatSocialLinks (.prim .undefined) = "[GitHub](https://github.com/)" ∧
    formatSocialLinks (.prim .null) ≠ "" := by
  decide

/-- C15, amended: each sub-formatter returns a string for every input without
throwing. On an input that is not a string `formatSkills`,
`formatSkillsForCode` and `formatProjects` return `''`; on an input that is not
an object (null, undefined, a boolean, a number, a string)
`formatLocationAndWork` and `generateGitHubStats` return `''`, while
`formatSocialLinks` returns the bare link `[GitHub](https://github.com/)`;
and `generateGitHubStats` returns either the value its `try` block completed
with or, when that block throws, `''`, as it does for a username that is
truthy but not a string. -/
theorem subformatters_invalid_input (g : Generator) (v : Value) (data : Input)
    (d : ProfileData) :
    (v.isString = false →
      formatSkills v = "" ∧ formatSkillsForCode v = "" ∧ formatProjects v = "") ∧
    formatLocationAndWork (.prim v) = "" ∧
    generateGitHubStats g (.prim v) = "" ∧
    formatSocialLinks (.prim v) = "[GitHub](https://github.com/)" ∧
    (generateGitHubStatsTry g data = .ok (generateGitHubStats g data) ∨
      generateGitHubStats g data = "") ∧
    (d.githubStats.truthy = true → d.contributionGraph.truthy = true →
      d.username.truthy = true → d.username.isString = false →
      generateGitHubStats g (.record d) = "") := by
  refine ⟨fun h => ?_, ?_, ?_, ?_, ?_, fun hs hc hu hn =>
    (generateGitHubStats_username_not_string g d hs hc hu hn).2⟩
  · simp [formatSkills, formatSkillsForCode, formatProjects, h, tryCatch]
  · simp [formatLocationAndWork, Input.isObject, tryCatch]
  · simp [generateGitHubStats, generateGitHubStatsTry, Input.view, Value.truthy, tryCatch]
  · simp [formatSocialLinks, Input.isObject, tryCatch]
  · unfold generateGitHubStats
    cases generateGitHubStatsTry g data with
    | ok s => left; rfl
    | error e => right; rfl

/-- Witness of C15 (amended): the number 7 passed where a string is expected,
as the argument and as the username. -/
theorem subformatters_invalid_input_witness :
    (formatSkills (.num 7) = "" ∧ formatSkillsForCode (.num 7) = "" ∧
      formatProjects (.num 7) = "") ∧
    generateGitHubStats {} (.record numericUserProfile) = "" :=
  have h := subformatters_invalid_input {} (.num 7) (.prim .null) numericUserProfile
  ⟨h.1 rfl, h.2.2.2.2.2 rfl rfl rfl rfl⟩

/-! ## Theorems: Markdown renderer on fixed inputs -/

/-- C16, evaluated on the code: a fenced block never becomes a `<pre>` block.
The inline-code substitution runs first and consumes the backticks of the
fences, so the body `x` between two fences is rendered as three inline `code`
elements, and a body of several lines gets no `<pre>` either. -/
theorem formatPreview_fence_without_pre :
    formatPreview (.prim (.str "\x60\x60\x60x\x60\x60\x60")) =
      "<code class=\"bg-gray-100 dark:bg-gray-800 px-2 py-1 rounded text-sm font-mono\"></code>" ++
      "<code class=\"bg-gray-100 dark:bg-gray-800 px-2 py-1 rounded text-sm font-mono\">x</code>" ++
      "<code class=\"bg-gray-100 dark:bg-gray-800 px-2 py-1 rounded text-sm font-mono\"></code>" ∧
    ¬ includes (formatPreview (.prim (.str "\x60\x60\x60x\x60\x60\x60"))) "<pre" ∧
    ¬ includes (formatPreview (.prim (.str "\x60\x60\x60\nx\ny\n\x60\x60\x60"))) "<pre" := by
  decide

/-- C17, evaluated on the code: the list `- a` that ends the input gets an
opening `<ul>` and no closing `</ul>`, and in the run `- a`, `- b` each item
is wrapped in a `<ul>` of its own. -/
theorem formatPreview_list_unbalanced :
    formatPreview (.prim (.str "- a")) =
      "<ul class=\"list-disc ml-6 my-2\"><li class=\"ml-4\">a</li>" ∧
    countOf (formatPreview (.prim (.str "- a"))) "<ul" = 1 ∧
    countOf (formatPreview (.prim (.str "- a"))) "</ul>" = 0 ∧
    listItemsMatched (formatPreview (.prim (.str "- a"))) = false ∧
    formatPreview (.prim (.str "- a\n- b\nc")) =
      "<ul class=\"list-disc ml-6 my-2\"><li class=\"ml-4\">a</li></ul>" ++
      "<ul class=\"list-disc ml-6 my-2\"><li class=\"ml-4\">b</li></ul>c" ∧
    countOf (formatPreview (.prim (.str "- a\n- b\nc"))) "<ul" = 2 := by
  decide

/-- The only values `generateREADME` returns are its two fixed messages. -/
theorem generateREADME_values (g : Generator) (data : Input) (theme : Value) :
    generateREADME g data theme = missingDataMessage ∨
    generateREADME g data theme = generationFailedMessage := by
  by_cases hd : data.truthy = true
  · by_cases ht : theme.truthy = true
    · exact Or.inr (generateREADME_present g data theme hd ht)
    · have h := generateREADME_absent g data theme (Or.inr (by simpa using ht))
      exact Or.inl (by simp [generateREADME, h, tryCatch])
  · have h := generateREADME_absent g data theme (Or.inl (by simpa using hd))
    exact Or.inl (by simp [generateREADME, h, tryCatch])

/-- C18: for every profile record and theme the preview of the generated README
holds no unmatched `<li>`: every list-item opening tag stands inside an open
`<ul>` and every `<ul>` is closed. What `generateREADME` returns is one of its
two fixed messages, whose preview holds no list item at all. -/
theorem preview_of_README_list_items_matched (g : Generator) (data : Input) (theme : Value) :
    listItemsMatched (formatPreview (.prim (.str (generateREADME g data theme)))) = true ∧
    ¬ includes (formatPreview (.prim (.str (generateREADME g data theme)))) "<li" := by
  rcases generateREADME_values g data theme with h | h <;> rw [h] <;> decide

/-! ## Theorems: substitution passes -/

theorem mismatch_isPrefixOf (lit t rest : List Char) (h : mismatch lit t = true) :
    lit.isPrefixOf (t ++ rest) = false := by
  induction lit generalizing t with
  | nil => simp [mismatch] at h
  | cons x xs ih =>
    cases t with
    | nil => simp [mismatch] at h
    | cons c cs =>
      simp only [mismatch, Bool.or_eq_true, bne_iff_ne, ne_eq] at h
      by_cases hxc : x = c
      · subst hxc
        have h' : mismatch xs cs = true := by simpa using h
        simp [List.isPrefixOf, ih cs h']
      · simp [List.isPrefixOf, hxc]

theorem mismatch_append (lit t rest : List Char) (h : mismatch lit t = true) :
    mismatch lit (t ++ rest) = true := by
  induction lit generalizing t with
  | nil => simp [mismatch] at h
  | cons x xs ih =>
    cases t with
    | nil => simp [mismatch] at h
    | cons d ds =>
      simp only [mismatch, Bool.or_eq_true] at h
      rcases h with h | h
      · simp [mismatch, h]
      · simp [mismatch, ih ds h]

theorem clears_append (lit X Y : List Char) (hX : clears lit X = true)
    (hY : clears lit Y = true) : clears lit (X ++ Y) = true := by
  induction X with
  | nil => simpa using hY
  | cons c cs ih =>
    simp only [clears, Bool.and_eq_true] at hX
    have hm : mismatch lit (c :: (cs ++ Y)) = true := mismatch_append lit (c :: cs) Y hX.1
    simp [clears, hm, ih hX.2]

theorem clears_of_not_mem (x : Char) (xs A : List Char) (h : x ∉ A) :
    clears (x :: xs) A = true := by
  induction A with
  | nil => rfl
  | cons c cs ih =>
    simp only [List.mem_cons, not_or] at h
    simp [clears, mismatch, h.1, ih h.2]

/-- A pass whose matches all begin with `lit` copies a text that `lit` does not
start in. -/
theorem replaceGo_clears (m : Matcher) (lit : List Char)
    (hm : ∀ t, lit.isPrefixOf t = false → m t = none) (X rest : List Char)
    (hX : clears lit X = true) : replaceGo m 0 (X ++ rest) = X ++ replaceGo m 0 rest := by
  induction X with
  | nil => rfl
  | cons c cs ih =>
    simp only [clears, Bool.and_eq_true] at hX
    have hnone : m (c :: (cs ++ rest)) = none :=
      hm _ (mismatch_isPrefixOf lit (c :: cs) rest hX.1)
    simp [replaceGo, hnone, ih hX.2]

theorem replaceAll_clears (m : Matcher) (lit : List Char)
    (hm : ∀ t, lit.isPrefixOf t = false → m t = none) (X : List Char)
    (hX : clears lit X = true) : replaceAll m X = X := by
  have h := replaceGo_clears m lit hm X [] hX
  simpa [replaceAll, replaceGo] using h

theorem replaceGo_skip (m : Matcher) (k : Nat) (s : List Char) (h : k ≤ s.length) :
    replaceGo m k s = replaceGo m 0 (s.drop k) := by
  induction k generalizing s with
  | zero => simp
  | succ k ih =>
    cases s with
    | nil => simp at h
    | cons c cs =>
      simp only [List.length_cons, Nat.add_le_add_iff_right] at h
      simp [replaceGo, ih cs h]

/-- A match at the head is replaced, and the pass goes on behind it. -/
theorem replaceGo_match (m : Matcher) (s out : List Char) (n : Nat)
    (hm : m s = some (out, n)) (h1 : 1 ≤ n) (hn : n ≤ s.length) :
    replaceGo m 0 s = out ++ replaceGo m 0 (s.drop n) := by
  cases s with
  | nil => simp at hn; omega
  | cons c cs =>
    obtain ⟨k, rfl⟩ : ∃ k, n = k + 1 := ⟨n - 1, by omega⟩
    simp only [List.length_cons, Nat.add_le_add_iff_right] at hn
    simp [replaceGo, hm, replaceGo_skip m k cs hn]

theorem lazyUntil_plain (x : Char) (xs : List Char) (dotAll : Bool) (A rest : List Char)
    (hx : x ∉ A) (hl : ∀ c ∈ A, isLineTerminator c = false) :
    lazyUntil (x :: xs) dotAll (A ++ (x :: xs) ++ rest) = some A := by
  induction A with
  | nil =>
    have hp : (x :: xs).isPrefixOf ((x :: xs) ++ rest) = true :=
      List.isPrefixOf_iff_prefix.mpr (List.prefix_append _ _)
    simp only [List.nil_append, List.cons_append] at hp ⊢
    simp [lazyUntil, hp]
  | cons c cs ih =>
    simp only [List.mem_cons, not_or] at hx
    have hc : isLineTerminator c = false := hl c (List.mem_cons_self _ _)
    have ih' := ih hx.2 (fun d hd => hl d (List.mem_cons_of_mem _ hd))
    simp only [List.cons_append, List.append_assoc] at ih' ⊢
    simp [lazyUntil, List.isPrefixOf, hx.1, hc, ih']

theorem replaceLineGo_inside (pre opening closing : List Char) (s : List Char)
    (hl : ∀ c ∈ s, isLineTerminator c = false) :
    replaceLineGo pre opening closing false 0 s = s := by
  induction s with
  | nil => rfl
  | cons c cs ih =>
    have hc : isLineTerminator c = false := hl c (List.mem_cons_self _ _)
    simp [replaceLineGo, hc, ih (fun d hd => hl d (List.mem_cons_of_mem _ hd))]

/-- A line-start pattern leaves a one-line text that does not begin with its
prefix as it is. -/
theorem replaceLineStart_single_line (pre opening closing : String) (s : List Char)
    (hl : ∀ c ∈ s, isLineTerminator c = false) (hp : pre.data.isPrefixOf s = false) :
    replaceLineStart pre opening closing s = s := by
  cases s with
  | nil => rfl
  | cons c cs =>
    have hc : isLineTerminator c = false := hl c (List.mem_cons_self _ _)
    simp [replaceLineStart, replaceLineGo, hp, hc,
      replaceLineGo_inside _ _ _ cs (fun d hd => hl d (List.mem_cons_of_mem _ hd))]

theorem delimited_none (delim : String) (dotAll : Bool) (opening closing : String)
    (t : List Char) (h : delim.data.isPrefixOf t = false) :
    delimited delim dotAll opening closing t = none := by
  simp [delimited, h]

theorem link_none (before between after : String) (t : List Char)
    (h : ['['].isPrefixOf t = false) : link before between after t = none := by
  have hd : "[".data = ['['] := rfl
  simp [link, hd, h]

theorem literal_none (text replacement : String) (t : List Char)
    (h : text.data.isPrefixOf t = false) : literal text replacement t = none := by
  simp [literal, h]

theorem plain_not_mem (A : List Char) (hA : A.all (fun c => !isSpecialChar c) = true)
    (x : Char) (hx : isSpecialChar x = true) : x ∉ A := by
  intro hmem
  have := List.all_eq_true.mp hA x hmem
  simp [hx] at this

theorem plain_no_terminator (A : List Char) (hA : A.all (fun c => !isSpecialChar c) = true) :
    ∀ c ∈ A, isLineTerminator c = false := by
  intro c hc
  have := List.all_eq_true.mp hA c hc
  simp only [isSpecialChar, Bool.not_eq_true', Bool.or_eq_false_iff] at this
  exact this.2

theorem replaceLineStart_one_line (pre opening closing : String) (s : List Char)
    (hl : s.all (fun c => !isLineTerminator c) = true) (hp : pre.data.isPrefixOf s = false) :
    replaceLineStart pre opening closing s = s :=
  replaceLineStart_single_line pre opening closing s
    (fun c hc => by simpa using List.all_eq_true.mp hl c hc) hp

theorem all_of_forall (A : List Char) (p : Char → Bool) (h : ∀ c ∈ A, p c = true) :
    A.all p = true := List.all_eq_true.mpr h

/-- The bold pass on `**a** *b*`: the first pair of `**` is replaced, the
single asterisks stay. -/
theorem bold_pass (A B : List Char)
    (hA : A.all (fun c => !isSpecialChar c) = true)
    (hB : B.all (fun c => !isSpecialChar c) = true) :
    replaceAll (delimited "**" false "<strong class=\"font-bold\">" "</strong>")
      ('*' :: '*' :: (A ++ '*' :: '*' :: ' ' :: '*' :: (B ++ ['*']))) =
      "<strong class=\"font-bold\">".data ++ A ++ "</strong>".data ++
        ' ' :: '*' :: (B ++ ['*']) := by
  have hsA : '*' ∉ A := plain_not_mem A hA '*' (by decide)
  have hsB : '*' ∉ B := plain_not_mem B hB '*' (by decide)
  have hlA := plain_no_terminator A hA
  have hd : "**".data = ['*', '*'] := rfl
  have hlazy := lazyUntil_plain '*' ['*'] false A (' ' :: '*' :: (B ++ ['*'])) hsA hlA
  have hm : delimited "**" false "<strong class=\"font-bold\">" "</strong>"
      ('*' :: '*' :: (A ++ '*' :: '*' :: ' ' :: '*' :: (B ++ ['*']))) =
      some ("<strong class=\"font-bold\">".data ++ A ++ "</strong>".data, 2 + A.length + 2) := by
    simp only [List.append_assoc, List.cons_append, List.nil_append] at hlazy
    simp [delimited, hd, List.isPrefixOf, hlazy, String.length]
  unfold replaceAll
  rw [replaceGo_match _ _ _ _ hm (by omega) (by simp; omega)]
  have hdrop : List.drop (2 + A.length + 2)
      ('*' :: '*' :: (A ++ '*' :: '*' :: ' ' :: '*' :: (B ++ ['*']))) =
      ' ' :: '*' :: (B ++ ['*']) := by
    have : 2 + A.length + 2 = (A.length + 2) + 2 := by omega
    rw [this]
    simp only [List.drop_succ_cons]
    rw [← List.drop_drop]
    simp
  rw [hdrop]
  congr 1
  cases B with
  | nil => decide
  | cons c cs =>
    simp only [List.mem_cons, not_or] at hsB
    have hX : clears ['*', '*'] (' ' :: '*' :: c :: cs) = true := by
      have hcs := clears_of_not_mem '*' ['*'] cs hsB.2
      have hc : ¬ c = '*' := fun h => hsB.1 h.symm
      simp [clears, mismatch, hc, hcs, hsB.1]
    have hgo := replaceGo_clears
      (delimited "**" false "<strong class=\"font-bold\">" "</strong>") ['*', '*']
      (fun t ht => delimited_none _ _ _ _ t (by simpa [hd] using ht))
      (' ' :: '*' :: c :: cs) ['*'] hX
    have hlast : replaceGo (delimited "**" false "<strong class=\"font-bold\">" "</strong>") 0
        ['*'] = ['*'] := by decide
    simpa [hlast] using hgo

/-- The italic pass behind the bold pass: the remaining pair of `*` is replaced. -/
theorem italic_pass (A B : List Char)
    (hA : A.all (fun c => !isSpecialChar c) = true)
    (hB : B.all (fun c => !isSpecialChar c) = true) :
    replaceAll (delimited "*" false "<em class=\"italic\">" "</em>")
      ("<strong class=\"font-bold\">".data ++ A ++ "</strong>".data ++
        ' ' :: '*' :: (B ++ ['*'])) =
      "<strong class=\"font-bold\">".data ++ A ++ "</strong>".data ++
        ' ' :: ("<em class=\"italic\">".data ++ B ++ "</em>".data) := by
  have hsA : '*' ∉ A := plain_not_mem A hA '*' (by decide)
  have hsB : '*' ∉ B := plain_not_mem B hB '*' (by decide)
  have hlB := plain_no_terminator B hB
  have hd : "*".data = ['*'] := rfl
  have hX : clears ['*'] ("<strong class=\"font-bold\">".data ++ A ++ "</strong>".data ++ [' ']) =
      true :=
    clears_append _ _ _ (clears_append _ _ _ (clears_append _ _ _ (by decide)
      (clears_of_not_mem '*' [] A hsA)) (by decide)) (by decide)
  have hgo := replaceGo_clears (delimited "*" false "<em class=\"italic\">" "</em>") ['*']
    (fun t ht => delimited_none _ _ _ _ t (by simpa [hd] using ht))
    ("<strong class=\"font-bold\">".data ++ A ++ "</strong>".data ++ [' ']) ('*' :: (B ++ ['*'])) hX
  have hlazy := lazyUntil_plain '*' [] false B [] hsB hlB
  have hm : delimited "*" false "<em class=\"italic\">" "</em>" ('*' :: (B ++ ['*'])) =
      some ("<em class=\"italic\">".data ++ B ++ "</em>".data, 1 + B.length + 1) := by
    simp only [List.append_assoc, List.cons_append, List.nil_append, List.append_nil] at hlazy
    simp [delimited, hd, List.isPrefixOf, hlazy, String.length]
  have hmatch := replaceGo_match _ _ _ _ hm (by omega) (by simp; omega)
  have hdrop : List.drop (1 + B.length + 1) ('*' :: (B ++ ['*'])) = [] := by
    apply List.drop_eq_nil_of_le
    simp
    omega
  rw [hdrop] at hmatch
  unfold replaceAll
  have hshape : "<strong class=\"font-bold\">".data ++ A ++ "</strong>".data ++
      ' ' :: '*' :: (B ++ ['*']) =
      ("<strong class=\"font-bold\">".data ++ A ++ "</strong>".data ++ [' ']) ++
        '*' :: (B ++ ['*']) := by simp
  rw [hshape, hgo, hmatch]
  simp [replaceGo]

/-- A pass whose matches all begin with `x` copies the rendered bold-and-italic
text when `x` occurs neither in the two texts nor, as the start of a match, in
the tags. -/
theorem clears_rendered (lit A B : List Char) (x : Char) (xs : List Char) (hlit : lit = x :: xs)
    (hA : x ∉ A) (hB : x ∉ B)
    (h1 : clears lit "<strong class=\"font-bold\">".data = true)
    (h2 : clears lit "</strong> <em class=\"italic\">".data = true)
    (h3 : clears lit "</em>".data = true) :
    clears lit ("<strong class=\"font-bold\">".data ++ A ++
      "</strong> <em class=\"italic\">".data ++ B ++ "</em>".data) = true := by
  subst hlit
  exact clears_append _ _ _ (clears_append _ _ _ (clears_append _ _ _ (clears_append _ _ _ h1
    (clears_of_not_mem x xs A hA)) h2) (clears_of_not_mem x xs B hB)) h3

/-- The chain of substitutions on `**a** *b*` for plain texts `a` and `b`. -/
theorem markdownToHtml_bold_italic (A B : List Char)
    (hA : A.all (fun c => !isSpecialChar c) = true)
    (hB : B.all (fun c => !isSpecialChar c) = true) :
    markdownToHtml ('*' :: '*' :: (A ++ '*' :: '*' :: ' ' :: '*' :: (B ++ ['*']))) =
      "<strong class=\"font-bold\">".data ++ A ++ "</strong> <em class=\"italic\">".data ++ B ++
        "</em>".data := by
  have nA := plain_not_mem A hA
  have nB := plain_not_mem B hB
  have lA : A.all (fun c => !isLineTerminator c) = true :=
    all_of_forall A _ (fun c hc => by simp [plain_no_terminator A hA c hc])
  have lB : B.all (fun c => !isLineTerminator c) = true :=
    all_of_forall B _ (fun c hc => by simp [plain_no_terminator B hB c hc])
  have hl0 : ('*' :: '*' :: (A ++ '*' :: '*' :: ' ' :: '*' :: (B ++ ['*']))).all
      (fun c => !isLineTerminator c) = true := by
    simp only [List.all_cons, List.all_append, lA, lB]
    decide
  have hT : "<strong class=\"font-bold\">".data ++ A ++ "</strong>".data ++
      ' ' :: ("<em class=\"italic\">".data ++ B ++ "</em>".data) =
      "<strong class=\"font-bold\">".data ++ A ++ "</strong> <em class=\"italic\">".data ++ B ++
        "</em>".data := by
    have hlit : "</strong> <em class=\"italic\">".data =
        "</strong>".data ++ ' ' :: "<em class=\"italic\">".data := by decide
    simp [hlit]
  have hlT : ("<strong class=\"font-bold\">".data ++ A ++ "</strong> <em class=\"italic\">".data ++
      B ++ "</em>".data).all (fun c => !isLineTerminator c) = true := by
    simp only [List.all_append, lA, lB]
    decide
  have hpT : ∀ pre : List Char, pre.head? ≠ some '<' → pre ≠ [] →
      pre.isPrefixOf ("<strong class=\"font-bold\">".data ++ A ++
        "</strong> <em class=\"italic\">".data ++ B ++ "</em>".data) = false := by
    intro pre hh hne
    cases pre with
    | nil => exact absurd rfl hne
    | cons p ps =>
      have hp : ¬ p = '<' := fun h => hh (by simp [h])
      have hd : "<strong class=\"font-bold\">".data =
          '<' :: "strong class=\"font-bold\">".data := by decide
      simp [hd, List.isPrefixOf, hp]
  unfold markdownToHtml
  rw [replaceLineStart_one_line "# " _ _ _ hl0 (by simp [List.isPrefixOf]),
    replaceLineStart_one_line "## " _ _ _ hl0 (by simp [List.isPrefixOf]),
    replaceLineStart_one_line "### " _ _ _ hl0 (by simp [List.isPrefixOf]),
    bold_pass A B hA hB, italic_pass A B hA hB, hT]
  rw [replaceAll_clears _ "\x60".data (fun t ht => delimited_none _ _ _ _ t ht) _
    (clears_rendered _ A B '\x60' [] rfl (nA _ (by decide)) (nB _ (by decide))
      (by decide) (by decide) (by decide))]
  rw [replaceAll_clears _ "\x60\x60\x60".data (fun t ht => delimited_none _ _ _ _ t ht) _
    (clears_rendered _ A B '\x60' ['\x60', '\x60'] rfl (nA _ (by decide)) (nB _ (by decide))
      (by decide) (by decide) (by decide))]
  rw [replaceAll_clears _ ['['] (fun t ht => link_none _ _ _ t ht) _
    (clears_rendered _ A B '[' [] rfl (nA _ (by decide)) (nB _ (by decide))
      (by decide) (by decide) (by decide))]
  rw [replaceLineStart_one_line "> " _ _ _ hlT (hpT _ (by decide) (by decide)),
    replaceLineStart_one_line "- " _ _ _ hlT (hpT _ (by decide) (by decide))]
  rw [replaceAll_clears _ "\n".data (fun t ht => literal_none _ _ t ht) _
    (clears_rendered _ A B '\n' [] rfl (nA _ (by decide)) (nB _ (by decide))
      (by decide) (by decide) (by decide))]
  rw [replaceAll_clears _ "<li class=\"ml-4\">".data (fun t ht => literal_none _ _ t ht) _
    (clears_rendered _ A B '<' "li class=\"ml-4\">".data (by decide) (nA _ (by decide))
      (nB _ (by decide)) (by decide) (by decide) (by decide))]
  rw [replaceAll_clears _ "</li><br>".data (fun t ht => literal_none _ _ t ht) _
    (clears_rendered _ A B '<' "/li><br>".data (by decide) (nA _ (by decide))
      (nB _ (by decide)) (by decide) (by decide) (by decide))]

/-- For a non-empty string `formatPreview` returns the chain of substitutions. -/
theorem formatPreview_str (s : String) (h : s ≠ "") :
    formatPreviewTry (.prim (.str s)) = .ok ⟨markdownToHtml s.data⟩ ∧
    formatPreview (.prim (.str s)) = ⟨markdownToHtml s.data⟩ := by
  have h1 : formatPreviewTry (.prim (.str s)) = .ok ⟨markdownToHtml s.data⟩ := by
    simp [formatPreviewTry, Input.truthy, Input.isString, Input.text, Value.isString, str_truthy,
      h]
  exact ⟨h1, by simp [formatPreview, h1, tryCatch]⟩

/-- C19, refuted as stated: the preview of `**a** *b*` is not the bare
`<strong>a</strong> <em>b</em>`. -/
theorem formatPreview_bold_italic_not_bare :
    formatPreview (.prim (.str (boldItalicInput "a" "b"))) ≠ "<strong>a</strong> <em>b</em>" := by
  decide

/-- C19, amended: for all texts `a` and `b` free of Markdown and HTML special
characters and of line terminators, the preview of `**a** *b*` is
`<strong class="font-bold">a</strong> <em class="italic">b</em>`: `a` is
wrapped in one strong element and `b` in one em element, each carrying its
class attribute, and the bold delimiters are not turned into em elements. -/
theorem formatPreview_bold_italic (a b : String) (ha : plainText a = true)
    (hb : plainText b = true) :
    formatPreview (.prim (.str (boldItalicInput a b))) =
      "<strong class=\"font-bold\">" ++ a ++ "</strong> <em class=\"italic\">" ++ b ++ "</em>" := by
  have hdata : (boldItalicInput a b).data =
      '*' :: '*' :: (a.data ++ '*' :: '*' :: ' ' :: '*' :: (b.data ++ ['*'])) := by
    simp [boldItalicInput]
  have hne : boldItalicInput a b ≠ "" := by
    intro hc
    have := congrArg String.data hc
    rw [hdata] at this
    simp at this
  rw [(formatPreview_str _ hne).2, hdata, markdownToHtml_bold_italic a.data b.data ha hb]
  apply String.ext
  simp

/-- Witness of C19 (amended): the texts `a` and `b`. -/
theorem formatPreview_bold_italic_witness :
    formatPreview (.prim (.str (boldItalicInput "a" "b"))) =
      "<strong class=\"font-bold\">" ++ "a" ++ "</strong> <em class=\"italic\">" ++ "b" ++
        "</em>" :=
  formatPreview_bold_italic "a" "b" (by decide) (by decide)

/-- C20, refuted as stated: the placeholder is also returned for a non-empty
string, the placeholder text itself. -/
theorem formatPreview_placeholder_for_nonempty :
    noContentMessage ≠ "" ∧
    formatPreview (.prim (.str noContentMessage)) = noContentMessage := by
  decide

/-- C20, amended: `formatPreview` is total. For every input that is not a
string (undefined, null, a boolean, a number, an object) and for the empty
string the guard returns the fixed placeholder without throwing; for every
non-empty string the `try` block completes, without throwing, with the result
of the thirteen substitutions, which is what `formatPreview` returns. -/
theorem formatPreview_total (content : Input) (s : String) :
    (content.isString = false ∨ content = .prim (.str "") →
      formatPreviewTry content = .ok noContentMessage ∧
      formatPreview content = noContentMessage) ∧
    (s ≠ "" →
      formatPreviewTry (.prim (.str s)) = .ok ⟨markdownToHtml s.data⟩ ∧
      formatPreview (.prim (.str s)) = ⟨markdownToHtml s.data⟩) ∧
    (∃ out, formatPreviewTry content = .ok out ∧ formatPreview content = out) := by
  refine ⟨fun h => ?_, formatPreview_str s, ?_⟩
  · have h1 : formatPreviewTry content = .ok noContentMessage := by
      rcases h with h | h
      · simp [formatPreviewTry, h]
      · subst h
        rfl
    exact ⟨h1, by simp [formatPreview, h1, tryCatch]⟩
  · unfold formatPreview formatPreviewTry
    split <;> exact ⟨_, rfl, rfl⟩

/-- Witness of C20 (amended): `undefined`, a number, an object, the empty
string, and a non-empty string. -/
theorem formatPreview_total_witness :
    formatPreview (.prim .undefined) = noContentMessage ∧
    formatPreview (.prim (.num 3)) = noContentMessage ∧
    formatPreview (.record adaProfile) = noContentMessage ∧
    formatPreview (.prim (.str "")) = noContentMessage ∧
    formatPreview (.prim (.str "ok")) = ⟨markdownToHtml "ok".data⟩ :=
  ⟨((formatPreview_total (.prim .undefined) "ok").1 (Or.inl rfl)).2,
   ((formatPreview_total (.prim (.num 3)) "ok").1 (Or.inl rfl)).2,
   ((formatPreview_total (.record adaProfile) "ok").1 (Or.inl rfl)).2,
   ((formatPreview_total (.prim (.str "")) "ok").1 (Or.inr rfl)).2,
   ((formatPreview_total (.prim .null) "ok").2.1 (by decide)).2⟩

/-! ## Theorems: newlines in the preview -/

/-- A pass whose replacements are free of `x` keeps a text free of `x` so. -/
theorem replaceGo_free (m : Matcher) (x : Char)
    (hm : ∀ t out n, m t = some (out, n) → x ∉ out) (s : List Char) (k : Nat) (hs : x ∉ s) :
    x ∉ replaceGo m k s := by
  induction s generalizing k with
  | nil => simp [replaceGo]
  | cons c cs ih =>
    simp only [List.mem_cons, not_or] at hs
    cases k with
    | succ k => simpa [replaceGo] using ih k hs.2
    | zero =>
      cases hmc : m (c :: cs) with
      | none => simp [replaceGo, hmc, hs.1, ih 0 hs.2]
      | some p =>
        obtain ⟨out, n⟩ := p
        simp [replaceGo, hmc, hm _ _ _ hmc, ih (n - 1) hs.2]

/-- The newline pass leaves no newline. -/
theorem newline_pass_free (s : List Char) : '\n' ∉ replaceAll (literal "\n" "<br>") s := by
  unfold replaceAll
  induction s with
  | nil => simp [replaceGo]
  | cons c cs ih =>
    by_cases hc : c = '\n'
    · subst hc
      have hm : literal "\n" "<br>" ('\n' :: cs) = some ("<br>".data, 1) := by
        simp [literal, List.isPrefixOf, String.length]
      simp only [replaceGo, hm, Nat.sub_self, List.mem_append, not_or]
      exact ⟨by decide, ih⟩
    · have hm : literal "\n" "<br>" (c :: cs) = none := by
        have hc' : ¬ '\n' = c := fun h => hc h.symm
        simp [literal, List.isPrefixOf, hc']
      have hc' : ¬ '\n' = c := fun h => hc h.symm
      simp [replaceGo, hm, hc', ih]

theorem literal_out (text replacement : String) (t out : List Char) (n : Nat)
    (h : literal text replacement t = some (out, n)) : out = replacement.data := by
  unfold literal at h
  split at h
  · simp only [Option.some.injEq, Prod.mk.injEq] at h
    exact h.1.symm
  · simp at h

/-- The chain of substitutions leaves no newline character. -/
theorem markdownToHtml_newline_free (s : List Char) : '\n' ∉ markdownToHtml s := by
  unfold markdownToHtml
  apply replaceGo_free _ _ (fun t out n h => by rw [literal_out _ _ _ _ _ h]; decide)
  apply replaceGo_free _ _ (fun t out n h => by rw [literal_out _ _ _ _ _ h]; decide)
  exact newline_pass_free _

/-- C23: for every non-empty string input the output of `formatPreview` holds no
newline character (U+000A): the newline pass replaces every newline that the
earlier substitutions left by `<br>`, and the two passes after it insert none. -/
theorem formatPreview_newline_free (s : String) (h : s ≠ "") :
    '\n' ∉ (formatPreview (.prim (.str s))).data := by
  rw [(formatPreview_str s h).2]
  exact markdownToHtml_newline_free s.data

/-- Witness of C23: a text of three lines with a list. -/
theorem formatPreview_newline_free_witness :
    '\n' ∉ (formatPreview (.prim (.str "a\n- b\n\nc"))).data :=
  formatPreview_newline_free "a\n- b\n\nc" (by decide)

/-! ## Theorems: validation and debounce -/

/-- C26, evaluated on the code: for the field with id `username` an empty value
and a whitespace-only value pass `validateField`, because the pattern is
tested only when the trimmed value is non-empty and emptiness is rejected for
the field `name` alone. -/
theorem validateField_accepts_empty_username :
    validateField (some { id := .str "username", value := .str "" }) = true ∧
    validateField (some { id := .str "username", value := .str "   " }) = true ∧
    validateField (some { id := .str "name", value := .str "" }) = false ∧
    validateField (some { id := .str "username", value := .str "a_b" }) = false ∧
    validateField (some { id := .str "username", value := .str "octo-cat9" }) = true := by
  decide

/-- The input listener leaves the event loop as it is. -/
theorem runActions_no_timer (actions : List Action) (loop : EventLoop)
    (h : loop.timers = []) :
    (runActions actions loop).timers = [] ∧
    (runActions actions loop).previewCalls = loop.previewCalls := by
  induction actions generalizing loop with
  | nil => exact ⟨h, rfl⟩
  | cons a rest ih =>
    cases a with
    | input => exact ih loop h
    | idle ms =>
      have h1 : (advance ms loop).timers = [] := by simp [advance, h]
      have h2 : (advance ms loop).previewCalls = loop.previewCalls := by simp [advance, h]
      have := ih (advance ms loop) h1
      exact ⟨this.1, this.2.trans h2⟩

/-- C27, evaluated on the code: after a burst of three input events 100 ms
apart and more than 300 ms of idle time `updatePreview` has run zero times,
and no timeout was ever set; the function `debounce` returns, had it been
called at those three instants, would have run `updatePreview` exactly once. -/
theorem input_events_never_update_preview :
    (runActions [.input, .idle 100, .input, .idle 100, .input, .idle 300, .idle 1000]
      {}).previewCalls = 0 ∧
    (runActions [.input, .idle 100, .input, .idle 100, .input] {}).timers = [] ∧
    debouncedBurst.previewCalls = 1 ∧ debouncedBurst.now = 500 := by
  decide

/-! ## Theorems: dependence on the controller state -/

theorem endsWithThemeKey_append (a p : String) (h : endsWithThemeKey p) :
    endsWithThemeKey (a ++ p) := by
  obtain ⟨t, ht⟩ := h
  exact ⟨a.data ++ t, by simp [← ht]⟩

theorem tokenOnly_const (c : String) : tokenOnly (fun _ => c) :=
  ⟨c, "", "", Or.inl fun _ => rfl⟩

theorem tokenOnly_append_left (a : String) (out : Generator → String) (h : tokenOnly out) :
    tokenOnly (fun g => a ++ out g) := by
  obtain ⟨p0, p1, p2, h | ⟨e0, h⟩ | ⟨e0, e1, h⟩⟩ := h
  · exact ⟨a ++ p0, "", "", Or.inl fun g => by simp [h g]⟩
  · exact ⟨a ++ p0, p1, "", Or.inr (Or.inl ⟨endsWithThemeKey_append a p0 e0,
      fun g => by simp [h g, String.append_assoc]⟩)⟩
  · exact ⟨a ++ p0, p1, p2, Or.inr (Or.inr ⟨endsWithThemeKey_append a p0 e0, e1,
      fun g => by simp [h g, String.append_assoc]⟩)⟩

theorem tokenOnly_append_right (out : Generator → String) (b : String) (h : tokenOnly out) :
    tokenOnly (fun g => out g ++ b) := by
  obtain ⟨p0, p1, p2, h | ⟨e0, h⟩ | ⟨e0, e1, h⟩⟩ := h
  · exact ⟨p0 ++ b, "", "", Or.inl fun g => by simp [h g]⟩
  · exact ⟨p0, p1 ++ b, "", Or.inr (Or.inl ⟨e0, fun g => by simp [h g, String.append_assoc]⟩)⟩
  · exact ⟨p0, p1, p2 ++ b, Or.inr (Or.inr ⟨e0, e1,
      fun g => by simp [h g, String.append_assoc]⟩)⟩

/-- A block whose username has no non-blank trimmed text never uses its embed. -/
theorem statsBlock_embed_unused (toggle username : Value) (e e' : String → String)
    (stats : String) (h : ∀ u, username = .str u → trim u = "") :
    statsBlock toggle username e stats = statsBlock toggle username e' stats := by
  cases hu : username with
  | str u => simp [statsBlock_str, h u hu]
  | undefined => simp [statsBlock, Value.truthy, Value.trim]
  | null => simp [statsBlock, Value.truthy, Value.trim]
  | bool b => simp [statsBlock, Value.trim]
  | num n => simp [statsBlock, Value.trim]

theorem endsWithThemeKey_self (x : String) : endsWithThemeKey (x ++ "theme=") :=
  ⟨x.data, by simp⟩

theorem statsCardEmbed_token (g : Generator) (u : String) :
    statsCardEmbed g u = statsCardHead u ++ themeToken g ++ ")\n\n" := by
  have h1 : "\x27s GitHub stats](https://github-readme-stats.vercel.app/api?username=" =
      "\x27s GitHub stats" ++ "](" ++ "https://github-readme-stats.vercel.app/api?username=" := by
    decide
  have h2 : "&show_icons=true&theme=" = "&show_icons=true&" ++ "theme=" := by decide
  simp only [statsCardEmbed, imageEmbed, statsCardUrl, statsCardHead, h1, h2,
    String.append_assoc]

theorem topLangsEmbed_token (g : Generator) (u : String) :
    topLangsEmbed g u = topLangsHead u ++ themeToken g ++ ")\n\n" := by
  have h1 : "![Top Languages](https://github-readme-stats.vercel.app/api/top-langs/?username=" =
      "![" ++ "Top Languages" ++ "](" ++
        "https://github-readme-stats.vercel.app/api/top-langs/?username=" := by decide
  have h2 : "&layout=compact&theme=" = "&layout=compact&" ++ "theme=" := by decide
  simp only [topLangsEmbed, imageEmbed, topLangsUrl, topLangsHead, h1, h2,
    String.append_assoc]

theorem statsCardHead_key (x : String) (u : String) : endsWithThemeKey (x ++ statsCardHead u) := by
  unfold statsCardHead
  simp only [← String.append_assoc]
  exact endsWithThemeKey_self _

theorem topLangsHead_key (x : String) (u : String) : endsWithThemeKey (x ++ topLangsHead u) := by
  unfold topLangsHead
  simp only [← String.append_assoc]
  exact endsWithThemeKey_self _

/-- The statistics block depends on the instance at most through the theme
token of the two github-readme-stats URLs. -/
theorem generateGitHubStats_tokenOnly (data : Input) :
    tokenOnly (fun g => generateGitHubStats g data) := by
  cases data with
  | prim v =>
    have h : ∀ g, generateGitHubStats g (.prim v) = "" := fun g => by
      simp [generateGitHubStats, generateGitHubStatsTry, Input.view, Value.truthy, tryCatch]
    exact ⟨"", "", "", Or.inl h⟩
  | record d =>
    by_cases hs : d.githubStats.truthy = true
    · by_cases hu : ∃ u, d.username = .str u ∧ trim u ≠ ""
      · obtain ⟨u, hu, hn⟩ := hu
        have hmain : ∀ g, generateGitHubStats g (.record d) =
            statsHeading ++ String.join (statsEmbeds g d (trim u)) := fun g => by
          rw [generateGitHubStats_str g d u hs hu, if_pos hn]
        cases h1 : d.contributionGraph.truthy <;> cases h2 : d.languageStats.truthy <;>
          cases h3 : d.profileViews.truthy
        · exact ⟨statsHeading, "", "", Or.inl fun g => by
            simp [hmain g, statsEmbeds, h1, h2, h3, String.join]⟩
        · exact ⟨statsHeading ++ profileViewsEmbed (trim u), "", "", Or.inl fun g => by
            simp [hmain g, statsEmbeds, h1, h2, h3, String.join]⟩
        · exact ⟨statsHeading ++ topLangsHead (trim u), ")\n\n", "",
            Or.inr (Or.inl ⟨topLangsHead_key _ _, fun g => by
              simp [hmain g, statsEmbeds, h1, h2, h3, String.join, topLangsEmbed_token,
                String.append_assoc]⟩)⟩
        · exact ⟨statsHeading ++ topLangsHead (trim u), ")\n\n" ++ profileViewsEmbed (trim u), "",
            Or.inr (Or.inl ⟨topLangsHead_key _ _, fun g => by
              simp [hmain g, statsEmbeds, h1, h2, h3, String.join, topLangsEmbed_token,
                String.append_assoc]⟩)⟩
        · exact ⟨statsHeading ++ statsCardHead (trim u), ")\n\n", "",
            Or.inr (Or.inl ⟨statsCardHead_key _ _, fun g => by
              simp [hmain g, statsEmbeds, h1, h2, h3, String.join, statsCardEmbed_token,
                String.append_assoc]⟩)⟩
        · exact ⟨statsHeading ++ statsCardHead (trim u), ")\n\n" ++ profileViewsEmbed (trim u), "",
            Or.inr (Or.inl ⟨statsCardHead_key _ _, fun g => by
              simp [hmain g, statsEmbeds, h1, h2, h3, String.join, statsCardEmbed_token,
                String.append_assoc]⟩)⟩
        · exact ⟨statsHeading ++ statsCardHead (trim u), ")\n\n" ++ topLangsHead (trim u),
            ")\n\n",
            Or.inr (Or.inr ⟨statsCardHead_key _ _, topLangsHead_key _ _, fun g => by
              simp [hmain g, statsEmbeds, h1, h2, h3, String.join, statsCardEmbed_token,
                topLangsEmbed_token, String.append_assoc]⟩)⟩
        · exact ⟨statsHeading ++ statsCardHead (trim u), ")\n\n" ++ topLangsHead (trim u),
            ")\n\n" ++ profileViewsEmbed (trim u),
            Or.inr (Or.inr ⟨statsCardHead_key _ _, topLangsHead_key _ _, fun g => by
              simp [hmain g, statsEmbeds, h1, h2, h3, String.join, statsCardEmbed_token,
                topLangsEmbed_token, String.append_assoc]⟩)⟩
      · have hblank : ∀ u, d.username = .str u → trim u = "" := fun u hdu => by
          by_contra hc
          exact hu ⟨u, hdu, hc⟩
        refine ⟨generateGitHubStats {} (.record d), "", "", Or.inl fun g => ?_⟩
        simp only [generateGitHubStats, generateGitHubStatsTry, Input.view]
        rw [statsBlock_embed_unused _ _ (statsCardEmbed g) (statsCardEmbed {}) _ hblank]
        cases statsBlock d.contributionGraph d.username (statsCardEmbed {}) statsHeading with
        | error e => rfl
        | ok s1 =>
          simp only [bind, Except.bind]
          rw [statsBlock_embed_unused _ _ (topLangsEmbed g) (topLangsEmbed {}) _ hblank]
    · have h : ∀ g, generateGitHubStats g (.record d) = "" := fun g =>
        generateGitHubStats_off g _ (Or.inr (by simpa using hs))
      exact ⟨"", "", "", Or.inl h⟩

/-- Every theme function depends on the instance at most through the theme
token of the badge URLs. -/
theorem themes_tokenOnly (d : ProfileData) : ∀ f ∈ themeFunctions, tokenOnly (fun g => f g d) := by
  intro f hf
  simp only [themeFunctions, List.mem_cons, List.mem_singleton, List.not_mem_nil, or_false] at hf
  rcases hf with rfl | rfl | rfl | rfl | rfl | rfl | rfl
  · unfold generateClassicTheme
    iterate 9 apply tokenOnly_append_right
    exact tokenOnly_append_left _ _ (generateGitHubStats_tokenOnly _)
  · unfold generateDarkTheme
    iterate 11 apply tokenOnly_append_right
    exact tokenOnly_append_left _ _ (generateGitHubStats_tokenOnly _)
  · unfold generateColorfulTheme
    iterate 7 apply tokenOnly_append_right
    exact tokenOnly_append_left _ _ (generateGitHubStats_tokenOnly _)
  · unfold generateMinimalTheme
    iterate 6 apply tokenOnly_append_right
    exact tokenOnly_append_left _ _ (generateGitHubStats_tokenOnly _)
  · unfold generateDeveloperTheme
    iterate 9 apply tokenOnly_append_right
    exact tokenOnly_append_left _ _ (generateGitHubStats_tokenOnly _)
  · unfold generateProfessionalTheme
    iterate 13 apply tokenOnly_append_right
    exact tokenOnly_append_left _ _ (generateGitHubStats_tokenOnly _)
  · unfold generateTechTheme
    iterate 7 apply tokenOnly_append_right
    exact tokenOnly_append_left _ _ (generateGitHubStats_tokenOnly _)

/-- An output that depends on the instance through the theme token only is the
same for two instances with the same dark-mode flag. -/
theorem tokenOnly_same_flag (out : Generator → String) (h : tokenOnly out) (g g' : Generator)
    (hflag : g.isDarkMode = g'.isDarkMode) : out g = out g' := by
  have ht : themeToken g = themeToken g' := by simp [themeToken, hflag]
  obtain ⟨p0, p1, p2, h | ⟨_, h⟩ | ⟨_, _, h⟩⟩ := h
  · rw [h g, h g']
  · rw [h g, h g', ht]
  · rw [h g, h g', ht]

/-- With the statistics toggle off the theme functions ignore the instance. -/
theorem themes_stats_off (d : ProfileData) (hoff : d.githubStats.truthy = false)
    (g g' : Generator) : ∀ f ∈ themeFunctions, f g d = f g' d := by
  have h := fun x => generateGitHubStats_off x (.record d) (Or.inr hoff)
  intro f hf
  simp only [themeFunctions, List.mem_cons, List.mem_singleton, List.not_mem_nil, or_false] at hf
  rcases hf with rfl | rfl | rfl | rfl | rfl | rfl | rfl
  · simp only [generateClassicTheme, h g, h g']
  · simp only [generateDarkTheme, h g, h g']
  · simp only [generateColorfulTheme, h g, h g']
  · simp only [generateMinimalTheme, h g, h g']
  · simp only [generateDeveloperTheme, h g, h g']
  · simp only [generateProfessionalTheme, h g, h g']
  · simp only [generateTechTheme, h g, h g']

/-- C24: rendering depends on the controller state only through the dark-mode
flag, and on that only through the stats badges. For every profile and every
theme function, two runs that differ in `isDarkMode`, `currentTheme` or
`profileImage` give the same output when `githubStats` is off; in general the
output is fixed text around at most two copies of the theme token (`dark` or
`default`), each right after `theme=` in a badge URL; two runs with the same
dark-mode flag give the same output; and `generateREADME` gives the same
output for any two instances. -/
theorem rendering_state_dependence (g g' : Generator) (d : ProfileData) (data : Input)
    (theme : Value) :
    (∀ f ∈ themeFunctions, d.githubStats.truthy = false → f g d = f g' d) ∧
    (∀ f ∈ themeFunctions, tokenOnly (fun x => f x d)) ∧
    (∀ f ∈ themeFunctions, g.isDarkMode = g'.isDarkMode → f g d = f g' d) ∧
    tokenOnly (fun x => generateGitHubStats x data) ∧
    generateREADME g data theme = generateREADME g' data theme := by
  refine ⟨fun f hf hoff => themes_stats_off d hoff g g' f hf, themes_tokenOnly d,
    fun f hf hflag => tokenOnly_same_flag _ (themes_tokenOnly d f hf) g g' hflag,
    generateGitHubStats_tokenOnly data, ?_⟩
  by_cases hd : data.truthy = true
  · by_cases ht : theme.truthy = true
    · rw [generateREADME_present g data theme hd ht, generateREADME_present g' data theme hd ht]
    · have h := fun x => generateREADME_absent x data theme (Or.inr (by simpa using ht))
      simp [generateREADME, h g, h g']
  · have h := fun x => generateREADME_absent x data theme (Or.inl (by simpa using hd))
    simp [generateREADME, h g, h g']

/-- Witness of C24: the classic theme for a profile without statistics, rendered
by two instances that differ in all three state fields. -/
theorem rendering_state_dependence_witness :
    generateClassicTheme lightGenerator adaProfile = generateClassicTheme darkGenerator adaProfile :=
  (rendering_state_dependence lightGenerator darkGenerator adaProfile (.record adaProfile)
    (.str "classic")).1 generateClassicTheme (by simp [themeFunctions]) rfl

/-! ## Theorems: whitespace-only fields -/

theorem mem_intercalate_infix (sep : List Char) (parts : List (List Char)) (p : List Char)
    (h : p ∈ parts) : p <:+: sep.intercalate parts := by
  induction parts with
  | nil => simp at h
  | cons x xs ih =>
    cases xs with
    | nil =>
      simp only [List.mem_singleton] at h
      subst h
      simp [List.intercalate]
    | cons y ys =>
      have hcons : sep.intercalate (x :: y :: ys) = x ++ sep ++ sep.intercalate (y :: ys) := by
        simp [List.intercalate, List.intersperse]
      rw [hcons]
      rcases List.mem_cons.mp h with h | h
      · subst h
        exact ⟨[], sep ++ sep.intercalate (y :: ys), by simp⟩
      · obtain ⟨a, b, hab⟩ := ih h
        exact ⟨x ++ sep ++ a, b, by rw [← hab]; simp⟩

theorem includes_join_mem (parts : List String) (sep p : String) (h : p ∈ parts) :
    includes (join parts sep) p :=
  mem_intercalate_infix sep.data (parts.map String.data) p.data (List.mem_map_of_mem _ h)

theorem isString_str (s : String) : (Value.str s).isString = true := rfl

theorem toStr_str (s : String) : (Value.str s).toStr = s := rfl

theorem join_if_nonempty (l : List String) (sep : String) :
    (if l.length > 0 then join l sep else "") = join l sep := by
  cases l with
  | nil => rfl
  | cons x xs => simp

theorem formatLocationAndWork_record (d : ProfileData) :
    formatLocationAndWork (.record d) = join (locationParts d) " | " := by
  unfold formatLocationAndWork locationParts
  simp only [Input.truthy, Input.isObject, Input.view, tryCatch, location_labels.1,
    location_labels.2.1, location_labels.2.2, Bool.not_true, Bool.or_self, Bool.false_eq_true,
    ↓reduceIte, String.append_assoc, join_if_nonempty]

theorem formatSocialLinks_record (d : ProfileData) :
    formatSocialLinks (.record d) = join (socialLinks d ++ [githubLink d]) " | " := by
  have key : ∀ (l : List String) (x : String),
      tryCatch (if l.length > 0 then Except.ok (join (l ++ [x]) " | ") else Except.ok x)
        (fun _ => "[GitHub](https://github.com/)") = join (l ++ [x]) " | " := by
    intro l x
    cases l with
    | nil => simp [tryCatch, join_singleton]
    | cons y ys => simp [tryCatch]
  unfold formatSocialLinks socialLinks githubLink
  simp only [Input.truthy, Input.isObject, Input.view, Bool.not_true, Bool.or_self,
    Bool.false_eq_true, ↓reduceIte]
  exact key _ _

theorem trim_of_whitespace (w : String) (h : w.data.all isJSWhitespace = true) : trim w = "" := by
  have h1 : w.data.dropWhile isJSWhitespace = [] :=
    List.dropWhile_eq_nil_iff.mpr fun c hc => List.all_eq_true.mp h c hc
  simp [trim, h1]

theorem splitGo_chars (sep : List Char) (k : Nat) (l : List Char) :
    ∀ p ∈ splitGo sep k l, ∀ c ∈ p, c ∈ l := by
  induction l generalizing k with
  | nil => simp [splitGo]
  | cons x xs ih =>
    cases k with
    | succ k =>
      intro p hp c hc
      exact List.mem_cons_of_mem _ (ih k p (by simpa [splitGo] using hp) c hc)
    | zero =>
      intro p hp c hc
      simp only [splitGo] at hp
      split at hp
      · rcases List.mem_cons.mp hp with hp | hp
        · subst hp; simp at hc
        · exact List.mem_cons_of_mem _ (ih _ p hp c hc)
      · cases hs : splitGo sep 0 xs with
        | nil =>
          rw [hs] at hp
          simp only [List.mem_singleton] at hp
          subst hp
          simp only [List.mem_singleton] at hc
          simp [hc]
        | cons q qs =>
          rw [hs] at hp
          rcases List.mem_cons.mp hp with hp | hp
          · subst hp
            rcases List.mem_cons.mp hc with hc | hc
            · simp [hc]
            · exact List.mem_cons_of_mem _ (ih 0 q (by simp [hs]) c hc)
          · exact List.mem_cons_of_mem _ (ih 0 p (by simp [hs, hp]) c hc)

/-- Every piece of a whitespace-only text is trimmed to the empty string. -/
theorem split_whitespace (w sep : String) (h : w.data.all isJSWhitespace = true) :
    ∀ p ∈ split w sep, trim p = "" := by
  intro p hp
  simp only [split, List.mem_map] at hp
  obtain ⟨q, hq, rfl⟩ := hp
  apply trim_of_whitespace
  exact List.all_eq_true.mpr fun c hc =>
    List.all_eq_true.mp h c (splitGo_chars _ _ _ q hq c hc)

/-- C25, refuted as stated: skills, projects and the username of the statistics
block are trimmed where they are consumed, so a whitespace-only value gives no
skill entry, no project entry and no badge. -/
theorem whitespace_only_skills_dropped :
    whitespaceOnly "  " = true ∧
    formatSkills (.str "  ") = "" ∧ formatProjects (.str "  ") = "" ∧
    generateGitHubStats {} (.record blankFieldsProfile) = statsHeading := by
  decide

/-- C25, amended: the optional fields location, company, youtube, tagline and
about, and the username of the GitHub link, are included by a truthiness test
without trimming, so a non-empty whitespace-only value `w` counts as present:
`formatLocationAndWork` includes the location part and the company part,
`formatSocialLinks` includes `[YouTube](w)` and the link to
`https://github.com/w`, and each theme function emits the tagline line and the
About section. The fields skills and projects and the username of the
statistics block are trimmed where they are consumed: for them a
whitespace-only value gives the empty list and no badge. -/
theorem whitespace_only_fields (g : Generator) (d : ProfileData) (w : String)
    (hw : whitespaceOnly w = true) :
    (d.location = .str w → includes (formatLocationAndWork (.record d)) (locationLabel ++ w)) ∧
    (d.company = .str w → includes (formatLocationAndWork (.record d)) (companyLabel ++ w)) ∧
    (d.youtube = .str w → includes (formatSocialLinks (.record d)) ("[YouTube](" ++ w ++ ")")) ∧
    (d.username = .str w →
      includes (formatSocialLinks (.record d)) ("[GitHub](https://github.com/" ++ w ++ ")")) ∧
    (d.tagline = .str w →
      includes (generateClassicTheme g d) ("> " ++ w) ∧
      includes (generateDarkTheme g d) ("> " ++ w) ∧
      includes (generateColorfulTheme g d) ("> " ++ w) ∧
      includes (generateMinimalTheme g d) (w ++ "\n") ∧
      includes (generateDeveloperTheme g d) (w) ∧
      includes (generateProfessionalTheme g d) ("> " ++ w) ∧
      includes (generateTechTheme g d) ("> " ++ w)) ∧
    (d.about = .str w →
      includes (generateClassicTheme g d) ("## About Me\n\n" ++ w ++ "\n") ∧
      includes (generateDarkTheme g d) ("## About\n\n" ++ w ++ "\n") ∧
      includes (generateColorfulTheme g d) ("## ‚ú® About\n\n" ++ w ++ "\n") ∧
      includes (generateMinimalTheme g d) (w ++ "\n") ∧
      includes (generateDeveloperTheme g d) ("## About\n\n" ++ w ++ "\n") ∧
      includes (generateProfessionalTheme g d) ("## Professional Summary\n\n" ++ w ++ "\n") ∧
      includes (generateTechTheme g d) ("## About\n\n" ++ w ++ "\n")) ∧
    formatSkills (.str w) = "" ∧ formatProjects (.str w) = "" ∧
    (d.githubStats.truthy = true → d.username = .str w →
      generateGitHubStats g (.record d) = statsHeading) := by
  simp only [whitespaceOnly, Bool.and_eq_true, Bool.not_eq_true', List.isEmpty_eq_false] at hw
  obtain ⟨hne, hws⟩ := hw
  have hw0 : w ≠ "" := fun hc => hne (by simp [hc])
  have htr : (Value.str w).truthy = true := by simp [Value.truthy, hw0]
  have htrim := trim_of_whitespace w hws
  refine ⟨fun hl => ?_, fun hc => ?_, fun hy => ?_, fun hu => ?_, fun ht => ?_, fun ha => ?_,
    ?_, ?_, fun hs hu => ?_⟩
  · rw [formatLocationAndWork_record]
    apply includes_join_mem
    simp [locationParts, hl, htr, isString_str, toStr_str]
  · rw [formatLocationAndWork_record]
    apply includes_join_mem
    simp [locationParts, hc, htr, isString_str, toStr_str]
  · rw [formatSocialLinks_record]
    apply includes_join_mem
    simp [socialLinks, hy, htr, isString_str, toStr_str]
  · rw [formatSocialLinks_record]
    apply includes_join_mem
    simp [githubLink, hu, Value.or, htr, toStr_str]
  · refine ⟨?_, ?_, ?_, ?_, ?_, ?_, ?_⟩
    · simp only [generateClassicTheme, ht, htr, ↓reduceIte, toStr_str]
      repeat (first | exact includes_append_right _ _ _ (includes_refl _) | apply includes_append_left)
    · simp only [generateDarkTheme, ht, htr, ↓reduceIte, toStr_str]
      repeat (first | exact includes_append_right _ _ _ (includes_refl _) | apply includes_append_left)
    · simp only [generateColorfulTheme, ht, htr, ↓reduceIte, toStr_str]
      repeat (first | exact includes_append_right _ _ _ (includes_refl _) | apply includes_append_left)
    · simp only [generateMinimalTheme, ht, htr, ↓reduceIte, toStr_str]
      repeat (first | exact includes_append_right _ _ _ (includes_refl _) | apply includes_append_left)
    · simp only [generateDeveloperTheme, ht, htr, ↓reduceIte, toStr_str]
      repeat (first | exact includes_append_right _ _ _ (includes_refl _) | apply includes_append_left)
    · simp only [generateProfessionalTheme, ht, htr, ↓reduceIte, toStr_str]
      repeat (first | exact includes_append_right _ _ _ (includes_refl _) | apply includes_append_left)
    · simp only [generateTechTheme, ht, htr, ↓reduceIte, toStr_str]
      repeat (first | exact includes_append_right _ _ _ (includes_refl _) | apply includes_append_left)
  · refine ⟨?_, ?_, ?_, ?_, ?_, ?_, ?_⟩
    · simp only [generateClassicTheme, ha, htr, ↓reduceIte, toStr_str]
      repeat (first | exact includes_append_right _ _ _ (includes_refl _) | apply includes_append_left)
    · simp only [generateDarkTheme, ha, htr, ↓reduceIte, toStr_str]
      repeat (first | exact includes_append_right _ _ _ (includes_refl _) | apply includes_append_left)
    · simp only [generateColorfulTheme, ha, htr, ↓reduceIte, toStr_str]
      repeat (first | exact includes_append_right _ _ _ (includes_refl _) | apply includes_append_left)
    · simp only [generateMinimalTheme, ha, htr, ↓reduceIte, toStr_str]
      repeat (first | exact includes_append_right _ _ _ (includes_refl _) | apply includes_append_left)
    · simp only [generateDeveloperTheme, ha, htr, ↓reduceIte, toStr_str]
      repeat (first | exact includes_append_right _ _ _ (includes_refl _) | apply includes_append_left)
    · simp only [generateProfessionalTheme, ha, htr, ↓reduceIte, toStr_str]
      repeat (first | exact includes_append_right _ _ _ (includes_refl _) | apply includes_append_left)
    · simp only [generateTechTheme, ha, htr, ↓reduceIte, toStr_str]
      repeat (first | exact includes_append_right _ _ _ (includes_refl _) | apply includes_append_left)
  · rw [formatSkills_str]
    have : skillArray w = [] := by
      simp only [skillArray, List.filter_eq_nil_iff, List.mem_map]
      rintro e ⟨p, hp, rfl⟩
      simp [split_whitespace w "," hws p hp]
    simp [this, join_nil]
  · have : projectArray w = [] := by
      simp only [projectArray, List.filter_eq_nil_iff]
      intro p hp
      simp [split_whitespace w "\n" hws p hp]
    simp [formatProjects, Value.truthy, Value.isString, Value.toStr, hw0, this, join_nil,
      tryCatch]
  · rw [generateGitHubStats_str g d w hs hu]
    simp [htrim]

/-- Witness of C25 (amended): the profile whose textual fields are two blanks. -/
theorem whitespace_only_fields_witness :
    includes (formatLocationAndWork (.record blankFieldsProfile)) (locationLabel ++ "  ") ∧
    includes (formatSocialLinks (.record blankFieldsProfile)) ("[YouTube](" ++ "  " ++ ")") ∧
    generateGitHubStats {} (.record blankFieldsProfile) = statsHeading :=
  have h := whitespace_only_fields {} blankFieldsProfile "  " (by decide)
  ⟨h.1 rfl, h.2.2.1 rfl, h.2.2.2.2.2.2.2.2 rfl rfl⟩

/-! ## Theorems: texts the renderer returns unchanged -/

/-- A pass whose matches all begin with `lit` copies a text in which `lit` does
not occur. -/
theorem replaceGo_no_occurrence (m : Matcher) (lit : List Char)
    (hm : ∀ t, lit.isPrefixOf t = false → m t = none) (s : List Char)
    (h : ¬ lit <:+: s) : replaceGo m 0 s = s := by
  induction s with
  | nil => rfl
  | cons c cs ih =>
    have hp : lit.isPrefixOf (c :: cs) = false := by
      by_contra hc
      have hpre : lit <+: c :: cs := by simpa using hc
      exact h hpre.isInfix
    have hcs : ¬ lit <:+: cs := fun hc => h (hc.trans (List.suffix_cons c cs).isInfix)
    simp [replaceGo, hm _ hp, ih hcs]

theorem freeOf_not_mem (bad s : String) (h : freeOf bad s = true) (x : Char)
    (hx : bad.data.contains x = true) : x ∉ s.data := by
  intro hmem
  have := List.all_eq_true.mp h x hmem
  rw [hx] at this
  exact absurd this (by decide)

theorem head_ne_isPrefixOf (s : List Char) (x : Char) (xs : List Char)
    (h : s.head? ≠ some x) : (x :: xs).isPrefixOf s = false := by
  cases s with
  | nil => rfl
  | cons c cs =>
    have hc : ¬ x = c := fun hxc => h (by simp [hxc])
    simp [List.isPrefixOf, hc]

/-- The chain of substitutions returns a one-line text unchanged when it holds
no asterisk, backtick or `[`, does not start with `#`, `>` or `-`, and holds
neither the list-item opening tag nor a closed list item before `<br>`. -/
theorem markdownToHtml_unchanged (s : List Char)
    (hl : s.all (fun c => !isLineTerminator c) = true)
    (hstar : '*' ∉ s) (htick : '\x60' ∉ s) (hbr : '[' ∉ s)
    (h1 : s.head? ≠ some '#') (h2 : s.head? ≠ some '>') (h3 : s.head? ≠ some '-')
    (hli : ¬ "<li class=\"ml-4\">".data <:+: s) (hcl : ¬ "</li><br>".data <:+: s) :
    markdownToHtml s = s := by
  have hnl : '\n' ∉ s := fun hmem => by
    have := List.all_eq_true.mp hl '\n' hmem
    simp [isLineTerminator] at this
  unfold markdownToHtml
  rw [replaceLineStart_one_line "# " _ _ _ hl (head_ne_isPrefixOf s '#' [' '] h1),
    replaceLineStart_one_line "## " _ _ _ hl (head_ne_isPrefixOf s '#' ['#', ' '] h1),
    replaceLineStart_one_line "### " _ _ _ hl (head_ne_isPrefixOf s '#' ['#', '#', ' '] h1),
    replaceAll_clears _ "**".data (fun t ht => delimited_none _ _ _ _ t ht) _
      (clears_of_not_mem '*' ['*'] s hstar),
    replaceAll_clears _ "*".data (fun t ht => delimited_none _ _ _ _ t ht) _
      (clears_of_not_mem '*' [] s hstar),
    replaceAll_clears _ "\x60".data (fun t ht => delimited_none _ _ _ _ t ht) _
      (clears_of_not_mem '\x60' [] s htick),
    replaceAll_clears _ "\x60\x60\x60".data (fun t ht => delimited_none _ _ _ _ t ht) _
      (clears_of_not_mem '\x60' ['\x60', '\x60'] s htick),
    replaceAll_clears _ ['['] (fun t ht => link_none _ _ _ t ht) _
      (clears_of_not_mem '[' [] s hbr),
    replaceLineStart_one_line "> " _ _ _ hl (head_ne_isPrefixOf s '>' [' '] h2),
    replaceLineStart_one_line "- " _ _ _ hl (head_ne_isPrefixOf s '-' [' '] h3),
    replaceAll_clears _ "\n".data (fun t ht => literal_none _ _ t ht) _
      (clears_of_not_mem '\n' [] s hnl)]
  unfold replaceAll
  rw [replaceGo_no_occurrence _ _ (fun t ht => literal_none _ _ t ht) s hli,
    replaceGo_no_occurrence _ _ (fun t ht => literal_none _ _ t ht) s hcl]

/-- C30, refuted as stated: the string `a\r# b` is not empty, holds no newline
(U+000A), asterisk, backtick or `[`, does not start with `#`, `>` or `-`, and
holds neither `<li class="ml-4">` nor `</li><br>`; yet the output differs from
the input, because the heading rule anchors behind the carriage return. The
same holds behind U+2028. -/
theorem formatPreview_rewrites_behind_carriage_return :
    "a\r# b" ≠ "" ∧ freeOf "\n*\x60[" "a\r# b" = true ∧
    startsWithChar "a\r# b" '#' = false ∧ startsWithChar "a\r# b" '>' = false ∧
    startsWithChar "a\r# b" '-' = false ∧
    ¬ includes "a\r# b" "<li class=\"ml-4\">" ∧ ¬ includes "a\r# b" "</li><br>" ∧
    formatPreview (.prim (.str "a\r# b")) =
      "a\r<h1 class=\"text-3xl font-bold text-gray-900 dark:text-white mb-4\">b</h1>" ∧
    formatPreview (.prim (.str "a\r# b")) ≠ "a\r# b" ∧
    freeOf "\n*\x60[" "a\u2028# b" = true ∧
    formatPreview (.prim (.str "a\u2028# b")) ≠ "a\u2028# b" := by
  decide

/-- C30, amended: `formatPreview` performs no HTML escaping. For every
non-empty string that holds no line terminator (U+000A, U+000D, U+2028,
U+2029), asterisk, backtick or `[`, does not start with `#`, `>` or `-`, and
holds neither `<li class="ml-4">` nor `</li><br>`, the output equals the input;
for instance `<script>alert(1)</script>` is returned as it is. -/
theorem formatPreview_no_escaping (s : String) (hne : s ≠ "") (hl : oneLine s = true)
    (hfree : freeOf "*\x60[" s = true)
    (h1 : startsWithChar s '#' = false) (h2 : startsWithChar s '>' = false)
    (h3 : startsWithChar s '-' = false)
    (hli : ¬ includes s "<li class=\"ml-4\">") (hcl : ¬ includes s "</li><br>") :
    formatPreview (.prim (.str s)) = s ∧
    formatPreview (.prim (.str "<script>alert(1)</script>")) = "<script>alert(1)</script>" := by
  refine ⟨?_, by decide⟩
  rw [(formatPreview_str s hne).2]
  have hs : ∀ c, startsWithChar s c = false → s.data.head? ≠ some c := by
    intro c hc hh
    simp [startsWithChar, hh] at hc
  rw [markdownToHtml_unchanged s.data hl
    (freeOf_not_mem _ s hfree '*' (by decide)) (freeOf_not_mem _ s hfree '\x60' (by decide))
    (freeOf_not_mem _ s hfree '[' (by decide)) (hs _ h1) (hs _ h2) (hs _ h3) hli hcl]

/-- Witness of C30 (amended): an element with an event handler. -/
theorem formatPreview_no_escaping_witness :
    formatPreview (.prim (.str "<b onclick=\"x()\">hi</b>")) = "<b onclick=\"x()\">hi</b>" :=
  (formatPreview_no_escaping "<b onclick=\"x()\">hi</b>" (by decide) (by decide) (by decide)
    (by decide) (by decide) (by decide) (by decide) (by decide)).1

/-! ## Theorems: links -/

/-- The chain of substitutions on a link that follows a plain prefix `P`: the
link becomes one anchor element, the prefix and the two texts are copied. -/
theorem markdownToHtml_link (P T U : List Char)
    (lP : P.all (fun c => !isLineTerminator c) = true)
    (lT : T.all (fun c => !isLineTerminator c) = true)
    (lU : U.all (fun c => !isLineTerminator c) = true)
    (nP : ∀ x ∈ ['*', '\x60', '[', '<'], x ∉ P)
    (nT : ∀ x ∈ ['*', '\x60', '[', '<', ']'], x ∉ T)
    (nU : ∀ x ∈ ['*', '\x60', '[', '<', ')'], x ∉ U)
    (hP : ∀ x ∈ ['#', '>', '-'], P.head? ≠ some x) :
    markdownToHtml (P ++ '[' :: (T ++ ']' :: '(' :: (U ++ [')']))) =
      P ++ "<a href=\"".data ++ U ++
        "\" target=\"_blank\" class=\"text-blue-600 dark:text-blue-400 hover:underline\">".data ++
        T ++ "</a>".data := by
  have hl0 : (P ++ '[' :: (T ++ ']' :: '(' :: (U ++ [')']))).all
      (fun c => !isLineTerminator c) = true := by
    simp only [List.all_cons, List.all_append, lP, lT, lU]
    decide
  have hlR : (P ++ "<a href=\"".data ++ U ++
      "\" target=\"_blank\" class=\"text-blue-600 dark:text-blue-400 hover:underline\">".data ++
      T ++ "</a>".data).all (fun c => !isLineTerminator c) = true := by
    simp only [List.all_append, lP, lT, lU]
    decide
  have hhead0 : ∀ x ∈ ['#', '>', '-'],
      (P ++ '[' :: (T ++ ']' :: '(' :: (U ++ [')']))).head? ≠ some x := by
    intro x hx
    cases P with
    | nil =>
      simp only [List.mem_cons, List.mem_singleton, List.not_mem_nil, or_false] at hx
      rcases hx with rfl | rfl | rfl <;> simp
    | cons p ps => simpa using hP x hx
  have hheadR : ∀ x ∈ ['#', '>', '-'], (P ++ "<a href=\"".data ++ U ++
      "\" target=\"_blank\" class=\"text-blue-600 dark:text-blue-400 hover:underline\">".data ++
      T ++ "</a>".data).head? ≠ some x := by
    intro x hx
    cases P with
    | nil =>
      have hd : "<a href=\"".data = '<' :: "a href=\"".data := by decide
      simp only [List.mem_cons, List.mem_singleton, List.not_mem_nil, or_false] at hx
      rcases hx with rfl | rfl | rfl <;> simp [hd]
    | cons p ps => simpa using hP x hx
  have c0 : ∀ (x : Char) (xs : List Char), x ∈ ['*', '\x60'] →
      clears (x :: xs) (P ++ '[' :: (T ++ ']' :: '(' :: (U ++ [')']))) = true := by
    intro x xs hx
    have hxP : x ∉ P := nP x (by
      simp only [List.mem_cons, List.mem_singleton, List.not_mem_nil, or_false] at hx ⊢
      rcases hx with rfl | rfl <;> simp)
    have hxT : x ∉ T := nT x (by
      simp only [List.mem_cons, List.mem_singleton, List.not_mem_nil, or_false] at hx ⊢
      rcases hx with rfl | rfl <;> simp)
    have hxU : x ∉ U := nU x (by
      simp only [List.mem_cons, List.mem_singleton, List.not_mem_nil, or_false] at hx ⊢
      rcases hx with rfl | rfl <;> simp)
    apply clears_of_not_mem
    simp only [List.mem_cons, List.mem_singleton, List.not_mem_nil, or_false] at hx
    rcases hx with rfl | rfl <;> simp [hxP, hxT, hxU]
  have cR : ∀ (x : Char) (xs : List Char), x ∈ ['\x60', '[', '<', '\n'] →
      clears (x :: xs) "<a href=\"".data = true →
      clears (x :: xs)
        "\" target=\"_blank\" class=\"text-blue-600 dark:text-blue-400 hover:underline\">".data =
        true →
      clears (x :: xs) "</a>".data = true →
      clears (x :: xs) (P ++ "<a href=\"".data ++ U ++
        "\" target=\"_blank\" class=\"text-blue-600 dark:text-blue-400 hover:underline\">".data ++
        T ++ "</a>".data) = true := by
    intro x xs hx h1 h2 h3
    have hnl : ∀ A : List Char, A.all (fun c => !isLineTerminator c) = true → '\n' ∉ A := by
      intro A hA hmem
      have := List.all_eq_true.mp hA '\n' hmem
      simp [isLineTerminator] at this
    have hxP : x ∉ P := by
      simp only [List.mem_cons, List.mem_singleton, List.not_mem_nil, or_false] at hx
      rcases hx with rfl | rfl | rfl | rfl
      · exact nP _ (by simp)
      · exact nP _ (by simp)
      · exact nP _ (by simp)
      · exact hnl P lP
    have hxT : x ∉ T := by
      simp only [List.mem_cons, List.mem_singleton, List.not_mem_nil, or_false] at hx
      rcases hx with rfl | rfl | rfl | rfl
      · exact nT _ (by simp)
      · exact nT _ (by simp)
      · exact nT _ (by simp)
      · exact hnl T lT
    have hxU : x ∉ U := by
      simp only [List.mem_cons, List.mem_singleton, List.not_mem_nil, or_false] at hx
      rcases hx with rfl | rfl | rfl | rfl
      · exact nU _ (by simp)
      · exact nU _ (by simp)
      · exact nU _ (by simp)
      · exact hnl U lU
    exact clears_append _ _ _ (clears_append _ _ _ (clears_append _ _ _ (clears_append _ _ _
      (clears_append _ _ _ (clears_of_not_mem x xs P hxP) h1) (clears_of_not_mem x xs U hxU)) h2)
      (clears_of_not_mem x xs T hxT)) h3
  have hlink : replaceAll (link "<a href=\""
      "\" target=\"_blank\" class=\"text-blue-600 dark:text-blue-400 hover:underline\">" "</a>")
      (P ++ '[' :: (T ++ ']' :: '(' :: (U ++ [')']))) =
      P ++ "<a href=\"".data ++ U ++
        "\" target=\"_blank\" class=\"text-blue-600 dark:text-blue-400 hover:underline\">".data ++
        T ++ "</a>".data := by
    have hT := lazyUntil_plain ']' ['('] false T (U ++ [')']) (nT _ (by simp))
      (fun c hc => by simpa using List.all_eq_true.mp lT c hc)
    have hU := lazyUntil_plain ')' [] false U [] (nU _ (by simp))
      (fun c hc => by simpa using List.all_eq_true.mp lU c hc)
    simp only [List.append_assoc, List.cons_append, List.nil_append, List.append_nil] at hT hU
    have hd : "[".data = ['['] := rfl
    have hd2 : "](".data = [']', '('] := rfl
    have hd3 : ")".data = [')'] := rfl
    have hdrop : List.drop (1 + T.length + 2) ('[' :: (T ++ ']' :: '(' :: (U ++ [')']))) =
        U ++ [')'] := by
      have : 1 + T.length + 2 = (T.length + 2) + 1 := by omega
      rw [this, List.drop_succ_cons, ← List.drop_drop]
      simp
    have hm : link "<a href=\""
        "\" target=\"_blank\" class=\"text-blue-600 dark:text-blue-400 hover:underline\">" "</a>"
        ('[' :: (T ++ ']' :: '(' :: (U ++ [')']))) =
        some ("<a href=\"".data ++ U ++
          "\" target=\"_blank\" class=\"text-blue-600 dark:text-blue-400 hover:underline\">".data ++
          T ++ "</a>".data, 1 + T.length + 2 + U.length + 1) := by
      simp only [link, hd, hd2, hd3, List.isPrefixOf, beq_self_eq_true, Bool.and_self,
        ↓reduceIte, List.drop_succ_cons, List.drop_zero, hT, hdrop, hU]
    have hmatch := replaceGo_match _ _ _ _ hm (by omega) (by simp; omega)
    have hend : List.drop (1 + T.length + 2 + U.length + 1)
        ('[' :: (T ++ ']' :: '(' :: (U ++ [')']))) = [] := by
      apply List.drop_eq_nil_of_le
      simp
      omega
    rw [hend] at hmatch
    unfold replaceAll
    rw [replaceGo_clears _ ['['] (fun t ht => link_none _ _ _ t ht) P _
      (clears_of_not_mem '[' [] P (nP _ (by simp))), hmatch]
    simp [replaceGo]
  unfold markdownToHtml
  rw [replaceLineStart_one_line "# " _ _ _ hl0 (head_ne_isPrefixOf _ '#' [' '] (hhead0 _ (by simp))),
    replaceLineStart_one_line "## " _ _ _ hl0
      (head_ne_isPrefixOf _ '#' ['#', ' '] (hhead0 _ (by simp))),
    replaceLineStart_one_line "### " _ _ _ hl0
      (head_ne_isPrefixOf _ '#' ['#', '#', ' '] (hhead0 _ (by simp))),
    replaceAll_clears _ "**".data (fun t ht => delimited_none _ _ _ _ t ht) _
      (c0 '*' ['*'] (by simp)),
    replaceAll_clears _ "*".data (fun t ht => delimited_none _ _ _ _ t ht) _ (c0 '*' [] (by simp)),
    replaceAll_clears _ "\x60".data (fun t ht => delimited_none _ _ _ _ t ht) _
      (c0 '\x60' [] (by simp)),
    replaceAll_clears _ "\x60\x60\x60".data (fun t ht => delimited_none _ _ _ _ t ht) _
      (c0 '\x60' ['\x60', '\x60'] (by simp)),
    hlink,
    replaceLineStart_one_line "> " _ _ _ hlR (head_ne_isPrefixOf _ '>' [' '] (hheadR _ (by simp))),
    replaceLineStart_one_line "- " _ _ _ hlR (head_ne_isPrefixOf _ '-' [' '] (hheadR _ (by simp))),
    replaceAll_clears _ "\n".data (fun t ht => literal_none _ _ t ht) _
      (cR '\n' [] (by simp) (by decide) (by decide) (by decide)),
    replaceAll_clears _ "<li class=\"ml-4\">".data (fun t ht => literal_none _ _ t ht) _
      (cR '<' "li class=\"ml-4\">".data (by simp) (by decide) (by decide) (by decide)),
    replaceAll_clears _ "</li><br>".data (fun t ht => literal_none _ _ t ht) _
      (cR '<' "/li><br>".data (by simp) (by decide) (by decide) (by decide))]

/-- What `linkText` says of the characters of a text. -/
theorem linkText_facts (s : String) (h : linkText s = true) :
    s.data.all (fun c => !isLineTerminator c) = true ∧
    ∀ x ∈ ['*', '\x60', '[', '<', ']', ')'], x ∉ s.data := by
  simp only [linkText, Bool.and_eq_true] at h
  refine ⟨h.1, ?_⟩
  intro x hx
  apply freeOf_not_mem _ s h.2
  simp only [List.mem_cons, List.mem_singleton, List.not_mem_nil, or_false] at hx
  rcases hx with rfl | rfl | rfl | rfl | rfl | rfl <;> decide

/-- The preview of a link that follows a plain prefix `p`. -/
theorem formatPreview_after_plain (p t u : String) (hp : linkText p = true)
    (hh : ∀ x ∈ ['#', '>', '-'], p.data.head? ≠ some x)
    (ht : linkText t = true) (hu : linkText u = true) :
    formatPreview (.prim (.str (p ++ markdownLink t u))) = p ++ anchorElement t u := by
  have hdata : (p ++ markdownLink t u).data =
      p.data ++ '[' :: (t.data ++ ']' :: '(' :: (u.data ++ [')'])) := by
    simp [markdownLink]
  have hne : p ++ markdownLink t u ≠ "" := by
    intro hc
    have := congrArg String.data hc
    rw [hdata] at this
    simp at this
  obtain ⟨lP, nP⟩ := linkText_facts p hp
  obtain ⟨lT, nT⟩ := linkText_facts t ht
  obtain ⟨lU, nU⟩ := linkText_facts u hu
  rw [(formatPreview_str _ hne).2, hdata, markdownToHtml_link p.data t.data u.data lP lT lU
    (fun x hx => nP x (by
      simp only [List.mem_cons, List.mem_singleton, List.not_mem_nil, or_false] at hx ⊢
      tauto))
    (fun x hx => nT x (by
      simp only [List.mem_cons, List.mem_singleton, List.not_mem_nil, or_false] at hx ⊢
      tauto))
    (fun x hx => nU x (by
      simp only [List.mem_cons, List.mem_singleton, List.not_mem_nil, or_false] at hx ⊢
      tauto)) hh]
  apply String.ext
  simp [anchorElement]

/-! ## Theorems: line-start rules on a text of several lines -/

theorem intercalate_cons_cons (sep x y : List Char) (ys : List (List Char)) :
    sep.intercalate (x :: y :: ys) = x ++ sep ++ sep.intercalate (y :: ys) := by
  simp [List.intercalate, List.intersperse]

theorem intercalate_single (sep x : List Char) : sep.intercalate [x] = x := by
  simp [List.intercalate]

theorem isPrefixOf_line (pre : List Char) (hpre : ∀ c ∈ pre, isLineTerminator c = false)
    (A : List Char) (x : Char) (hx : isLineTerminator x = true) (rest : List Char) :
    pre.isPrefixOf (A ++ x :: rest) = pre.isPrefixOf A := by
  induction pre generalizing A with
  | nil => simp
  | cons p ps ih =>
    have hp : isLineTerminator p = false := hpre p (List.mem_cons_self _ _)
    cases A with
    | nil =>
      have hne : ¬ p = x := by
        intro hpx
        rw [hpx, hx] at hp
        exact absurd hp (by decide)
      simp [List.isPrefixOf, hne]
    | cons a as =>
      simp [List.isPrefixOf, ih (fun c hc => hpre c (List.mem_cons_of_mem _ hc)) as]

theorem takeWhile_line (X : List Char) (hX : ∀ c ∈ X, isLineTerminator c = false) (x : Char)
    (hx : isLineTerminator x = true) (rest : List Char) :
    (X ++ x :: rest).takeWhile (fun c => !isLineTerminator c) = X := by
  induction X with
  | nil => simp [List.takeWhile, hx]
  | cons y ys ih =>
    have hy : isLineTerminator y = false := hX y (List.mem_cons_self _ _)
    simp [List.takeWhile, hy, ih (fun c hc => hX c (List.mem_cons_of_mem _ hc))]

theorem takeWhile_whole_line (X : List Char) (hX : ∀ c ∈ X, isLineTerminator c = false) :
    X.takeWhile (fun c => !isLineTerminator c) = X := by
  induction X with
  | nil => rfl
  | cons y ys ih =>
    have hy : isLineTerminator y = false := hX y (List.mem_cons_self _ _)
    simp [List.takeWhile, hy, ih (fun c hc => hX c (List.mem_cons_of_mem _ hc))]

/-- Skipping the rest of a matched line ends at the line terminator, which is
copied, and the next line starts behind it. -/
theorem replaceLineGo_skip_line (pre opening closing : List Char)
    (hpre : ∀ c ∈ pre, isLineTerminator c = false) (hne : pre ≠ [])
    (X : List Char) (x : Char) (hx : isLineTerminator x = true) (rest : List Char) (b : Bool) :
    replaceLineGo pre opening closing b X.length (X ++ x :: rest) =
      x :: replaceLineGo pre opening closing true 0 rest := by
  induction X generalizing b with
  | nil =>
    have hp : pre.isPrefixOf (x :: rest) = false := by
      have h := isPrefixOf_line pre hpre [] x hx rest
      cases pre with
      | nil => exact absurd rfl hne
      | cons p ps => simpa [List.isPrefixOf] using h
    simp [replaceLineGo, hp, hx]
  | cons y ys ih => simp [replaceLineGo, ih]

theorem replaceLineGo_skip_all (pre opening closing : List Char) (X : List Char) (b : Bool) :
    replaceLineGo pre opening closing b X.length X = [] := by
  induction X generalizing b with
  | nil => simp [replaceLineGo]
  | cons y ys ih => simp [replaceLineGo, ih]

/-- Inside a line nothing is replaced up to the line terminator. -/
theorem replaceLineGo_inside_line (pre opening closing : List Char)
    (hpre : ∀ c ∈ pre, isLineTerminator c = false) (hne : pre ≠ [])
    (X : List Char) (hX : ∀ c ∈ X, isLineTerminator c = false)
    (x : Char) (hx : isLineTerminator x = true) (rest : List Char) :
    replaceLineGo pre opening closing false 0 (X ++ x :: rest) =
      X ++ x :: replaceLineGo pre opening closing true 0 rest := by
  induction X with
  | nil =>
    have h := replaceLineGo_skip_line pre opening closing hpre hne [] x hx rest false
    simpa using h
  | cons y ys ih =>
    have hy : isLineTerminator y = false := hX y (List.mem_cons_self _ _)
    simp [replaceLineGo, hy, ih (fun c hc => hX c (List.mem_cons_of_mem _ hc))]

theorem replaceLineGo_head (pre opening closing : List Char) (b : Bool) (c : Char)
    (cs : List Char) :
    replaceLineGo pre opening closing b 0 (c :: cs) =
      if b && pre.isPrefixOf (c :: cs) then
        opening ++ ((c :: cs).drop pre.length).takeWhile (fun x => !isLineTerminator x) ++
          closing ++
          replaceLineGo pre opening closing (isLineTerminator c)
            (pre.length +
              (((c :: cs).drop pre.length).takeWhile (fun x => !isLineTerminator x)).length - 1)
            cs
      else c :: replaceLineGo pre opening closing (isLineTerminator c) 0 cs := by
  simp [replaceLineGo]

/-- A line-start rule on a line that a line terminator ends. -/
theorem replaceLineGo_line (pre opening closing : List Char)
    (hpre : ∀ c ∈ pre, isLineTerminator c = false) (hne : pre ≠ [])
    (A : List Char) (hA : ∀ c ∈ A, isLineTerminator c = false)
    (x : Char) (hx : isLineTerminator x = true) (rest : List Char) :
    replaceLineGo pre opening closing true 0 (A ++ x :: rest) =
      lineImage pre opening closing A ++ x :: replaceLineGo pre opening closing true 0 rest := by
  have hpl : 1 ≤ pre.length := by
    cases pre with
    | nil => exact absurd rfl hne
    | cons p ps => simp
  cases A with
  | nil =>
    have h := replaceLineGo_skip_line pre opening closing hpre hne [] x hx rest true
    have hp : pre.isPrefixOf ([] : List Char) = false := by
      cases pre with
      | nil => exact absurd rfl hne
      | cons p ps => rfl
    simpa [lineImage, hp] using h
  | cons a as =>
    have ha : isLineTerminator a = false := hA a (List.mem_cons_self _ _)
    have has : ∀ c ∈ as, isLineTerminator c = false :=
      fun c hc => hA c (List.mem_cons_of_mem _ hc)
    have hpe := isPrefixOf_line pre hpre (a :: as) x hx rest
    have hcons : a :: as ++ x :: rest = a :: (as ++ x :: rest) := rfl
    rw [hcons] at hpe ⊢
    rw [replaceLineGo_head]
    by_cases hp : pre.isPrefixOf (a :: as) = true
    · have hle : pre.length ≤ (a :: as).length := (List.isPrefixOf_iff_prefix.mp hp).length_le
      have hbody : (List.drop pre.length (a :: (as ++ x :: rest))).takeWhile
          (fun c => !isLineTerminator c) = List.drop pre.length (a :: as) := by
        rw [← hcons, List.drop_append_of_le_length hle]
        exact takeWhile_line _ (fun c hc => hA c (List.mem_of_mem_drop hc)) x hx rest
      have hlen : pre.length + (List.drop pre.length (a :: as)).length - 1 = as.length := by
        simp only [List.length_drop, List.length_cons] at hle ⊢
        omega
      rw [hpe, hp, hbody, hlen, replaceLineGo_skip_line pre opening closing hpre hne as x hx rest]
      simp [lineImage, hp]
    · have hp0 : pre.isPrefixOf (a :: as) = false := Bool.eq_false_iff.mpr hp
      rw [hpe, hp0, ha, replaceLineGo_inside_line pre opening closing hpre hne as has x hx rest]
      simp [lineImage, hp0]

/-- A line-start rule on the last line. -/
theorem replaceLineGo_last_line (pre opening closing : List Char) (hne : pre ≠ [])
    (A : List Char) (hA : ∀ c ∈ A, isLineTerminator c = false) :
    replaceLineGo pre opening closing true 0 A = lineImage pre opening closing A := by
  have hpl : 1 ≤ pre.length := by
    cases pre with
    | nil => exact absurd rfl hne
    | cons p ps => simp
  cases A with
  | nil =>
    cases pre with
    | nil => exact absurd rfl hne
    | cons p ps => simp [replaceLineGo, lineImage, List.isPrefixOf]
  | cons a as =>
    have ha : isLineTerminator a = false := hA a (List.mem_cons_self _ _)
    have has : ∀ c ∈ as, isLineTerminator c = false :=
      fun c hc => hA c (List.mem_cons_of_mem _ hc)
    rw [replaceLineGo_head]
    by_cases hp : pre.isPrefixOf (a :: as) = true
    · have hle : pre.length ≤ (a :: as).length := (List.isPrefixOf_iff_prefix.mp hp).length_le
      have hbody : (List.drop pre.length (a :: as)).takeWhile
          (fun c => !isLineTerminator c) = List.drop pre.length (a :: as) :=
        takeWhile_whole_line _ (fun c hc => hA c (List.mem_of_mem_drop hc))
      have hlen : pre.length + (List.drop pre.length (a :: as)).length - 1 = as.length := by
        simp only [List.length_drop, List.length_cons] at hle ⊢
        omega
      rw [hp, hbody, hlen, replaceLineGo_skip_all pre opening closing as]
      simp [lineImage, hp]
    · have hp0 : pre.isPrefixOf (a :: as) = false := Bool.eq_false_iff.mpr hp
      rw [hp0, ha, replaceLineGo_inside pre opening closing as has]
      simp [lineImage, hp0]

/-- A line-start rule works line by line on a text whose lines `"\n"` joins. -/
theorem replaceLineStart_lines (pre opening closing : String)
    (hpre : ∀ c ∈ pre.data, isLineTerminator c = false) (hne : pre.data ≠ [])
    (ls : List (List Char)) (hls : ∀ l ∈ ls, ∀ c ∈ l, isLineTerminator c = false) :
    replaceLineStart pre opening closing (['\n'].intercalate ls) =
      ['\n'].intercalate (ls.map (lineImage pre.data opening.data closing.data)) := by
  unfold replaceLineStart
  induction ls with
  | nil => simp [List.intercalate, replaceLineGo]
  | cons x xs ih =>
    cases xs with
    | nil =>
      simp only [List.map, intercalate_single]
      exact replaceLineGo_last_line _ _ _ hne x (hls x (List.mem_cons_self _ _))
    | cons y ys =>
      have ih' := ih (fun l hl => hls l (List.mem_cons_of_mem _ hl))
      simp only [List.map, intercalate_cons_cons] at ih' ⊢
      have hsplit : x ++ ['\n'] ++ (y ++ ['\n'] ++ ['\n'].intercalate ys) =
          x ++ '\n' :: (y ++ ['\n'] ++ ['\n'].intercalate ys) := by simp
      cases ys with
      | nil =>
        simp only [List.map, intercalate_single, intercalate_cons_cons] at ih' ⊢
        have h2 : x ++ ['\n'] ++ y = x ++ '\n' :: y := by simp
        rw [h2, replaceLineGo_line _ _ _ hpre hne x (hls x (List.mem_cons_self _ _)) '\n'
          (by decide), ih']
        simp
      | cons z zs =>
        have h2 : x ++ ['\n'] ++ ['\n'].intercalate (y :: z :: zs) =
            x ++ '\n' :: ['\n'].intercalate (y :: z :: zs) := by simp
        rw [h2, replaceLineGo_line _ _ _ hpre hne x (hls x (List.mem_cons_self _ _)) '\n'
          (by decide), ih']
        simp

theorem not_mem_intercalate (x : Char) (sep : List Char) (ls : List (List Char))
    (hsep : x ∉ sep) (h : ∀ l ∈ ls, x ∉ l) : x ∉ sep.intercalate ls := by
  induction ls with
  | nil => simp [List.intercalate]
  | cons a as ih =>
    cases as with
    | nil =>
      rw [intercalate_single]
      exact h a (List.mem_cons_self _ _)
    | cons b bs =>
      rw [intercalate_cons_cons]
      have h1 := h a (List.mem_cons_self _ _)
      have h2 := ih (fun l hl => h l (List.mem_cons_of_mem _ hl))
      simp [h1, hsep, h2]

theorem clears_intercalate (lit sep : List Char) (ls : List (List Char))
    (hsep : clears lit sep = true) (h : ∀ l ∈ ls, clears lit l = true) :
    clears lit (sep.intercalate ls) = true := by
  induction ls with
  | nil => simp [List.intercalate, clears]
  | cons a as ih =>
    cases as with
    | nil =>
      rw [intercalate_single]
      exact h a (List.mem_cons_self _ _)
    | cons b bs =>
      rw [intercalate_cons_cons]
      exact clears_append _ _ _ (clears_append _ _ _ (h a (List.mem_cons_self _ _)) hsep)
        (ih (fun l hl => h l (List.mem_cons_of_mem _ hl)))

/-- The newline rule on a text of several lines: every `"\n"` between two lines
becomes `<br>`. -/
theorem newline_pass_lines (ls : List (List Char)) (h : ∀ l ∈ ls, '\n' ∉ l) :
    replaceAll (literal "\n" "<br>") (['\n'].intercalate ls) = "<br>".data.intercalate ls := by
  unfold replaceAll
  have hnone : ∀ t, ['\n'].isPrefixOf t = false → literal "\n" "<br>" t = none :=
    fun t ht => literal_none _ _ t ht
  induction ls with
  | nil => simp [List.intercalate, replaceGo]
  | cons a as ih =>
    have ha : clears ['\n'] a = true := clears_of_not_mem '\n' [] a (h a (List.mem_cons_self _ _))
    cases as with
    | nil =>
      rw [intercalate_single, intercalate_single]
      have := replaceGo_clears _ ['\n'] hnone a [] ha
      simpa [replaceGo] using this
    | cons b bs =>
      have ih' := ih (fun l hl => h l (List.mem_cons_of_mem _ hl))
      rw [intercalate_cons_cons, intercalate_cons_cons]
      have h2 : a ++ ['\n'] ++ ['\n'].intercalate (b :: bs) =
          a ++ '\n' :: ['\n'].intercalate (b :: bs) := by simp
      have hm : literal "\n" "<br>" ('\n' :: ['\n'].intercalate (b :: bs)) =
          some ("<br>".data, 1) := by
        have hd : "\n".data = ['\n'] := rfl
        simp [literal, hd, List.isPrefixOf]
        rfl
      rw [h2, replaceGo_clears _ ['\n'] hnone a _ ha,
        replaceGo_match _ _ _ _ hm (by omega) (by simp)]
      simp only [List.drop_succ_cons, List.drop_zero]
      rw [ih']
      simp

/-- A line-start rule copies a text none of whose lines begins with its prefix. -/
theorem replaceLineStart_lines_other (pre opening closing : String)
    (hpre : ∀ c ∈ pre.data, isLineTerminator c = false) (hne : pre.data ≠ [])
    (ls : List (List Char)) (hls : ∀ l ∈ ls, ∀ c ∈ l, isLineTerminator c = false)
    (hp : ∀ l ∈ ls, pre.data.isPrefixOf l = false) :
    replaceLineStart pre opening closing (['\n'].intercalate ls) = ['\n'].intercalate ls := by
  rw [replaceLineStart_lines pre opening closing hpre hne ls hls]
  congr 1
  have : ∀ l ∈ ls, lineImage pre.data opening.data closing.data l = id l := by
    intro l hl
    simp [lineImage, hp l hl]
  rw [List.map_congr_left this, List.map_id]

/-- A line-start rule wraps the one line that begins with its prefix. -/
theorem replaceLineStart_lines_hit (pre opening closing : String)
    (hpre : ∀ c ∈ pre.data, isLineTerminator c = false) (hne : pre.data ≠ [])
    (ps qs : List (List Char)) (H : List Char)
    (hps : ∀ l ∈ ps, (∀ c ∈ l, isLineTerminator c = false) ∧ pre.data.isPrefixOf l = false)
    (hqs : ∀ l ∈ qs, (∀ c ∈ l, isLineTerminator c = false) ∧ pre.data.isPrefixOf l = false)
    (hH : ∀ c ∈ H, isLineTerminator c = false) :
    replaceLineStart pre opening closing (['\n'].intercalate (ps ++ (pre.data ++ H) :: qs)) =
      ['\n'].intercalate (ps ++ (opening.data ++ H ++ closing.data) :: qs) := by
  rw [replaceLineStart_lines pre opening closing hpre hne]
  · congr 1
    have h1 : ∀ l ∈ ps, lineImage pre.data opening.data closing.data l = id l := by
      intro l hl
      simp [lineImage, (hps l hl).2]
    have h2 : ∀ l ∈ qs, lineImage pre.data opening.data closing.data l = id l := by
      intro l hl
      simp [lineImage, (hqs l hl).2]
    have h3 : lineImage pre.data opening.data closing.data (pre.data ++ H) =
        opening.data ++ H ++ closing.data := by
      have hpp : pre.data.isPrefixOf (pre.data ++ H) = true := by simp
      have hlen : pre.length = pre.data.length := rfl
      simp [lineImage, hpp]
    rw [List.map_append, List.map_cons, List.map_congr_left h1, List.map_congr_left h2, h3,
      List.map_id, List.map_id]
  · intro l hl
    rcases List.mem_append.mp hl with h | h
    · exact (hps l h).1
    · rcases List.mem_cons.mp h with h | h
      · subst h
        intro c hc
        rcases List.mem_append.mp hc with hc | hc
        · exact hpre c hc
        · exact hH c hc
      · exact (hqs l h).1

/-- The chain of `formatPreview` is the three heading rules and then the ten
other rules. -/
theorem markdownToHtml_headings_first (s : List Char) :
    markdownToHtml s = afterHeadings
      (replaceLineStart "### "
        "<h3 class=\"text-xl font-semibold text-gray-700 dark:text-gray-300 mb-2 mt-4\">" "</h3>"
        (replaceLineStart "## "
          "<h2 class=\"text-2xl font-bold text-gray-800 dark:text-gray-200 mb-3 mt-6\">" "</h2>"
          (replaceLineStart "# "
            "<h1 class=\"text-3xl font-bold text-gray-900 dark:text-white mb-4\">" "</h1>" s))) :=
  rfl

theorem settled_facts (l : List Char) (h : settled l = true) :
    (∀ c ∈ l, isLineTerminator c = false) ∧ (∀ x ∈ ['*', '\x60', '['], x ∉ l) ∧
    l.head? ≠ some '>' ∧ l.head? ≠ some '-' ∧
    clears "<li class=\"ml-4\">".data l = true ∧ clears "</li><br>".data l = true := by
  simp only [settled, Bool.and_eq_true, bne_iff_ne, ne_eq] at h
  obtain ⟨⟨⟨⟨⟨h1, h2⟩, h3⟩, h4⟩, h5⟩, h6⟩ := h
  refine ⟨fun c hc => by simpa using List.all_eq_true.mp h1 c hc, ?_, h3, h4, h5, h6⟩
  intro x hx hmem
  have := List.all_eq_true.mp h2 x hmem
  simp only [List.mem_cons, List.mem_singleton, List.not_mem_nil, or_false] at hx
  rcases hx with rfl | rfl | rfl <;> exact absurd this (by decide)

/-- The rules behind the heading rules, on a text of settled lines: the lines
are copied and every `"\n"` between two of them becomes `<br>`. -/
theorem afterHeadings_settled (ls : List (List Char)) (h : ∀ l ∈ ls, settled l = true) :
    afterHeadings (['\n'].intercalate ls) = "<br>".data.intercalate ls := by
  have hlt : ∀ l ∈ ls, ∀ c ∈ l, isLineTerminator c = false :=
    fun l hl => (settled_facts l (h l hl)).1
  have hfree : ∀ x ∈ ['*', '\x60', '['], x ∉ ['\n'].intercalate ls := by
    intro x hx
    apply not_mem_intercalate
    · simp only [List.mem_cons, List.mem_singleton, List.not_mem_nil, or_false] at hx
      rcases hx with rfl | rfl | rfl <;> decide
    · exact fun l hl => (settled_facts l (h l hl)).2.1 x hx
  have hnl : ∀ l ∈ ls, '\n' ∉ l := by
    intro l hl hmem
    have := hlt l hl '\n' hmem
    exact absurd this (by decide)
  unfold afterHeadings
  rw [replaceAll_clears _ "**".data (fun t ht => delimited_none _ _ _ _ t ht) _
      (clears_of_not_mem '*' ['*'] _ (hfree _ (by simp))),
    replaceAll_clears _ "*".data (fun t ht => delimited_none _ _ _ _ t ht) _
      (clears_of_not_mem '*' [] _ (hfree _ (by simp))),
    replaceAll_clears _ "\x60".data (fun t ht => delimited_none _ _ _ _ t ht) _
      (clears_of_not_mem '\x60' [] _ (hfree _ (by simp))),
    replaceAll_clears _ "\x60\x60\x60".data (fun t ht => delimited_none _ _ _ _ t ht) _
      (clears_of_not_mem '\x60' ['\x60', '\x60'] _ (hfree _ (by simp))),
    replaceAll_clears _ ['['] (fun t ht => link_none _ _ _ t ht) _
      (clears_of_not_mem '[' [] _ (hfree _ (by simp))),
    replaceLineStart_lines_other "> " _ _ (by decide) (by decide) ls hlt
      (fun l hl => head_ne_isPrefixOf l '>' [' '] (settled_facts l (h l hl)).2.2.1),
    replaceLineStart_lines_other "- " _ _ (by decide) (by decide) ls hlt
      (fun l hl => head_ne_isPrefixOf l '-' [' '] (settled_facts l (h l hl)).2.2.2.1),
    newline_pass_lines ls hnl,
    replaceAll_clears _ "<li class=\"ml-4\">".data (fun t ht => literal_none _ _ t ht) _
      (clears_intercalate _ _ ls (by decide) (fun l hl => (settled_facts l (h l hl)).2.2.2.2.1)),
    replaceAll_clears _ "</li><br>".data (fun t ht => literal_none _ _ t ht) _
      (clears_intercalate _ _ ls (by decide) (fun l hl => (settled_facts l (h l hl)).2.2.2.2.2))]

/-! ## Theorems: headings -/

theorem plain_head (l : List Char) (hl : l.all (fun c => !isSpecialChar c) = true) (x : Char)
    (hx : isSpecialChar x = true) : l.head? ≠ some x := by
  intro hh
  cases l with
  | nil => simp at hh
  | cons c cs =>
    simp only [List.head?_cons, Option.some.injEq] at hh
    subst hh
    exact plain_not_mem _ hl c hx (List.mem_cons_self _ _)

theorem plain_settled (l : List Char) (hl : l.all (fun c => !isSpecialChar c) = true) :
    settled l = true := by
  have h1 : l.all (fun c => !isLineTerminator c) = true :=
    all_of_forall _ _ (fun c hc => by simp [plain_no_terminator l hl c hc])
  have h2 : l.all (fun c => !"*\x60[".data.contains c) = true := by
    apply all_of_forall
    intro c hc
    have := List.all_eq_true.mp hl c hc
    simp only [isSpecialChar, Bool.not_eq_true', Bool.or_eq_false_iff] at this
    have h3 := this.1
    simp only [Bool.not_eq_true']
    cases hcon : "*\x60[".data.contains c with
    | false => rfl
    | true =>
      have hmem2 : c ∈ ('*' :: '\x60' :: ['[']) := List.elem_iff.mp hcon
      simp only [List.mem_cons, List.mem_singleton, List.not_mem_nil, or_false] at hmem2
      rcases hmem2 with rfl | rfl | rfl <;> exact absurd h3 (by decide)
  have h3 := plain_head l hl '>' (by decide)
  have h4 := plain_head l hl '-' (by decide)
  have h5 : clears "<li class=\"ml-4\">".data l = true :=
    clears_of_not_mem '<' "li class=\"ml-4\">".data l (plain_not_mem l hl '<' (by decide))
  have h6 : clears "</li><br>".data l = true :=
    clears_of_not_mem '<' "/li><br>".data l (plain_not_mem l hl '<' (by decide))
  simp only [settled, Bool.and_eq_true, bne_iff_ne, ne_eq]
  exact ⟨⟨⟨⟨⟨h1, h2⟩, h3⟩, h4⟩, h5⟩, h6⟩

/-- A plain text between two settled tags is settled. -/
theorem wrapped_settled (o c H : List Char) (hH : H.all (fun c => !isSpecialChar c) = true)
    (ho : settled o = true) (hne : o ≠ []) (hc : settled c = true) :
    settled (o ++ H ++ c) = true := by
  have hs := plain_settled H hH
  simp only [settled, Bool.and_eq_true, bne_iff_ne, ne_eq] at ho hc hs ⊢
  obtain ⟨⟨⟨⟨⟨o1, o2⟩, o3⟩, o4⟩, o5⟩, o6⟩ := ho
  obtain ⟨⟨⟨⟨⟨c1, c2⟩, _⟩, _⟩, c5⟩, c6⟩ := hc
  obtain ⟨⟨⟨⟨⟨s1, s2⟩, _⟩, _⟩, s5⟩, s6⟩ := hs
  have hhead : (o ++ H ++ c).head? = o.head? := by
    cases o with
    | nil => exact absurd rfl hne
    | cons x xs => rfl
  refine ⟨⟨⟨⟨⟨?_, ?_⟩, ?_⟩, ?_⟩, ?_⟩, ?_⟩
  · simp only [List.all_append, Bool.and_eq_true]
    exact ⟨⟨o1, s1⟩, c1⟩
  · simp only [List.all_append, Bool.and_eq_true]
    exact ⟨⟨o2, s2⟩, c2⟩
  · rw [hhead]
    exact o3
  · rw [hhead]
    exact o4
  · exact clears_append _ _ _ (clears_append _ _ _ o5 s5) c5
  · exact clears_append _ _ _ (clears_append _ _ _ o6 s6) c6

theorem forall_mem_lines {P : List Char → Prop} (ps qs : List (List Char)) (x : List Char)
    (hps : ∀ l ∈ ps, P l) (hx : P x) (hqs : ∀ l ∈ qs, P l) : ∀ l ∈ ps ++ x :: qs, P l := by
  intro l hl
  rcases List.mem_append.mp hl with h | h
  · exact hps l h
  · rcases List.mem_cons.mp h with h | h
    · exact h ▸ hx
    · exact hqs l h

/-- What a heading rule needs of a plain line: it holds no line terminator and
does not begin with the rule's prefix, which begins with `#`. -/
theorem plain_line_other (xs : List Char) (ls : List (List Char))
    (hls : ∀ l ∈ ls, l.all (fun c => !isSpecialChar c) = true) :
    ∀ l ∈ ls, (∀ c ∈ l, isLineTerminator c = false) ∧ ('#' :: xs).isPrefixOf l = false :=
  fun l hl => ⟨plain_no_terminator l (hls l hl),
    head_ne_isPrefixOf l '#' xs (plain_head l (hls l hl) '#' (by decide))⟩

/-- What a heading rule needs of a line that is already wrapped in a tag. -/
theorem tag_line_other (xs o c H : List Char) (hH : H.all (fun c => !isSpecialChar c) = true)
    (ho : settled o = true) (hc : settled c = true) (hhead : o.head? = some '<') :
    (∀ d ∈ o ++ H ++ c, isLineTerminator d = false) ∧
      ('#' :: xs).isPrefixOf (o ++ H ++ c) = false := by
  have hne : o ≠ [] := by
    intro h0
    rw [h0] at hhead
    simp at hhead
  refine ⟨(settled_facts _ (wrapped_settled o c H hH ho hne hc)).1, ?_⟩
  apply head_ne_isPrefixOf
  cases o with
  | nil => exact absurd rfl hne
  | cons x xs =>
    simp only [List.head?_cons, Option.some.injEq] at hhead
    subst hhead
    simp

/-- What a heading rule needs of a heading line of another level. -/
theorem heading_line_other (other pre : String) (H : List Char)
    (hm : mismatch other.data pre.data = true)
    (hpre : ∀ c ∈ pre.data, isLineTerminator c = false)
    (hH : H.all (fun c => !isSpecialChar c) = true) :
    (∀ c ∈ pre.data ++ H, isLineTerminator c = false) ∧
      other.data.isPrefixOf (pre.data ++ H) = false := by
  refine ⟨?_, mismatch_isPrefixOf _ _ H hm⟩
  intro c hc
  rcases List.mem_append.mp hc with h | h
  · exact hpre c h
  · exact plain_no_terminator H hH c h

/-- The chain of substitutions on plain lines around one `# ` line. -/
theorem markdownToHtml_h1_lines (ps qs : List (List Char)) (H : List Char)
    (hps : ∀ l ∈ ps, l.all (fun c => !isSpecialChar c) = true)
    (hqs : ∀ l ∈ qs, l.all (fun c => !isSpecialChar c) = true)
    (hH : H.all (fun c => !isSpecialChar c) = true) :
    markdownToHtml (['\n'].intercalate (ps ++ ("# ".data ++ H) :: qs)) =
      "<br>".data.intercalate (ps ++
        ("<h1 class=\"text-3xl font-bold text-gray-900 dark:text-white mb-4\">".data ++ H ++
          "</h1>".data) :: qs) := by
  have htag2 := forall_mem_lines ps qs _ (plain_line_other ['#', ' '] ps hps)
    (tag_line_other ['#', ' ']
      "<h1 class=\"text-3xl font-bold text-gray-900 dark:text-white mb-4\">".data "</h1>".data H hH
      (by decide) (by decide) (by decide)) (plain_line_other ['#', ' '] qs hqs)
  have htag3 := forall_mem_lines ps qs _ (plain_line_other ['#', '#', ' '] ps hps)
    (tag_line_other ['#', '#', ' ']
      "<h1 class=\"text-3xl font-bold text-gray-900 dark:text-white mb-4\">".data "</h1>".data H hH
      (by decide) (by decide) (by decide)) (plain_line_other ['#', '#', ' '] qs hqs)
  have hset := forall_mem_lines ps qs _ (fun l hl => plain_settled l (hps l hl))
    (wrapped_settled
      "<h1 class=\"text-3xl font-bold text-gray-900 dark:text-white mb-4\">".data "</h1>".data H hH
      (by decide) (by decide) (by decide)) (fun l hl => plain_settled l (hqs l hl))
  rw [markdownToHtml_headings_first,
    replaceLineStart_lines_hit "# " _ _ (by decide) (by decide) ps qs H
      (plain_line_other [' '] ps hps) (plain_line_other [' '] qs hqs) (plain_no_terminator H hH),
    replaceLineStart_lines_other "## " _ _ (by decide) (by decide) _
      (fun l hl => (htag2 l hl).1) (fun l hl => (htag2 l hl).2),
    replaceLineStart_lines_other "### " _ _ (by decide) (by decide) _
      (fun l hl => (htag3 l hl).1) (fun l hl => (htag3 l hl).2),
    afterHeadings_settled _ hset]

/-- The chain of substitutions on plain lines around one `## ` line. -/
theorem markdownToHtml_h2_lines (ps qs : List (List Char)) (H : List Char)
    (hps : ∀ l ∈ ps, l.all (fun c => !isSpecialChar c) = true)
    (hqs : ∀ l ∈ qs, l.all (fun c => !isSpecialChar c) = true)
    (hH : H.all (fun c => !isSpecialChar c) = true) :
    markdownToHtml (['\n'].intercalate (ps ++ ("## ".data ++ H) :: qs)) =
      "<br>".data.intercalate (ps ++
        ("<h2 class=\"text-2xl font-bold text-gray-800 dark:text-gray-200 mb-3 mt-6\">".data ++ H ++
          "</h2>".data) :: qs) := by
  have hraw1 := forall_mem_lines ps qs _ (plain_line_other [' '] ps hps)
    (heading_line_other "# " "## " H (by decide) (by decide) hH) (plain_line_other [' '] qs hqs)
  have htag3 := forall_mem_lines ps qs _ (plain_line_other ['#', '#', ' '] ps hps)
    (tag_line_other ['#', '#', ' ']
      "<h2 class=\"text-2xl font-bold text-gray-800 dark:text-gray-200 mb-3 mt-6\">".data
      "</h2>".data H hH (by decide) (by decide) (by decide))
    (plain_line_other ['#', '#', ' '] qs hqs)
  have hset := forall_mem_lines ps qs _ (fun l hl => plain_settled l (hps l hl))
    (wrapped_settled
      "<h2 class=\"text-2xl font-bold text-gray-800 dark:text-gray-200 mb-3 mt-6\">".data
      "</h2>".data H hH (by decide) (by decide) (by decide))
    (fun l hl => plain_settled l (hqs l hl))
  rw [markdownToHtml_headings_first,
    replaceLineStart_lines_other "# " _ _ (by decide) (by decide) _
      (fun l hl => (hraw1 l hl).1) (fun l hl => (hraw1 l hl).2),
    replaceLineStart_lines_hit "## " _ _ (by decide) (by decide) ps qs H
      (plain_line_other ['#', ' '] ps hps) (plain_line_other ['#', ' '] qs hqs)
      (plain_no_terminator H hH),
    replaceLineStart_lines_other "### " _ _ (by decide) (by decide) _
      (fun l hl => (htag3 l hl).1) (fun l hl => (htag3 l hl).2),
    afterHeadings_settled _ hset]

/-- The chain of substitutions on plain lines around one `### ` line. -/
theorem markdownToHtml_h3_lines (ps qs : List (List Char)) (H : List Char)
    (hps : ∀ l ∈ ps, l.all (fun c => !isSpecialChar c) = true)
    (hqs : ∀ l ∈ qs, l.all (fun c => !isSpecialChar c) = true)
    (hH : H.all (fun c => !isSpecialChar c) = true) :
    markdownToHtml (['\n'].intercalate (ps ++ ("### ".data ++ H) :: qs)) =
      "<br>".data.intercalate (ps ++
        ("<h3 class=\"text-xl font-semibold text-gray-700 dark:text-gray-300 mb-2 mt-4\">".data ++
          H ++ "</h3>".data) :: qs) := by
  have hraw1 := forall_mem_lines ps qs _ (plain_line_other [' '] ps hps)
    (heading_line_other "# " "### " H (by decide) (by decide) hH) (plain_line_other [' '] qs hqs)
  have hraw2 := forall_mem_lines ps qs _ (plain_line_other ['#', ' '] ps hps)
    (heading_line_other "## " "### " H (by decide) (by decide) hH)
    (plain_line_other ['#', ' '] qs hqs)
  have hset := forall_mem_lines ps qs _ (fun l hl => plain_settled l (hps l hl))
    (wrapped_settled
      "<h3 class=\"text-xl font-semibold text-gray-700 dark:text-gray-300 mb-2 mt-4\">".data
      "</h3>".data H hH (by decide) (by decide) (by decide))
    (fun l hl => plain_settled l (hqs l hl))
  rw [markdownToHtml_headings_first,
    replaceLineStart_lines_other "# " _ _ (by decide) (by decide) _
      (fun l hl => (hraw1 l hl).1) (fun l hl => (hraw1 l hl).2),
    replaceLineStart_lines_other "## " _ _ (by decide) (by decide) _
      (fun l hl => (hraw2 l hl).1) (fun l hl => (hraw2 l hl).2),
    replaceLineStart_lines_hit "### " _ _ (by decide) (by decide) ps qs H
      (plain_line_other ['#', '#', ' '] ps hps) (plain_line_other ['#', '#', ' '] qs hqs)
      (plain_no_terminator H hH),
    afterHeadings_settled _ hset]

theorem mismatch_self (lit rest : List Char) : mismatch lit (lit ++ rest) = false := by
  induction lit with
  | nil => cases rest <;> rfl
  | cons x xs ih => simp [mismatch, ih]

theorem clears_suffix (lit a s : List Char) (h : clears lit (a ++ s) = true) :
    clears lit s = true := by
  induction a with
  | nil => simpa using h
  | cons c cs ih =>
    simp only [List.cons_append, clears, Bool.and_eq_true] at h
    exact ih h.2

/-- A text that clears `lit` does not hold it. -/
theorem clears_not_infix (lit s : List Char) (hne : lit ≠ []) (h : clears lit s = true) :
    ¬ lit <:+: s := by
  rintro ⟨a, b, hab⟩
  have h1 : clears lit (a ++ (lit ++ b)) = true := by
    rw [← hab] at h
    simpa using h
  have h2 := clears_suffix lit a (lit ++ b) h1
  cases lit with
  | nil => exact hne rfl
  | cons x xs =>
    simp only [List.cons_append, clears, Bool.and_eq_true] at h2
    have h3 := mismatch_self (x :: xs) b
    simp only [List.cons_append] at h3
    have h4 : mismatch (x :: xs) (x :: (xs ++ b)) = true := h2.1
    rw [h3] at h4
    exact absurd h4 (by decide)

/-- The preview of a text of several lines, from the chain of substitutions on
its characters. -/
theorem formatPreview_lines (ps qs : List String) (x y : String) (hx : x ≠ "")
    (hm : markdownToHtml
        (['\n'].intercalate (ps.map String.data ++ x.data :: qs.map String.data)) =
      "<br>".data.intercalate (ps.map String.data ++ y.data :: qs.map String.data)) :
    formatPreview (.prim (.str (join (ps ++ x :: qs) "\n"))) = join (ps ++ y :: qs) "<br>" := by
  have hne : join (ps ++ x :: qs) "\n" ≠ "" := by
    intro hc
    have hin : includes (join (ps ++ x :: qs) "\n") x := includes_join_mem _ _ _ (by simp)
    rw [hc] at hin
    have hxd : x.data = [] := List.eq_nil_of_infix_nil hin
    exact hx (String.ext hxd)
  have hdata : (join (ps ++ x :: qs) "\n").data =
      ['\n'].intercalate (ps.map String.data ++ x.data :: qs.map String.data) := by
    simp [join]
  rw [(formatPreview_str _ hne).2, hdata, hm]
  apply String.ext
  simp [join]

theorem plain_lines (ps : List String) (hps : ∀ p ∈ ps, plainText p = true) :
    ∀ l ∈ ps.map String.data, l.all (fun c => !isSpecialChar c) = true := by
  intro l hl
  obtain ⟨p, hp, rfl⟩ := List.mem_map.mp hl
  exact hps p hp

theorem append_ne_empty (a b : String) (ha : a ≠ "") : a ++ b ≠ "" := by
  intro hc
  have := congrArg String.data hc
  simp only [String.data_append] at this
  have h0 : a.data = [] := (List.append_eq_nil.mp this).1
  exact ha (String.ext h0)

/-- No `<h1` starts in a text of plain lines around one line that is a plain
text between two tags that hold no `<h1`. -/
theorem lines_without_h1 (ps qs : List (List Char)) (o c H : List Char)
    (hps : ∀ l ∈ ps, l.all (fun c => !isSpecialChar c) = true)
    (hqs : ∀ l ∈ qs, l.all (fun c => !isSpecialChar c) = true)
    (hH : H.all (fun c => !isSpecialChar c) = true)
    (ho : clears "<h1".data o = true) (hc : clears "<h1".data c = true) :
    ¬ "<h1".data <:+: "<br>".data.intercalate (ps ++ (o ++ H ++ c) :: qs) := by
  apply clears_not_infix _ _ (by decide)
  apply clears_intercalate _ _ _ (by decide)
  have hplain : ∀ l : List Char, l.all (fun c => !isSpecialChar c) = true →
      clears "<h1".data l = true :=
    fun l hl => clears_of_not_mem '<' ['h', '1'] l (plain_not_mem l hl '<' (by decide))
  exact forall_mem_lines ps qs _ (fun l hl => hplain l (hps l hl))
    (clears_append _ _ _ (clears_append _ _ _ ho (hplain H hH)) hc)
    (fun l hl => hplain l (hqs l hl))

/-- C22: for every plain one-line text `h`, among plain lines `ps` before it
and `qs` behind it (none, for a text of one line), a line `# h` is rendered as
an h1 element with content `h`, a line `## h` as an h2 element and a line
`### h` as an h3 element, the other lines are copied and the lines are joined
by `<br>`; and the preview of a text with a `## h` or `### h` line holds no
`<h1`. -/
theorem formatPreview_headings (ps qs : List String) (h : String)
    (hps : ∀ p ∈ ps, plainText p = true) (hqs : ∀ q ∈ qs, plainText q = true)
    (hh : plainText h = true) :
    formatPreview (.prim (.str (join (ps ++ ("# " ++ h) :: qs) "\n"))) =
      join (ps ++ ("<h1 class=\"text-3xl font-bold text-gray-900 dark:text-white mb-4\">" ++ h ++
        "</h1>") :: qs) "<br>" ∧
    formatPreview (.prim (.str (join (ps ++ ("## " ++ h) :: qs) "\n"))) =
      join (ps ++ ("<h2 class=\"text-2xl font-bold text-gray-800 dark:text-gray-200 mb-3 mt-6\">"
        ++ h ++ "</h2>") :: qs) "<br>" ∧
    formatPreview (.prim (.str (join (ps ++ ("### " ++ h) :: qs) "\n"))) =
      join (ps ++ ("<h3 class=\"text-xl font-semibold text-gray-700 dark:text-gray-300 mb-2 mt-4\">"
        ++ h ++ "</h3>") :: qs) "<br>" ∧
    ¬ includes (formatPreview (.prim (.str (join (ps ++ ("## " ++ h) :: qs) "\n")))) "<h1" ∧
    ¬ includes (formatPreview (.prim (.str (join (ps ++ ("### " ++ h) :: qs) "\n")))) "<h1" := by
  have lps := plain_lines ps hps
  have lqs := plain_lines qs hqs
  have e1 := formatPreview_lines ps qs ("# " ++ h)
    ("<h1 class=\"text-3xl font-bold text-gray-900 dark:text-white mb-4\">" ++ h ++ "</h1>")
    (append_ne_empty _ _ (by decide))
    (by simpa using markdownToHtml_h1_lines _ _ h.data lps lqs hh)
  have e2 := formatPreview_lines ps qs ("## " ++ h)
    ("<h2 class=\"text-2xl font-bold text-gray-800 dark:text-gray-200 mb-3 mt-6\">" ++ h ++
      "</h2>")
    (append_ne_empty _ _ (by decide))
    (by simpa using markdownToHtml_h2_lines _ _ h.data lps lqs hh)
  have e3 := formatPreview_lines ps qs ("### " ++ h)
    ("<h3 class=\"text-xl font-semibold text-gray-700 dark:text-gray-300 mb-2 mt-4\">" ++ h ++
      "</h3>")
    (append_ne_empty _ _ (by decide))
    (by simpa using markdownToHtml_h3_lines _ _ h.data lps lqs hh)
  refine ⟨e1, e2, e3, ?_, ?_⟩
  · rw [e2]
    have := lines_without_h1 (ps.map String.data) (qs.map String.data)
      "<h2 class=\"text-2xl font-bold text-gray-800 dark:text-gray-200 mb-3 mt-6\">".data
      "</h2>".data h.data lps lqs hh (by decide) (by decide)
    simpa [includes, join] using this
  · rw [e3]
    have := lines_without_h1 (ps.map String.data) (qs.map String.data)
      "<h3 class=\"text-xl font-semibold text-gray-700 dark:text-gray-300 mb-2 mt-4\">".data
      "</h3>".data h.data lps lqs hh (by decide) (by decide)
    simpa [includes, join] using this

/-- Witness of C22: the heading `About Me` between two plain lines. -/
theorem formatPreview_headings_witness :
    formatPreview (.prim (.str (join (["Intro"] ++ ("# " ++ "About Me") :: ["Outro"]) "\n"))) =
      join (["Intro"] ++
        ("<h1 class=\"text-3xl font-bold text-gray-900 dark:text-white mb-4\">" ++ "About Me" ++
        "</h1>") :: ["Outro"]) "<br>" :=
  (formatPreview_headings ["Intro"] ["Outro"] "About Me" (by decide) (by decide) (by decide)).1

/-! ## Theorems: the fenced-code rule never fires -/

/-- The chain of `formatPreview` is the six rules before the fenced-code rule,
that rule, and the six rules behind it. -/
theorem markdownToHtml_fenced_between (s : List Char) :
    markdownToHtml s = afterFenced (fencedPass (beforeFenced s)) := rfl

theorem lazyUntil_single_free (x : Char) (dotAll : Bool) (t body : List Char)
    (h : lazyUntil [x] dotAll t = some body) : x ∉ body := by
  induction t generalizing body with
  | nil => simp [lazyUntil, List.isPrefixOf] at h
  | cons c cs ih =>
    rw [lazyUntil] at h
    by_cases hxc : x = c
    · subst hxc
      simp [List.isPrefixOf] at h
      subst h
      simp
    · have hp : [x].isPrefixOf (c :: cs) = false := by simp [List.isPrefixOf, hxc]
      rw [hp] at h
      simp only [Bool.false_eq_true, ↓reduceIte] at h
      split at h
      · exact absurd h (by simp)
      · obtain ⟨b, hb, rfl⟩ := Option.map_eq_some'.mp h
        simp only [List.mem_cons, not_or]
        exact ⟨hxc, ih b hb⟩

theorem lazyUntil_starts (stop : List Char) (dotAll : Bool) (t body : List Char)
    (h : lazyUntil stop dotAll t = some body) : body <+: t := by
  induction t generalizing body with
  | nil =>
    rw [lazyUntil] at h
    split at h
    · simp only [Option.some.injEq] at h
      subst h
      exact List.nil_prefix
    · exact absurd h (by simp)
  | cons c cs ih =>
    rw [lazyUntil] at h
    split at h
    · simp only [Option.some.injEq] at h
      subst h
      exact List.nil_prefix
    · split at h
      · exact absurd h (by simp)
      · obtain ⟨b, hb, rfl⟩ := Option.map_eq_some'.mp h
        exact (List.prefix_cons_inj c).mpr (ih b hb)

theorem adjacent_append_free (x : Char) (out r : List Char) (h : x ∉ out) :
    adjacent x (out ++ r) = adjacent x r := by
  induction out with
  | nil => rfl
  | cons a as ih =>
    simp only [List.mem_cons, not_or] at h
    have hax : (a == x) = false := by
      simp only [beq_eq_false_iff_ne, ne_eq]
      exact fun hc => h.1 hc.symm
    have ih' := ih h.2
    cases hrest : as ++ r with
    | nil =>
      obtain ⟨h1, h2⟩ := List.append_eq_nil.mp hrest
      subst h1
      subst h2
      simp [adjacent]
    | cons b bs =>
      rw [hrest] at ih'
      simp [hrest, adjacent, hax, ih']

/-- No two backticks are neighbours behind a pass that replaces every pair of
neighbouring `x` and writes no `x`. -/
theorem replaceGo_no_adjacent (x : Char) (m : Matcher)
    (hout : ∀ t out n, m t = some (out, n) → out ≠ [] ∧ x ∉ out)
    (hdd : ∀ ds, m (x :: x :: ds) ≠ none) (s : List Char) (k : Nat) :
    adjacent x (replaceGo m k s) = false := by
  have hhead : ∀ t, (replaceGo m 0 t).head? = some x → t.head? = some x ∧ m t = none := by
    intro t ht
    cases t with
    | nil => simp [replaceGo] at ht
    | cons c cs =>
      cases hm : m (c :: cs) with
      | none =>
        simp only [replaceGo, hm, List.head?_cons, Option.some.injEq] at ht
        simp [ht]
      | some p =>
        obtain ⟨out, n⟩ := p
        obtain ⟨hne, hx⟩ := hout _ _ _ hm
        simp only [replaceGo, hm] at ht
        cases out with
        | nil => exact absurd rfl hne
        | cons o os =>
          simp only [List.cons_append, List.head?_cons, Option.some.injEq] at ht
          subst ht
          exact absurd (List.mem_cons_self _ _) hx
  induction s generalizing k with
  | nil => cases k <;> simp [replaceGo, adjacent]
  | cons c cs ih =>
    cases k with
    | succ k => simpa [replaceGo] using ih k
    | zero =>
      cases hm : m (c :: cs) with
      | some p =>
        obtain ⟨out, n⟩ := p
        simp only [replaceGo, hm]
        rw [adjacent_append_free x out _ (hout _ _ _ hm).2]
        exact ih (n - 1)
      | none =>
        simp only [replaceGo, hm]
        cases hr : replaceGo m 0 cs with
        | nil => rfl
        | cons b bs =>
          have ih0 := ih 0
          rw [hr] at ih0
          simp only [adjacent, ih0, Bool.or_false, Bool.and_eq_false_imp, beq_iff_eq]
          intro hcx
          subst hcx
          simp only [beq_eq_false_iff_ne, ne_eq]
          intro hbx
          subst hbx
          have hh := hhead cs (by simp [hr])
          cases cs with
          | nil => simp at hh
          | cons d ds =>
            simp only [List.head?_cons, Option.some.injEq] at hh
            obtain ⟨hd, _⟩ := hh
            subst hd
            exact hdd ds hm

theorem adjacent_of_infix (x : Char) (r : List Char) (h : [x, x] <:+: r) :
    adjacent x r = true := by
  obtain ⟨a, b, hab⟩ := h
  subst hab
  induction a with
  | nil => simp [adjacent]
  | cons c cs ih =>
    cases hrest : cs ++ [x, x] ++ b with
    | nil => simp at hrest
    | cons d ds =>
      rw [hrest] at ih
      simp only [List.cons_append, List.append_assoc] at hrest ⊢
      rw [hrest]
      simp [adjacent, ih]

/-- What a match of a delimited pattern writes: the two tags around a part of
the matched text. -/
theorem delimited_out (delim : String) (dotAll : Bool) (opening closing : String)
    (t out : List Char) (n : Nat) (h : delimited delim dotAll opening closing t = some (out, n)) :
    ∃ body, out = opening.data ++ body ++ closing.data ∧
      lazyUntil delim.data dotAll (t.drop delim.length) = some body := by
  unfold delimited at h
  split at h
  · obtain ⟨body, hb, hout⟩ := Option.map_eq_some'.mp h
    simp only [Prod.mk.injEq] at hout
    exact ⟨body, hout.1.symm, hb⟩
  · exact absurd h (by simp)

/-- Behind the inline-code rule no two backticks are neighbours. -/
theorem beforeFenced_no_adjacent (s : List Char) : adjacent '\x60' (beforeFenced s) = false := by
  unfold beforeFenced replaceAll
  apply replaceGo_no_adjacent
  · intro t out n h
    obtain ⟨body, rfl, hb⟩ := delimited_out _ _ _ _ _ _ _ h
    have hd : "\x60".data = ['\x60'] := rfl
    rw [hd] at hb
    have hfree := lazyUntil_single_free _ _ _ _ hb
    refine ⟨?_, ?_⟩
    · intro hnil
      have := congrArg List.length hnil
      simp at this
    · simp only [List.mem_append, not_or]
      exact ⟨⟨by decide, hfree⟩, by decide⟩
  · intro ds
    have hd : "\x60".data = ['\x60'] := rfl
    have hl : "\x60".length = 1 := rfl
    simp [delimited, hd, hl, lazyUntil, List.isPrefixOf]

/-- The fenced-code rule changes nothing behind the inline-code rule. -/
theorem fencedPass_beforeFenced (s : List Char) :
    fencedPass (beforeFenced s) = beforeFenced s := by
  unfold fencedPass replaceAll
  apply replaceGo_no_occurrence _ "\x60\x60\x60".data (fun t ht => delimited_none _ _ _ _ t ht)
  intro h3
  have h2 : ['\x60', '\x60'] <:+: beforeFenced s :=
    List.IsInfix.trans ⟨[], ['\x60'], rfl⟩ h3
  have := adjacent_of_infix _ _ h2
  rw [beforeFenced_no_adjacent] at this
  exact absurd this (by decide)

/-! ## Theorems: texts that only the input can bring into the preview -/

theorem infix_behind_cleared (W T Y : List Char) (hT : clears W T = true)
    (h : W <:+: T ++ Y) : W <:+: Y := by
  induction T with
  | nil => simpa using h
  | cons c cs ih =>
    simp only [clears, Bool.and_eq_true] at hT
    rw [List.cons_append, List.infix_cons_iff] at h
    rcases h with h | h
    · have h1 : W.isPrefixOf (c :: cs ++ Y) = true := List.isPrefixOf_iff_prefix.mpr h
      rw [mismatch_isPrefixOf W (c :: cs) Y hT.1] at h1
      exact absurd h1 (by decide)
    · exact ih hT.2 h

/-- An occurrence of `W` around a tag that seals it lies before the tag or
behind it. -/
theorem infix_past_tag (W T : List Char) (hT : sealedBy W T = true) (P Y : List Char)
    (h : W <:+: P ++ T ++ Y) : W <:+: P ∨ W <:+: Y := by
  cases T with
  | nil => simp [sealedBy] at hT
  | cons t ts =>
    simp only [sealedBy, Bool.and_eq_true, Bool.not_eq_true'] at hT
    obtain ⟨h0, hc⟩ := hT
    have ht : t ∉ W.tail := by
      intro hmem
      have h1 : W.tail.contains t = true := List.elem_iff.mpr hmem
      rw [h0] at h1
      exact absurd h1 (by decide)
    induction P with
    | nil => exact Or.inr (infix_behind_cleared W (t :: ts) Y hc (by simpa using h))
    | cons p ps ih =>
      rw [List.append_assoc, List.cons_append, List.infix_cons_iff] at h
      rcases h with h | h
      · obtain ⟨r, hr⟩ := h
        have hr' : W ++ r = (p :: ps) ++ (t :: ts ++ Y) := by simpa using hr
        rcases List.append_eq_append_iff.mp hr' with ⟨a, ha, _⟩ | ⟨c, hc', hc2⟩
        · exact Or.inl ⟨[], a, by simp [ha]⟩
        · cases c with
          | nil => exact Or.inl ⟨[], [], by simp [hc']⟩
          | cons d ds =>
            simp only [List.cons_append, List.cons.injEq] at hc2
            exfalso
            apply ht
            rw [hc', ← hc2.1]
            simp
      · rcases ih (by simpa using h) with h1 | h1
        · exact Or.inl (h1.trans (List.suffix_cons p ps).isInfix)
        · exact Or.inr h1

/-- An occurrence of `W` around a text wrapped in two tags that seal it lies
before the wrapped text, in it, or behind it. -/
theorem infix_past_wrap (W O C body : List Char) (hO : sealedBy W O = true)
    (hC : sealedBy W C = true) (P Y : List Char) (h : W <:+: P ++ (O ++ body ++ C) ++ Y) :
    W <:+: P ∨ W <:+: body ∨ W <:+: Y := by
  have h1 : W <:+: P ++ O ++ (body ++ C ++ Y) := by simpa using h
  rcases infix_past_tag W O hO P _ h1 with h2 | h2
  · exact Or.inl h2
  · rcases infix_past_tag W C hC body Y h2 with h3 | h3
    · exact Or.inr (Or.inl h3)
    · exact Or.inr (Or.inr h3)

/-- A global replacement whose matches write only sealed tags and parts of the
matched text brings no new occurrence of `W`. -/
theorem replaceGo_infix (W : List Char) (m : Matcher)
    (hm : ∀ s out n, m s = some (out, n) → ∀ P Y, W <:+: P ++ out ++ Y →
      W <:+: P ∨ W <:+: s ∨ W <:+: Y)
    (s : List Char) (k : Nat) (P : List Char) (h : W <:+: P ++ replaceGo m k s) :
    W <:+: P ++ s.drop k := by
  induction s generalizing k P with
  | nil =>
    have : replaceGo m k [] = [] := by cases k <;> simp [replaceGo]
    simpa [this] using h
  | cons c cs ih =>
    cases k with
    | succ k =>
      simp only [replaceGo] at h
      simpa using ih k P h
    | zero =>
      cases hmc : m (c :: cs) with
      | none =>
        simp only [replaceGo, hmc] at h
        have h1 : W <:+: (P ++ [c]) ++ replaceGo m 0 cs := by simpa using h
        simpa using ih 0 (P ++ [c]) h1
      | some p =>
        obtain ⟨out, n⟩ := p
        simp only [replaceGo, hmc] at h
        have h1 : W <:+: P ++ out ++ replaceGo m (n - 1) cs := by simpa using h
        simp only [List.drop_zero]
        rcases hm _ _ _ hmc P _ h1 with h2 | h2 | h2
        · exact h2.trans (List.prefix_append _ _).isInfix
        · exact h2.trans (List.suffix_append _ _).isInfix
        · have h3 := ih (n - 1) [] (by simpa using h2)
          simp only [List.nil_append] at h3
          exact h3.trans ((List.drop_suffix _ _).isInfix.trans
            ((List.suffix_cons c cs).isInfix.trans (List.suffix_append _ _).isInfix))

theorem replaceAll_infix (W : List Char) (m : Matcher)
    (hm : ∀ s out n, m s = some (out, n) → ∀ P Y, W <:+: P ++ out ++ Y →
      W <:+: P ∨ W <:+: s ∨ W <:+: Y)
    (s : List Char) (h : W <:+: replaceAll m s) : W <:+: s := by
  have := replaceGo_infix W m hm s 0 [] (by simpa [replaceAll] using h)
  simpa using this

/-- A line-start rule whose two tags seal `W` brings no new occurrence of it. -/
theorem replaceLineGo_infix (W pre O C : List Char) (hO : sealedBy W O = true)
    (hC : sealedBy W C = true) (s : List Char) (b : Bool) (k : Nat) (P : List Char)
    (h : W <:+: P ++ replaceLineGo pre O C b k s) : W <:+: P ++ s.drop k := by
  induction s generalizing b k P with
  | nil =>
    have : replaceLineGo pre O C b k [] = [] := by cases k <;> simp [replaceLineGo]
    simpa [this] using h
  | cons c cs ih =>
    cases k with
    | succ k =>
      simp only [replaceLineGo] at h
      simpa using ih _ k P h
    | zero =>
      rw [replaceLineGo_head] at h
      simp only [List.drop_zero]
      split at h
      · have h1 : W <:+: P ++ (O ++ List.takeWhile (fun x => !isLineTerminator x)
            (List.drop pre.length (c :: cs)) ++ C) ++ replaceLineGo pre O C (isLineTerminator c)
            (pre.length + (List.takeWhile (fun x => !isLineTerminator x)
              (List.drop pre.length (c :: cs))).length - 1) cs := by
          simpa using h
        rcases infix_past_wrap W O C _ hO hC P _ h1 with h2 | h2 | h2
        · exact h2.trans (List.prefix_append _ _).isInfix
        · exact h2.trans ((List.takeWhile_prefix _).isInfix.trans
            ((List.drop_suffix _ _).isInfix.trans (List.suffix_append _ _).isInfix))
        · have h3 := ih _ _ [] (by simpa using h2)
          simp only [List.nil_append] at h3
          exact h3.trans ((List.drop_suffix _ _).isInfix.trans
            ((List.suffix_cons c cs).isInfix.trans (List.suffix_append _ _).isInfix))
      · have h1 : W <:+: (P ++ [c]) ++ replaceLineGo pre O C (isLineTerminator c) 0 cs := by
          simpa using h
        simpa using ih _ 0 (P ++ [c]) h1

theorem replaceLineStart_infix (W : List Char) (pre opening closing : String)
    (hO : sealedBy W opening.data = true) (hC : sealedBy W closing.data = true)
    (s : List Char) (h : W <:+: replaceLineStart pre opening closing s) : W <:+: s := by
  have := replaceLineGo_infix W pre.data opening.data closing.data hO hC s true 0 []
    (by simpa [replaceLineStart] using h)
  simpa using this

theorem delimited_infix (W : List Char) (delim : String) (dotAll : Bool)
    (opening closing : String) (hO : sealedBy W opening.data = true)
    (hC : sealedBy W closing.data = true) (s : List Char)
    (h : W <:+: replaceAll (delimited delim dotAll opening closing) s) : W <:+: s := by
  apply replaceAll_infix W _ _ s h
  intro t out n hm P Y hw
  obtain ⟨body, rfl, hb⟩ := delimited_out _ _ _ _ _ _ _ hm
  rcases infix_past_wrap W _ _ body hO hC P Y hw with h1 | h1 | h1
  · exact Or.inl h1
  · exact Or.inr (Or.inl (h1.trans ((lazyUntil_starts _ _ _ _ hb).isInfix.trans
      (List.drop_suffix _ _).isInfix)))
  · exact Or.inr (Or.inr h1)

theorem literal_infix (W : List Char) (text replacement : String)
    (hR : sealedBy W replacement.data = true) (s : List Char)
    (h : W <:+: replaceAll (literal text replacement) s) : W <:+: s := by
  apply replaceAll_infix W _ _ s h
  intro t out n hm P Y hw
  unfold literal at hm
  split at hm
  · simp only [Option.some.injEq, Prod.mk.injEq] at hm
    rw [← hm.1] at hw
    rcases infix_past_tag W _ hR P Y hw with h1 | h1
    · exact Or.inl h1
    · exact Or.inr (Or.inr h1)
  · exact absurd hm (by simp)

theorem link_infix (W : List Char) (before between after : String)
    (hB : sealedBy W before.data = true) (hM : sealedBy W between.data = true)
    (hA : sealedBy W after.data = true) (s : List Char)
    (h : W <:+: replaceAll (link before between after) s) : W <:+: s := by
  apply replaceAll_infix W _ _ s h
  intro t out n hm P Y hw
  unfold link at hm
  split at hm
  · split at hm
    · exact absurd hm (by simp)
    · rename_i text htext
      split at hm
      · exact absurd hm (by simp)
      · rename_i url hurl
        simp only [Option.some.injEq, Prod.mk.injEq] at hm
        rw [← hm.1] at hw
        have h1 : W <:+: P ++ before.data ++ (url ++ between.data ++ text ++ after.data ++ Y) := by
          simpa using hw
        rcases infix_past_tag W _ hB P _ h1 with h2 | h2
        · exact Or.inl h2
        · have h3 : W <:+: url ++ between.data ++ (text ++ after.data ++ Y) := by simpa using h2
          rcases infix_past_tag W _ hM url _ h3 with h4 | h4
          · exact Or.inr (Or.inl (h4.trans ((lazyUntil_starts _ _ _ _ hurl).isInfix.trans
              (List.drop_suffix _ _).isInfix)))
          · rcases infix_past_tag W _ hA text Y h4 with h5 | h5
            · exact Or.inr (Or.inl (h5.trans ((lazyUntil_starts _ _ _ _ htext).isInfix.trans
                (List.drop_suffix _ _).isInfix)))
            · exact Or.inr (Or.inr h5)
  · exact absurd hm (by simp)

/-- The chain of substitutions brings no occurrence of a text that is foreign
to the replacement texts: the fenced-code rule, whose tag is not among them,
never fires. -/
theorem markdownToHtml_infix (W : String) (hW : foreignTo W = true) (s : List Char)
    (h : W.data <:+: markdownToHtml s) : W.data <:+: s := by
  have hs : ∀ T ∈ tagTexts, sealedBy W.data T.data = true :=
    fun T hT => List.all_eq_true.mp hW T hT
  rw [markdownToHtml_fenced_between, fencedPass_beforeFenced] at h
  unfold afterFenced at h
  have h13 := literal_infix _ _ _ (hs _ (by simp [tagTexts])) _ h
  have h12 := literal_infix _ _ _ (hs _ (by simp [tagTexts])) _ h13
  have h11 := literal_infix _ _ _ (hs _ (by simp [tagTexts])) _ h12
  have h10 := replaceLineStart_infix _ _ _ _ (hs _ (by simp [tagTexts]))
    (hs _ (by simp [tagTexts])) _ h11
  have h9 := replaceLineStart_infix _ _ _ _ (hs _ (by simp [tagTexts]))
    (hs _ (by simp [tagTexts])) _ h10
  have h8 := link_infix _ _ _ _ (hs _ (by simp [tagTexts])) (hs _ (by simp [tagTexts]))
    (hs _ (by simp [tagTexts])) _ h9
  unfold beforeFenced at h8
  have h6 := delimited_infix _ _ _ _ _ (hs _ (by simp [tagTexts]))
    (hs _ (by simp [tagTexts])) _ h8
  have h5 := delimited_infix _ _ _ _ _ (hs _ (by simp [tagTexts]))
    (hs _ (by simp [tagTexts])) _ h6
  have h4 := delimited_infix _ _ _ _ _ (hs _ (by simp [tagTexts]))
    (hs _ (by simp [tagTexts])) _ h5
  have h3 := replaceLineStart_infix _ _ _ _ (hs _ (by simp [tagTexts]))
    (hs _ (by simp [tagTexts])) _ h4
  have h2 := replaceLineStart_infix _ _ _ _ (hs _ (by simp [tagTexts]))
    (hs _ (by simp [tagTexts])) _ h3
  exact replaceLineStart_infix _ _ _ _ (hs _ (by simp [tagTexts]))
    (hs _ (by simp [tagTexts])) _ h2

/-- The two ways `formatPreview` returns: the placeholder, or the chain of
substitutions on a non-empty string. -/
theorem formatPreview_cases (content : Input) :
    formatPreview content = noContentMessage ∨
    ∃ s, content = .prim (.str s) ∧ s ≠ "" ∧ formatPreview content = ⟨markdownToHtml s.data⟩ := by
  cases content with
  | record d => exact Or.inl rfl
  | prim v =>
    cases v with
    | str s =>
      by_cases hs : s = ""
      · subst hs
        exact Or.inl rfl
      · exact Or.inr ⟨s, rfl, hs, (formatPreview_str s hs).2⟩
    | _ =>
      exact Or.inl (by
        simp [formatPreview, formatPreviewTry, Input.isString, Value.isString, tryCatch])

/-- A text foreign to the replacement texts and to the placeholder is in the
preview only when the input is a string that holds it. -/
theorem formatPreview_infix (W : String) (hW : foreignTo W = true)
    (hp : ¬ includes noContentMessage W) (content : Input)
    (h : includes (formatPreview content) W) : includes content.text W := by
  rcases formatPreview_cases content with h1 | ⟨s, rfl, _, h1⟩
  · rw [h1] at h
    exact absurd h hp
  · rw [h1] at h
    exact markdownToHtml_infix W hW s.data h

/-! ## Theorems: fenced code and image embeds in the preview -/

/-- C28: the fenced-code substitution of `formatPreview` is a no-op for every
input `s`. The inline-code substitution, which runs before it, turns two
adjacent backticks into an empty `code` element, and the text it leaves holds
no two adjacent backticks; the fenced-code substitution returns that text as it
is, so the whole chain equals the chain without it; and the preview of any
argument `content` holds `<pre class=` only when `content` is a string that
holds it. -/
theorem fenced_rule_never_fires (content : Input) (s : String) :
    beforeFenced "\x60\x60".data =
      ("<code class=\"bg-gray-100 dark:bg-gray-800 px-2 py-1 rounded text-sm font-mono\">" ++
        "</code>").data ∧
    ¬ includes ⟨beforeFenced s.data⟩ "\x60\x60" ∧
    fencedPass (beforeFenced s.data) = beforeFenced s.data ∧
    markdownToHtml s.data = afterFenced (beforeFenced s.data) ∧
    (includes (formatPreview content) "<pre class=" → includes content.text "<pre class=") := by
  refine ⟨by decide, ?_, fencedPass_beforeFenced s.data, ?_, ?_⟩
  · intro h
    have h2 : ['\x60', '\x60'] <:+: beforeFenced s.data := h
    have := adjacent_of_infix _ _ h2
    rw [beforeFenced_no_adjacent] at this
    exact absurd this (by decide)
  · rw [markdownToHtml_fenced_between, fencedPass_beforeFenced]
  · exact formatPreview_infix "<pre class=" (by decide) (by decide) content

/-- Witness of C28: a string that holds the text `<pre class=` itself. -/
theorem fenced_rule_never_fires_witness :
    includes (Input.text (.prim (.str "<pre class=\"x\">y</pre>"))) "<pre class=" :=
  (fenced_rule_never_fires (.prim (.str "<pre class=\"x\">y</pre>")) "").2.2.2.2 (by decide)

/-- C29: `formatPreview` has no image rule. For every alt text `a` and address
`u` on one line that hold none of the characters `[ ] ( ) * \x60 <`, the image
embed `![a](u)` is rendered as the character `!` followed by the anchor element
with `href` `u` and content `a`; and the preview of any argument `content`
holds `<img` only when `content` is a string that holds it. -/
theorem image_embed_rendered_as_link (a u : String) (ha : linkText a = true)
    (hu : linkText u = true) (content : Input) :
    formatPreview (.prim (.str ("!" ++ markdownLink a u))) =
      "!" ++ ("<a href=\"" ++ u ++
        "\" target=\"_blank\" class=\"text-blue-600 dark:text-blue-400 hover:underline\">" ++
        a ++ "</a>") ∧
    (includes (formatPreview content) "<img" → includes content.text "<img") := by
  refine ⟨?_, formatPreview_infix "<img" (by decide) (by decide) content⟩
  have h := formatPreview_after_plain "!" a u (by decide) (by decide) ha hu
  simpa [anchorElement] using h

/-- Witness of C29: the language card that `generateGitHubStats` emits for the
user `octocat`, and a string that holds an `img` element. -/
theorem image_embed_rendered_as_link_witness :
    formatPreview (.prim (.str ("!" ++ markdownLink "Top Languages"
      "https://github-readme-stats.vercel.app/api/top-langs/?username=octocat&layout=compact&theme=default"))) =
      "!" ++ ("<a href=\"" ++
        "https://github-readme-stats.vercel.app/api/top-langs/?username=octocat&layout=compact&theme=default" ++
        "\" target=\"_blank\" class=\"text-blue-600 dark:text-blue-400 hover:underline\">" ++
        "Top Languages" ++ "</a>") ∧
    includes (Input.text (.prim (.str "<img src=\"x.png\">"))) "<img" :=
  ⟨(image_embed_rendered_as_link "Top Languages"
      "https://github-readme-stats.vercel.app/api/top-langs/?username=octocat&layout=compact&theme=default"
      (by decide) (by decide) (.prim (.str "<img src=\"x.png\">"))).1,
    (image_embed_rendered_as_link "Top Languages"
      "https://github-readme-stats.vercel.app/api/top-langs/?username=octocat&layout=compact&theme=default"
      (by decide) (by decide) (.prim (.str "<img src=\"x.png\">"))).2 (by decide)⟩

/-! ## Theorems: the link rule -/

/-- An occurrence of `W` around a text that shuts it out lies before that text
or behind it. -/
theorem infix_past_shut (W T : List Char) (hT : shutOut W T = true) (P Y : List Char)
    (h : W <:+: P ++ T ++ Y) : W <:+: P ∨ W <:+: Y := by
  simp only [shutOut, Bool.and_eq_true] at hT
  obtain ⟨hc, hs⟩ := hT
  induction P with
  | nil => exact Or.inr (infix_behind_cleared W T Y hc (by simpa using h))
  | cons p ps ih =>
    rw [List.append_assoc, List.cons_append, List.infix_cons_iff] at h
    rcases h with h | h
    · obtain ⟨r, hr⟩ := h
      have hr' : W ++ r = (p :: ps) ++ (T ++ Y) := by simpa using hr
      rcases List.append_eq_append_iff.mp hr' with ⟨a, ha, _⟩ | ⟨c, hc', hc2⟩
      · exact Or.inl ⟨[], a, by simp [ha]⟩
      · cases c with
        | nil => exact Or.inl ⟨[], [], by simp [hc']⟩
        | cons d ds =>
          exfalso
          have hmem : d :: ds ∈ W.tail.tails := by
            rw [List.mem_tails, hc']
            exact ⟨ps, rfl⟩
          have hmis := List.all_eq_true.mp hs _ hmem
          simp only [List.isEmpty_cons, Bool.false_or] at hmis
          have hpre : (d :: ds).isPrefixOf (T ++ Y) = true :=
            List.isPrefixOf_iff_prefix.mpr ⟨r, hc2.symm⟩
          rw [mismatch_isPrefixOf _ T Y hmis] at hpre
          exact absurd hpre (by decide)
    · rcases ih (by simpa using h) with h1 | h1
      · exact Or.inl (h1.trans (List.suffix_cons p ps).isInfix)
      · exact Or.inr h1

theorem replaceAll_no_occurrence (m : Matcher) (lit : List Char)
    (hm : ∀ t, lit.isPrefixOf t = false → m t = none) (s : List Char)
    (h : ¬ lit <:+: s) : replaceAll m s = s :=
  replaceGo_no_occurrence m lit hm s h

/-- A text that neither the address nor the text of a link holds, and that the
three parts of the anchor shut out, is not in the anchor element. -/
theorem anchor_without (W T U : List Char) (hW : W ≠ [])
    (h1 : shutOut W "<a href=\"".data = true)
    (h2 : shutOut W
      "\" target=\"_blank\" class=\"text-blue-600 dark:text-blue-400 hover:underline\">".data =
      true)
    (h3 : shutOut W "</a>".data = true) (hT : ¬ W <:+: T) (hU : ¬ W <:+: U) :
    ¬ W <:+: "<a href=\"".data ++ U ++
      "\" target=\"_blank\" class=\"text-blue-600 dark:text-blue-400 hover:underline\">".data ++
      T ++ "</a>".data := by
  have hnil : ¬ W <:+: [] := fun h => hW (List.eq_nil_of_infix_nil h)
  intro h
  have ha : W <:+: [] ++ "<a href=\"".data ++ (U ++
      "\" target=\"_blank\" class=\"text-blue-600 dark:text-blue-400 hover:underline\">".data ++
      T ++ "</a>".data) := by simpa using h
  rcases infix_past_shut W _ h1 [] _ ha with hx | hx
  · exact hnil hx
  · have hb : W <:+: U ++
        "\" target=\"_blank\" class=\"text-blue-600 dark:text-blue-400 hover:underline\">".data ++
        (T ++ "</a>".data) := by simpa using hx
    rcases infix_past_shut W _ h2 U _ hb with hy | hy
    · exact hU hy
    · have hc : W <:+: T ++ "</a>".data ++ [] := by simpa using hy
      rcases infix_past_shut W _ h3 T [] hc with hz | hz
      · exact hT hz
      · exact hnil hz

/-- The chain of substitutions on a link whose text and address let no other
rule fire: the link becomes one anchor element. -/
theorem markdownToHtml_link_exact (T U : List Char)
    (lT : T.all (fun c => !isLineTerminator c) = true)
    (lU : U.all (fun c => !isLineTerminator c) = true)
    (nT : ∀ x ∈ ['*', '\x60', '[', ']'], x ∉ T)
    (nU : ∀ x ∈ ['*', '\x60', '[', ')'], x ∉ U)
    (hT : ¬ "<li class=\"ml-4\">".data <:+: T ∧ ¬ "</li><br>".data <:+: T)
    (hU : ¬ "<li class=\"ml-4\">".data <:+: U ∧ ¬ "</li><br>".data <:+: U) :
    markdownToHtml ('[' :: (T ++ ']' :: '(' :: (U ++ [')']))) =
      "<a href=\"".data ++ U ++
        "\" target=\"_blank\" class=\"text-blue-600 dark:text-blue-400 hover:underline\">".data ++
        T ++ "</a>".data := by
  have hl0 : ('[' :: (T ++ ']' :: '(' :: (U ++ [')']))).all
      (fun c => !isLineTerminator c) = true := by
    simp only [List.all_cons, List.all_append, lT, lU]
    decide
  have hlR : ("<a href=\"".data ++ U ++
      "\" target=\"_blank\" class=\"text-blue-600 dark:text-blue-400 hover:underline\">".data ++
      T ++ "</a>".data).all (fun c => !isLineTerminator c) = true := by
    simp only [List.all_append, lT, lU]
    decide
  have hheadR : ∀ x ∈ ['#', '>', '-'], ("<a href=\"".data ++ U ++
      "\" target=\"_blank\" class=\"text-blue-600 dark:text-blue-400 hover:underline\">".data ++
      T ++ "</a>".data).head? ≠ some x := by
    intro x hx
    have hd : "<a href=\"".data = '<' :: "a href=\"".data := by decide
    simp only [List.mem_cons, List.mem_singleton, List.not_mem_nil, or_false] at hx
    rcases hx with rfl | rfl | rfl <;> simp [hd]
  have c0 : ∀ (x : Char) (xs : List Char), x ∈ ['*', '\x60'] →
      clears (x :: xs) ('[' :: (T ++ ']' :: '(' :: (U ++ [')']))) = true := by
    intro x xs hx
    have hxT : x ∉ T := nT x (by
      simp only [List.mem_cons, List.mem_singleton, List.not_mem_nil, or_false] at hx ⊢
      rcases hx with rfl | rfl <;> simp)
    have hxU : x ∉ U := nU x (by
      simp only [List.mem_cons, List.mem_singleton, List.not_mem_nil, or_false] at hx ⊢
      rcases hx with rfl | rfl <;> simp)
    apply clears_of_not_mem
    simp only [List.mem_cons, List.mem_singleton, List.not_mem_nil, or_false] at hx
    rcases hx with rfl | rfl <;> simp [hxT, hxU]
  have hnl : ∀ A : List Char, A.all (fun c => !isLineTerminator c) = true → '\n' ∉ A := by
    intro A hA hmem
    have := List.all_eq_true.mp hA '\n' hmem
    simp [isLineTerminator] at this
  have hlink : replaceAll (link "<a href=\""
      "\" target=\"_blank\" class=\"text-blue-600 dark:text-blue-400 hover:underline\">" "</a>")
      ('[' :: (T ++ ']' :: '(' :: (U ++ [')']))) =
      "<a href=\"".data ++ U ++
        "\" target=\"_blank\" class=\"text-blue-600 dark:text-blue-400 hover:underline\">".data ++
        T ++ "</a>".data := by
    have hT := lazyUntil_plain ']' ['('] false T (U ++ [')']) (nT _ (by simp))
      (fun c hc => by simpa using List.all_eq_true.mp lT c hc)
    have hU := lazyUntil_plain ')' [] false U [] (nU _ (by simp))
      (fun c hc => by simpa using List.all_eq_true.mp lU c hc)
    simp only [List.append_assoc, List.cons_append, List.nil_append, List.append_nil] at hT hU
    have hd : "[".data = ['['] := rfl
    have hd2 : "](".data = [']', '('] := rfl
    have hd3 : ")".data = [')'] := rfl
    have hdrop : List.drop (1 + T.length + 2) ('[' :: (T ++ ']' :: '(' :: (U ++ [')']))) =
        U ++ [')'] := by
      have : 1 + T.length + 2 = (T.length + 2) + 1 := by omega
      rw [this, List.drop_succ_cons, ← List.drop_drop]
      simp
    have hm : link "<a href=\""
        "\" target=\"_blank\" class=\"text-blue-600 dark:text-blue-400 hover:underline\">" "</a>"
        ('[' :: (T ++ ']' :: '(' :: (U ++ [')']))) =
        some ("<a href=\"".data ++ U ++
          "\" target=\"_blank\" class=\"text-blue-600 dark:text-blue-400 hover:underline\">".data ++
          T ++ "</a>".data, 1 + T.length + 2 + U.length + 1) := by
      simp only [link, hd, hd2, hd3, List.isPrefixOf, beq_self_eq_true, Bool.and_self,
        ↓reduceIte, List.drop_succ_cons, List.drop_zero, hT, hdrop, hU]
    have hmatch := replaceGo_match _ _ _ _ hm (by omega) (by simp; omega)
    have hend : List.drop (1 + T.length + 2 + U.length + 1)
        ('[' :: (T ++ ']' :: '(' :: (U ++ [')']))) = [] := by
      apply List.drop_eq_nil_of_le
      simp
      omega
    rw [hend] at hmatch
    unfold replaceAll
    rw [hmatch]
    simp [replaceGo]
  unfold markdownToHtml
  rw [replaceLineStart_one_line "# " _ _ _ hl0 (by rfl),
    replaceLineStart_one_line "## " _ _ _ hl0 (by rfl),
    replaceLineStart_one_line "### " _ _ _ hl0 (by rfl),
    replaceAll_clears _ "**".data (fun t ht => delimited_none _ _ _ _ t ht) _
      (c0 '*' ['*'] (by simp)),
    replaceAll_clears _ "*".data (fun t ht => delimited_none _ _ _ _ t ht) _ (c0 '*' [] (by simp)),
    replaceAll_clears _ "\x60".data (fun t ht => delimited_none _ _ _ _ t ht) _
      (c0 '\x60' [] (by simp)),
    replaceAll_clears _ "\x60\x60\x60".data (fun t ht => delimited_none _ _ _ _ t ht) _
      (c0 '\x60' ['\x60', '\x60'] (by simp)),
    hlink,
    replaceLineStart_one_line "> " _ _ _ hlR (head_ne_isPrefixOf _ '>' [' '] (hheadR _ (by simp))),
    replaceLineStart_one_line "- " _ _ _ hlR (head_ne_isPrefixOf _ '-' [' '] (hheadR _ (by simp))),
    replaceAll_clears _ "\n".data (fun t ht => literal_none _ _ t ht) _
      (clears_of_not_mem '\n' [] _ (hnl _ hlR)),
    replaceAll_no_occurrence _ "<li class=\"ml-4\">".data (fun t ht => literal_none _ _ t ht) _
      (anchor_without _ T U (by decide) (by decide) (by decide) (by decide) hT.1 hU.1),
    replaceAll_no_occurrence _ "</li><br>".data (fun t ht => literal_none _ _ t ht) _
      (anchor_without _ T U (by decide) (by decide) (by decide) (by decide) hT.2 hU.2)]

theorem anchorPart_facts (s : String) (h : anchorPart s = true) :
    s.data.all (fun c => !isLineTerminator c) = true ∧
    (∀ x ∈ ['*', '\x60', '[', ']', ')'], x ∉ s.data) ∧
    ¬ "<li class=\"ml-4\">".data <:+: s.data ∧ ¬ "</li><br>".data <:+: s.data := by
  simp only [anchorPart, Bool.and_eq_true, Bool.not_eq_true', decide_eq_false_iff_not] at h
  obtain ⟨⟨⟨h1, h2⟩, h3⟩, h4⟩ := h
  refine ⟨h1, ?_, h3, h4⟩
  intro x hx
  apply freeOf_not_mem _ s h2
  simp only [List.mem_cons, List.mem_singleton, List.not_mem_nil, or_false] at hx
  rcases hx with rfl | rfl | rfl | rfl | rfl <;> decide

/-- C21, refuted as stated: the texts `a\rb` and `u` hold no newline (U+000A)
and none of the characters `[ ] ( ) * \x60`, and no other rule fires; yet the
preview of `[a\rb](u)` is the input itself, with no anchor element, because the
groups of the link rule do not cross a carriage return. The same holds for
U+2028. -/
theorem formatPreview_link_across_carriage_return :
    freeOf "\n[]()*\x60" "a\rb" = true ∧ freeOf "\n[]()*\x60" "u" = true ∧
    formatPreview (.prim (.str (markdownLink "a\rb" "u"))) = "[a\rb](u)" ∧
    ¬ includes (formatPreview (.prim (.str (markdownLink "a\rb" "u")))) "<a" ∧
    freeOf "\n[]()*\x60" "a\u2028b" = true ∧
    formatPreview (.prim (.str (markdownLink "a\u2028b" "u"))) = "[a\u2028b](u)" := by
  decide

/-- C21, amended: for all texts `t` and `u` that hold no line terminator
(U+000A, U+000D, U+2028, U+2029), none of the characters `[ ] ( ) * \x60`, and
neither `<li class="ml-4">` nor `</li><br>` (the texts the last two rules look
for), the preview of `[t](u)` is a single anchor element whose `href` attribute
is `u`, whose `target` attribute is `_blank` and whose content is `t`. -/
theorem formatPreview_link (t u : String) (ht : anchorPart t = true) (hu : anchorPart u = true) :
    formatPreview (.prim (.str (markdownLink t u))) =
      "<a href=\"" ++ u ++
        "\" target=\"_blank\" class=\"text-blue-600 dark:text-blue-400 hover:underline\">" ++
        t ++ "</a>" := by
  have hdata : (markdownLink t u).data = '[' :: (t.data ++ ']' :: '(' :: (u.data ++ [')'])) := by
    simp [markdownLink]
  have hne : markdownLink t u ≠ "" := by
    intro hc
    have := congrArg String.data hc
    rw [hdata] at this
    simp at this
  obtain ⟨lT, nT, hT⟩ := anchorPart_facts t ht
  obtain ⟨lU, nU, hU⟩ := anchorPart_facts u hu
  rw [(formatPreview_str _ hne).2, hdata, markdownToHtml_link_exact t.data u.data lT lU
    (fun x hx => nT x (by
      simp only [List.mem_cons, List.mem_singleton, List.not_mem_nil, or_false] at hx ⊢
      tauto))
    (fun x hx => nU x (by
      simp only [List.mem_cons, List.mem_singleton, List.not_mem_nil, or_false] at hx ⊢
      tauto)) hT hU]
  apply String.ext
  simp

/-- Witness of C21 (amended): a link whose text and address hold `<`, `>` and
`&`. -/
theorem formatPreview_link_witness :
    formatPreview (.prim (.str (markdownLink "a<b>" "https://github.com/octocat?tab=a&x=<y>"))) =
      "<a href=\"" ++ "https://github.com/octocat?tab=a&x=<y>" ++
        "\" target=\"_blank\" class=\"text-blue-600 dark:text-blue-400 hover:underline\">" ++
        "a<b>" ++ "</a>" :=
  formatPreview_link "a<b>" "https://github.com/octocat?tab=a&x=<y>" (by decide) (by decide)

end ProfileGenerator
